import Mathlib

/-!
# Verification of the UTrie3 builder (icu4c/source/common/utrie3builder.cpp)

A shallow embedding of the mutable code-point-trie builder and its freeze
(compaction + serialization) pipeline, together with proofs of the
specification claims.

Modelling conventions:
* `uint32_t` values and offsets are `Nat`; wherever the C code masks or casts,
  the model does so explicitly (`% 0x10000` for `& 0xffff` / `(uint16_t)` casts).
* Right shifts / masks by powers of two are written with `/`, `%`, `*`
  (`c >> UTRIE3_SHIFT_2` is `c / 16`, `c & UTRIE3_DATA_MASK` is `c % 16`);
  each definition carries the original C expression in a comment.
* The per-slot arrays `flags[]`/`index[]` and the data array are total
  functions `Nat → Nat`; a C loop that fills a range with a value computed
  from the pre-loop state is modelled as the corresponding pointwise update.
  Loops whose iterations interact (the block loop of `setRange`, the
  compaction folds, `getRange`) are modelled as sequential recursions.
* `malloc` never fails in the model; the only allocation failure kept is the
  `UNEWTRIE3_MAX_DATA_LENGTH` capacity cap of `allocDataBlock` (the C code
  returns -1 there).  Fallible functions return `Except UErrorCode _`.
* The debug build is modelled: `UTRIE3_DEBUG` is unconditionally defined at
  the top of the source file, so the debug-only assignment
  `trie->initialValue = newTrie->index[newTrie->dataNullIndex]` in
  `compactData` is part of the compiled code and is included.
* Only the mutable build path is modelled (`trie->newTrie != nullptr`);
  the claims under verification all start from `utrie3bld_open`.
-/

/-! ## Shape constants (utrie3.h / utrie3_impl.h; values as in spec §3.1) -/

def UTRIE3_SHIFT_1 : Nat := 13
def UTRIE3_SHIFT_2 : Nat := 4
def UTRIE3_SHIFT_1_2 : Nat := UTRIE3_SHIFT_1 - UTRIE3_SHIFT_2
def UTRIE3_INDEX_SHIFT : Nat := 1
def UTRIE3_DATA_GRANULARITY : Nat := 2
-- 1 << UTRIE3_SHIFT_1
def UTRIE3_CP_PER_INDEX_1_ENTRY : Nat := 8192
-- 1 << UTRIE3_SHIFT_1_2
def UTRIE3_INDEX_2_BLOCK_LENGTH : Nat := 512
-- 1 << UTRIE3_SHIFT_2
def UTRIE3_DATA_BLOCK_LENGTH : Nat := 16
-- UTRIE3_DATA_BLOCK_LENGTH - 1
def UTRIE3_DATA_MASK : Nat := 15
-- 0x10000 >> UTRIE3_SHIFT_2
def UTRIE3_INDEX_2_BMP_LENGTH : Nat := 4096
-- 0x10000 >> UTRIE3_SHIFT_1
def UTRIE3_OMITTED_BMP_INDEX_1_LENGTH : Nat := 8
def UTRIE3_NO_INDEX2_NULL_OFFSET : Nat := 0xffff
def UTRIE3_NO_DATA_NULL_OFFSET : Nat := 0xfffff
def UTRIE3_16_VALUE_BITS : Nat := 0
def UTRIE3_32_VALUE_BITS : Nat := 1

def MAX_UNICODE : Nat := 0x10ffff
def UNICODE_LIMIT : Nat := 0x110000
def BMP_LIMIT : Nat := 0x10000
def ASCII_LIMIT : Nat := 0x80

-- UNICODE_LIMIT >> UTRIE3_SHIFT_2, etc.
def I_LIMIT : Nat := 69632
def BMP_I_LIMIT : Nat := 4096
def ASCII_I_LIMIT : Nat := 8

/-! Per-slot flag values (utrie3builder.cpp lines 76-80, 98). -/

def ALL_SAME : Nat := 0
def MIXED : Nat := 1
def SAME_AS : Nat := 2
def MOVED : Nat := 3
def TYPE_MASK : Nat := 3
def SUPP_DATA : Nat := 0x10

def UNEWTRIE3_INITIAL_DATA_LENGTH : Nat := 16384
def UNEWTRIE3_MEDIUM_DATA_LENGTH : Nat := 131072
def UNEWTRIE3_MAX_DATA_LENGTH : Nat := UNICODE_LIMIT

/-! ## Error codes (subset of UErrorCode used by the builder) -/

inductive UErrorCode where
  | U_ILLEGAL_ARGUMENT_ERROR
  | U_MEMORY_ALLOCATION_ERROR
  | U_NO_WRITE_PERMISSION
  | U_INDEX_OUTOFBOUNDS_ERROR
deriving DecidableEq, Repr

/-! ## Build-time state -/

/-- The build-time `UNewTrie3`: per-slot `flags[]`/`index[]` arrays (modelled
as total functions) and the growing 32-bit data array (block store). -/
structure UNewTrie3 where
  flags : Nat → Nat
  index : Nat → Nat
  data : Nat → Nat
  dataCapacity : Nat
  dataLength : Nat
  dataNullIndex : Int
deriving Inhabited

/-- The `UTrie3` handle during build: singular values plus the `UNewTrie3`.
Frozen-only fields that the claims observe (`indexLength`, `dataLength`,
`shiftedHighStart`, ...) are carried here as in the C struct. -/
structure UTrie3 where
  initialValue : Nat
  errorValue : Nat
  highValue : Nat
  highStart : Nat
  highStartLead16 : Nat
  shiftedHighStart : Nat
  index2NullOffset : Nat
  dataNullOffset : Nat
  indexLength : Nat
  dataLength : Nat
  newTrie : UNewTrie3
deriving Inhabited

/-- Pointwise update of a modelled array. -/
def upd (f : Nat → Nat) (i v : Nat) : Nat → Nat :=
  fun j => if j = i then v else f j

/-- `utrie3bld_open(initialValue, errorValue)`: the `UTrie3` is zeroed by
`memset`, then the listed fields are set.  The `flags`/`index` arrays are
uninitialized in C; the model uses 0 (unobservable while `highStart == 0`). -/
def utrie3bld_open (initialValue errorValue : Nat) : UTrie3 :=
  { initialValue := initialValue
    errorValue := errorValue
    highValue := initialValue
    highStart := 0
    highStartLead16 := 0
    shiftedHighStart := 0
    index2NullOffset := UTRIE3_NO_INDEX2_NULL_OFFSET
    dataNullOffset := UTRIE3_NO_DATA_NULL_OFFSET
    indexLength := 0
    dataLength := 0
    newTrie :=
      { flags := fun _ => 0
        index := fun _ => 0
        data := fun _ => 0
        dataCapacity := UNEWTRIE3_INITIAL_DATA_LENGTH
        dataLength := 0
        dataNullIndex := -1 } }

/-- `utrie3bld_get(trie, c)` (lines 297-313). -/
def utrie3bld_get (trie : UTrie3) (c : Nat) : Nat :=
  if c > MAX_UNICODE then trie.errorValue
  else if c ≥ trie.highStart then trie.highValue
  else
    -- i = c >> UTRIE3_SHIFT_2
    let i := c / UTRIE3_DATA_BLOCK_LENGTH
    if trie.newTrie.flags i = ALL_SAME then trie.newTrie.index i
    else -- MIXED: newTrie->data[newTrie->index[i] + (c & UTRIE3_DATA_MASK)]
      trie.newTrie.data (trie.newTrie.index i + c % UTRIE3_DATA_BLOCK_LENGTH)

/-- `writeBlock(block, value)` (lines 398-404): fill
`data[block .. block+UTRIE3_DATA_BLOCK_LENGTH)` with `value`. -/
def writeBlock (data : Nat → Nat) (block value : Nat) : Nat → Nat :=
  fun j => if block ≤ j ∧ j < block + UTRIE3_DATA_BLOCK_LENGTH then value else data j

/-- `ensureHighStart(trie, c)` (lines 406-419): if `c >= highStart`, round `c`
up to the next block boundary (`(c+UTRIE3_DATA_BLOCK_LENGTH) & ~UTRIE3_DATA_MASK`)
and fill the new slots with ALL_SAME / `initialValue`. -/
def ensureHighStart (trie : UTrie3) (c : Nat) : UTrie3 :=
  if c ≥ trie.highStart then
    let cUp := (c + UTRIE3_DATA_BLOCK_LENGTH) / UTRIE3_DATA_BLOCK_LENGTH
      * UTRIE3_DATA_BLOCK_LENGTH
    let i := trie.highStart / UTRIE3_DATA_BLOCK_LENGTH
    let iLimit := cUp / UTRIE3_DATA_BLOCK_LENGTH
    { trie with
      highStart := cUp
      newTrie := { trie.newTrie with
        flags := fun j => if i ≤ j ∧ j < iLimit then ALL_SAME else trie.newTrie.flags j
        index := fun j => if i ≤ j ∧ j < iLimit then trie.initialValue
                          else trie.newTrie.index j } }
  else trie

/-- `allocDataBlock(newTrie, value)` (lines 421-449): append a fresh block
filled with `value`; grow the capacity 16k → 128k → 0x110000; fail (C: −1)
past the final cap.  `malloc` success is assumed. -/
def allocDataBlock (newTrie : UNewTrie3) (value : Nat) : Option (Nat × UNewTrie3) :=
  let newBlock := newTrie.dataLength
  let newTop := newBlock + UTRIE3_DATA_BLOCK_LENGTH
  if newTop > newTrie.dataCapacity then
    if newTrie.dataCapacity < UNEWTRIE3_MEDIUM_DATA_LENGTH then
      some (newBlock, { newTrie with
        dataCapacity := UNEWTRIE3_MEDIUM_DATA_LENGTH
        dataLength := newTop
        data := writeBlock newTrie.data newBlock value })
    else if newTrie.dataCapacity < UNEWTRIE3_MAX_DATA_LENGTH then
      some (newBlock, { newTrie with
        dataCapacity := UNEWTRIE3_MAX_DATA_LENGTH
        dataLength := newTop
        data := writeBlock newTrie.data newBlock value })
    else none
  else
    some (newBlock, { newTrie with
      dataLength := newTop
      data := writeBlock newTrie.data newBlock value })

/-- `getDataBlock(newTrie, c)` (lines 457-470): return the MIXED block offset
for `c`'s slot, materializing an ALL_SAME slot into a fresh block first. -/
def getDataBlock (newTrie : UNewTrie3) (c : Nat) : Option (Nat × UNewTrie3) :=
  let i := c / UTRIE3_DATA_BLOCK_LENGTH  -- c >> UTRIE3_SHIFT_2
  if newTrie.flags i = MIXED then some (newTrie.index i, newTrie)
  else
    match allocDataBlock newTrie (newTrie.index i) with
    | none => none
    | some (newBlock, nt) =>
        some (newBlock, { nt with
          flags := upd nt.flags i MIXED
          index := upd nt.index i newBlock })

/-- `utrie3bld_set(trie, c, value)` (lines 474-498). -/
def utrie3bld_set (trie : UTrie3) (c value : Nat) : Except UErrorCode UTrie3 :=
  if c > MAX_UNICODE then .error .U_ILLEGAL_ARGUMENT_ERROR
  else
    let trie := ensureHighStart trie c
    match getDataBlock trie.newTrie c with
    | none => .error .U_MEMORY_ALLOCATION_ERROR
    | some (block, nt) =>
        -- newTrie->data[block + (c & UTRIE3_DATA_MASK)] = value
        .ok { trie with newTrie :=
          { nt with data := upd nt.data (block + c % UTRIE3_DATA_BLOCK_LENGTH) value } }

/-- `fillBlock(block, start, limit, value, initialValue, overwrite)`
(lines 504-521): write `value` at offsets `[start, limit)` of the block at
`block`; without overwrite only where the current entry is `initialValue`. -/
def fillBlock (data : Nat → Nat) (block start limit value initialValue : Nat)
    (overwrite : Bool) : Nat → Nat :=
  fun j =>
    if (block + start ≤ j ∧ j < block + limit) ∧
        (overwrite = true ∨ data j = initialValue) then value
    else data j

/-- The all-value-block loop of `utrie3bld_setRange` (lines 573-585),
iterating `n` whole blocks from `start` (sequential, one slot at a time). -/
def setRangeBlocks (newTrie : UNewTrie3) (initialValue : Nat) (value : Nat)
    (overwrite : Bool) (start : Nat) : Nat → UNewTrie3
  | 0 => newTrie
  | n + 1 =>
    let i := start / UTRIE3_DATA_BLOCK_LENGTH
    let nt :=
      if newTrie.flags i = ALL_SAME then
        if overwrite = true ∨ newTrie.index i = initialValue then
          { newTrie with index := upd newTrie.index i value }
        else newTrie
      else -- MIXED
        let d := fillBlock newTrie.data (newTrie.index i) 0 UTRIE3_DATA_BLOCK_LENGTH value initialValue overwrite
        { newTrie with data := d }
    setRangeBlocks nt initialValue value overwrite (start + UTRIE3_DATA_BLOCK_LENGTH) n

/-- Tail of `utrie3bld_setRange` after the leading partial block has been
handled: all-value blocks, then the trailing partial block (lines 566-597).
`start` is block-aligned here. -/
def setRangeRest (trie : UTrie3) (start limit value : Nat) (overwrite : Bool) :
    Except UErrorCode UTrie3 :=
  -- rest = limit & UTRIE3_DATA_MASK; limit &= ~UTRIE3_DATA_MASK
  let rest := limit % UTRIE3_DATA_BLOCK_LENGTH
  let blockLimit := limit - rest
  let n := (blockLimit - start) / UTRIE3_DATA_BLOCK_LENGTH
  let nt0 := setRangeBlocks trie.newTrie trie.initialValue value overwrite start n
  let trie := { trie with newTrie := nt0 }
  if rest > 0 then
    match getDataBlock trie.newTrie blockLimit with
    | none => .error .U_MEMORY_ALLOCATION_ERROR
    | some (block, nt) =>
        let d := fillBlock nt.data block 0 rest value trie.initialValue overwrite
        .ok { trie with newTrie := { nt with data := d } }
  else .ok trie

/-- `utrie3bld_setRange(trie, start, end, value, overwrite)` (lines 523-597). -/
def utrie3bld_setRange (trie : UTrie3) (start end_ value : Nat) (overwrite : Bool) :
    Except UErrorCode UTrie3 :=
  if start > MAX_UNICODE ∨ end_ > MAX_UNICODE ∨ start > end_ then
    .error .U_ILLEGAL_ARGUMENT_ERROR
  else if overwrite = false ∧ value = trie.initialValue then .ok trie
  else
    let trie := ensureHighStart trie end_
    let limit := end_ + 1
    if start % UTRIE3_DATA_BLOCK_LENGTH ≠ 0 then
      -- set partial block at [start .. following block boundary[
      match getDataBlock trie.newTrie start with
      | none => .error .U_MEMORY_ALLOCATION_ERROR
      | some (block, nt) =>
          let trie := { trie with newTrie := nt }
          -- nextStart = (start + UTRIE3_DATA_MASK) & ~UTRIE3_DATA_MASK
          let nextStart := (start + UTRIE3_DATA_MASK) / UTRIE3_DATA_BLOCK_LENGTH
            * UTRIE3_DATA_BLOCK_LENGTH
          if nextStart ≤ limit then
            let d := fillBlock trie.newTrie.data block (start % UTRIE3_DATA_BLOCK_LENGTH) UTRIE3_DATA_BLOCK_LENGTH value trie.initialValue overwrite
            let trie := { trie with newTrie := { trie.newTrie with data := d } }
            setRangeRest trie nextStart limit value overwrite
          else
            let d := fillBlock trie.newTrie.data block (start % UTRIE3_DATA_BLOCK_LENGTH) (limit % UTRIE3_DATA_BLOCK_LENGTH) value trie.initialValue overwrite
            .ok { trie with newTrie := { trie.newTrie with data := d } }
    else setRangeRest trie start limit value overwrite

/-! ## Build sequences and their specification semantics -/

/-- A build-path mutation: one `set` or `setRange` call. -/
inductive UOp where
  | uset (c v : Nat)
  | urange (s e v : Nat) (ow : Bool)

/-- Apply one mutation to a mutable trie. -/
def applyOp (t : UTrie3) : UOp → Except UErrorCode UTrie3
  | .uset c v => utrie3bld_set t c v
  | .urange s e v ow => utrie3bld_setRange t s e v ow

/-- Apply a sequence of mutations, short-circuiting on the first error
(the `U_FAILURE(*pErrorCode)` convention). -/
def applyOps (t : UTrie3) : List UOp → Except UErrorCode UTrie3
  | [] => .ok t
  | op :: rest =>
    match applyOp t op with
    | .error e => .error e
    | .ok t' => applyOps t' rest

/-- Specification-level effect of one mutation on the map of written values:
`set` overwrites at `c`; `setRange` writes on `[s, e]`, and without overwrite
only where the current value is `initialValue`. -/
def specWrite (initialValue : Nat) (m : Nat → Nat) : UOp → (Nat → Nat)
  | .uset c v => fun x => if x = c then v else m x
  | .urange s e v ow =>
    fun x => if s ≤ x ∧ x ≤ e ∧ (ow = true ∨ m x = initialValue) then v else m x

/-- Left fold of `specWrite` over an operation sequence. -/
def specFold (initialValue : Nat) (m : Nat → Nat) : List UOp → (Nat → Nat)
  | [] => m
  | op :: rest => specFold initialValue (specWrite initialValue m op) rest

/-- The value the specification assigns to each code point after running
`ops` on a fresh trie: the last value written, or `initialValue`. -/
def specRun (initialValue : Nat) (ops : List UOp) : Nat → Nat :=
  specFold initialValue (fun _ => initialValue) ops

/-! ## Numeric values of the shape constants (for `simp`/`omega`) -/

@[simp] theorem UTRIE3_SHIFT_1_eq : UTRIE3_SHIFT_1 = 13 := rfl
@[simp] theorem UTRIE3_SHIFT_2_eq : UTRIE3_SHIFT_2 = 4 := rfl
@[simp] theorem UTRIE3_INDEX_SHIFT_eq : UTRIE3_INDEX_SHIFT = 1 := rfl
@[simp] theorem UTRIE3_DATA_GRANULARITY_eq : UTRIE3_DATA_GRANULARITY = 2 := rfl
@[simp] theorem UTRIE3_CP_PER_INDEX_1_ENTRY_eq : UTRIE3_CP_PER_INDEX_1_ENTRY = 8192 := rfl
@[simp] theorem UTRIE3_INDEX_2_BLOCK_LENGTH_eq : UTRIE3_INDEX_2_BLOCK_LENGTH = 512 := rfl
@[simp] theorem UTRIE3_DATA_BLOCK_LENGTH_eq : UTRIE3_DATA_BLOCK_LENGTH = 16 := rfl
@[simp] theorem UTRIE3_DATA_MASK_eq : UTRIE3_DATA_MASK = 15 := rfl
@[simp] theorem UTRIE3_INDEX_2_BMP_LENGTH_eq : UTRIE3_INDEX_2_BMP_LENGTH = 4096 := rfl
@[simp] theorem UTRIE3_OMITTED_BMP_INDEX_1_LENGTH_eq : UTRIE3_OMITTED_BMP_INDEX_1_LENGTH = 8 := rfl
@[simp] theorem UTRIE3_NO_INDEX2_NULL_OFFSET_eq : UTRIE3_NO_INDEX2_NULL_OFFSET = 0xffff := rfl
@[simp] theorem UTRIE3_NO_DATA_NULL_OFFSET_eq : UTRIE3_NO_DATA_NULL_OFFSET = 0xfffff := rfl
@[simp] theorem UTRIE3_16_VALUE_BITS_eq : UTRIE3_16_VALUE_BITS = 0 := rfl
@[simp] theorem UTRIE3_32_VALUE_BITS_eq : UTRIE3_32_VALUE_BITS = 1 := rfl
@[simp] theorem MAX_UNICODE_eq : MAX_UNICODE = 0x10ffff := rfl
@[simp] theorem UNICODE_LIMIT_eq : UNICODE_LIMIT = 0x110000 := rfl
@[simp] theorem BMP_LIMIT_eq : BMP_LIMIT = 0x10000 := rfl
@[simp] theorem ASCII_LIMIT_eq : ASCII_LIMIT = 0x80 := rfl
@[simp] theorem I_LIMIT_eq : I_LIMIT = 69632 := rfl
@[simp] theorem BMP_I_LIMIT_eq : BMP_I_LIMIT = 4096 := rfl
@[simp] theorem ASCII_I_LIMIT_eq : ASCII_I_LIMIT = 8 := rfl
@[simp] theorem ALL_SAME_eq : ALL_SAME = 0 := rfl
@[simp] theorem MIXED_eq : MIXED = 1 := rfl
@[simp] theorem SAME_AS_eq : SAME_AS = 2 := rfl
@[simp] theorem MOVED_eq : MOVED = 3 := rfl
@[simp] theorem TYPE_MASK_eq : TYPE_MASK = 3 := rfl
@[simp] theorem SUPP_DATA_eq : SUPP_DATA = 0x10 := rfl

/-! ## Well-formedness of reachable build states -/

/-- Invariants of the mutable trie maintained by the build path. -/
structure TrieWF (t : UTrie3) : Prop where
  hsMul : t.highStart % UTRIE3_DATA_BLOCK_LENGTH = 0
  hsLe : t.highStart ≤ UNICODE_LIMIT
  flagsOk : ∀ i, i < t.highStart / UTRIE3_DATA_BLOCK_LENGTH →
    t.newTrie.flags i = ALL_SAME ∨ t.newTrie.flags i = MIXED
  mixedBound : ∀ i, i < t.highStart / UTRIE3_DATA_BLOCK_LENGTH →
    t.newTrie.flags i = MIXED →
    t.newTrie.index i + UTRIE3_DATA_BLOCK_LENGTH ≤ t.newTrie.dataLength
  mixedDisj : ∀ i j, i < t.highStart / UTRIE3_DATA_BLOCK_LENGTH →
    j < t.highStart / UTRIE3_DATA_BLOCK_LENGTH →
    t.newTrie.flags i = MIXED → t.newTrie.flags j = MIXED → i ≠ j →
    t.newTrie.index i + UTRIE3_DATA_BLOCK_LENGTH ≤ t.newTrie.index j ∨
    t.newTrie.index j + UTRIE3_DATA_BLOCK_LENGTH ≤ t.newTrie.index i
  highEqInit : t.highValue = t.initialValue

/-- Trie states reachable on the build path: `open` followed by successful
`set`/`setRange` calls. -/
inductive Reachable : UTrie3 → Prop where
  | base (initialValue errorValue : Nat) : Reachable (utrie3bld_open initialValue errorValue)
  | step (t t' : UTrie3) (op : UOp) : Reachable t → applyOp t op = .ok t' → Reachable t'

theorem wf_open (initialValue errorValue : Nat) : TrieWF (utrie3bld_open initialValue errorValue) := by
  constructor <;> simp [utrie3bld_open]

theorem get_open (initialValue errorValue c : Nat) (hc : c ≤ MAX_UNICODE) :
    utrie3bld_get (utrie3bld_open initialValue errorValue) c = initialValue := by
  simp at hc
  simp [utrie3bld_get, utrie3bld_open, hc]


/-! ### Case lemmas for `utrie3bld_get` -/

theorem get_of_err (t : UTrie3) (x : Nat) (h : MAX_UNICODE < x) :
    utrie3bld_get t x = t.errorValue := by
  simp only [utrie3bld_get, if_pos h]

theorem get_of_high (t : UTrie3) (x : Nat) (h1 : x ≤ MAX_UNICODE) (h2 : t.highStart ≤ x) :
    utrie3bld_get t x = t.highValue := by
  simp only [utrie3bld_get]
  rw [if_neg (by omega), if_pos h2]

theorem get_of_allsame (t : UTrie3) (x : Nat) (h1 : x ≤ MAX_UNICODE) (h2 : x < t.highStart)
    (h3 : t.newTrie.flags (x / 16) = ALL_SAME) :
    utrie3bld_get t x = t.newTrie.index (x / 16) := by
  simp only [utrie3bld_get, UTRIE3_DATA_BLOCK_LENGTH_eq]
  rw [if_neg (by omega), if_neg (by omega), if_pos h3]

theorem get_of_mixed (t : UTrie3) (x : Nat) (h1 : x ≤ MAX_UNICODE) (h2 : x < t.highStart)
    (h3 : t.newTrie.flags (x / 16) ≠ ALL_SAME) :
    utrie3bld_get t x = t.newTrie.data (t.newTrie.index (x / 16) + x % 16) := by
  simp only [utrie3bld_get, UTRIE3_DATA_BLOCK_LENGTH_eq]
  rw [if_neg (by omega), if_neg (by omega), if_neg h3]

/-! ### `ensureHighStart` lemmas -/

/-- Explicit description of `ensureHighStart` in the growing case
(`(c+16)/16*16/16 = c/16+1`). -/
theorem ehs_eq_of_ge (t : UTrie3) (c : Nat) (h : t.highStart ≤ c) :
    ensureHighStart t c = { t with
      highStart := (c + 16) / 16 * 16
      newTrie := { t.newTrie with
        flags := fun j => if t.highStart / 16 ≤ j ∧ j < c / 16 + 1 then ALL_SAME
                          else t.newTrie.flags j
        index := fun j => if t.highStart / 16 ≤ j ∧ j < c / 16 + 1 then t.initialValue
                          else t.newTrie.index j } } := by
  have hL : (c + 16) / 16 * 16 / 16 = c / 16 + 1 := by omega
  simp only [ensureHighStart, UTRIE3_DATA_BLOCK_LENGTH_eq, hL, ge_iff_le, h, if_true]

theorem ehs_eq_of_lt (t : UTrie3) (c : Nat) (h : c < t.highStart) :
    ensureHighStart t c = t := by
  simp only [ensureHighStart, ge_iff_le, if_neg (Nat.not_le.mpr h)]

theorem ehs_hs_of_ge (t : UTrie3) (c : Nat) (h : t.highStart ≤ c) :
    (ensureHighStart t c).highStart = (c + 16) / 16 * 16 := by
  rw [ehs_eq_of_ge t c h]

theorem ehs_flags_hi (t : UTrie3) (c : Nat) (j : Nat) (h : t.highStart ≤ c)
    (h1 : t.highStart / 16 ≤ j) (h2 : j < c / 16 + 1) :
    (ensureHighStart t c).newTrie.flags j = ALL_SAME ∧
    (ensureHighStart t c).newTrie.index j = t.initialValue := by
  rw [ehs_eq_of_ge t c h]
  constructor
  · show (if t.highStart / 16 ≤ j ∧ j < c / 16 + 1 then ALL_SAME else t.newTrie.flags j)
      = ALL_SAME
    rw [if_pos ⟨h1, h2⟩]
  · show (if t.highStart / 16 ≤ j ∧ j < c / 16 + 1 then t.initialValue else t.newTrie.index j)
      = t.initialValue
    rw [if_pos ⟨h1, h2⟩]

theorem ehs_fieldsEq (t : UTrie3) (c : Nat) :
    (ensureHighStart t c).initialValue = t.initialValue ∧
    (ensureHighStart t c).errorValue = t.errorValue ∧
    (ensureHighStart t c).highValue = t.highValue ∧
    (ensureHighStart t c).newTrie.data = t.newTrie.data ∧
    (ensureHighStart t c).newTrie.dataLength = t.newTrie.dataLength ∧
    (ensureHighStart t c).newTrie.dataCapacity = t.newTrie.dataCapacity ∧
    (ensureHighStart t c).newTrie.dataNullIndex = t.newTrie.dataNullIndex := by
  by_cases h : t.highStart ≤ c
  · rw [ehs_eq_of_ge t c h]
    exact ⟨rfl, rfl, rfl, rfl, rfl, rfl, rfl⟩
  · rw [ehs_eq_of_lt t c (by omega)]
    exact ⟨rfl, rfl, rfl, rfl, rfl, rfl, rfl⟩

theorem ehs_hs_ge (t : UTrie3) (c : Nat) : t.highStart ≤ (ensureHighStart t c).highStart := by
  by_cases h : t.highStart ≤ c
  · rw [ehs_eq_of_ge t c h]; simp only []; omega
  · rw [ehs_eq_of_lt t c (by omega)]

theorem ehs_hs_gt (t : UTrie3) (c : Nat) : c < (ensureHighStart t c).highStart := by
  by_cases h : t.highStart ≤ c
  · rw [ehs_eq_of_ge t c h]; simp only []; omega
  · rw [ehs_eq_of_lt t c (by omega)]; omega

theorem ehs_flags_lo (t : UTrie3) (c : Nat) (j : Nat) (hj : j < t.highStart / 16) :
    (ensureHighStart t c).newTrie.flags j = t.newTrie.flags j ∧
    (ensureHighStart t c).newTrie.index j = t.newTrie.index j := by
  by_cases h : t.highStart ≤ c
  · rw [ehs_eq_of_ge t c h]
    constructor <;> · simp only []; rw [if_neg (by omega)]
  · rw [ehs_eq_of_lt t c (by omega)]; exact ⟨rfl, rfl⟩

theorem ehs_wf (t : UTrie3) (c : Nat) (hwf : TrieWF t) (hc : c ≤ MAX_UNICODE) :
    TrieWF (ensureHighStart t c) := by
  by_cases h : t.highStart ≤ c
  · rw [ehs_eq_of_ge t c h]
    have hsMul := hwf.hsMul
    have hsLe := hwf.hsLe
    simp only [UTRIE3_DATA_BLOCK_LENGTH_eq, UNICODE_LIMIT_eq] at hsMul hsLe
    simp only [MAX_UNICODE_eq] at hc
    constructor
    · simp only [UTRIE3_DATA_BLOCK_LENGTH_eq]; omega
    · simp only [UNICODE_LIMIT_eq]; omega
    · -- flagsOk
      intro i hi
      simp only [UTRIE3_DATA_BLOCK_LENGTH_eq] at hi ⊢
      by_cases hcase : t.highStart / 16 ≤ i ∧ i < c / 16 + 1
      · left; rw [if_pos hcase]
      · have hilo : i < t.highStart / 16 := by omega
        rw [if_neg hcase]
        have := hwf.flagsOk i (by simpa using hilo)
        simpa using this
    · -- mixedBound
      intro i hi hmix
      simp only [UTRIE3_DATA_BLOCK_LENGTH_eq] at hi hmix ⊢
      by_cases hcase : t.highStart / 16 ≤ i ∧ i < c / 16 + 1
      · rw [if_pos hcase] at hmix; simp at hmix
      · have hilo : i < t.highStart / 16 := by omega
        rw [if_neg hcase] at hmix
        rw [if_neg hcase]
        have := hwf.mixedBound i (by simpa using hilo) (by simpa using hmix)
        simpa using this
    · -- mixedDisj
      intro i j hi hj hmi hmj hne
      simp only [UTRIE3_DATA_BLOCK_LENGTH_eq] at hi hj hmi hmj ⊢
      by_cases hci : t.highStart / 16 ≤ i ∧ i < c / 16 + 1
      · rw [if_pos hci] at hmi; simp at hmi
      by_cases hcj : t.highStart / 16 ≤ j ∧ j < c / 16 + 1
      · rw [if_pos hcj] at hmj; simp at hmj
      rw [if_neg hci] at hmi
      rw [if_neg hcj] at hmj
      rw [if_neg hci, if_neg hcj]
      have hilo : i < t.highStart / 16 := by omega
      have hjlo : j < t.highStart / 16 := by omega
      have := hwf.mixedDisj i j (by simpa using hilo) (by simpa using hjlo)
        (by simpa using hmi) (by simpa using hmj) hne
      simpa using this
    · exact hwf.highEqInit
  · rw [ehs_eq_of_lt t c (by omega)]; exact hwf

theorem ehs_get (t : UTrie3) (c : Nat) (hwf : TrieWF t) (x : Nat) :
    utrie3bld_get (ensureHighStart t c) x = utrie3bld_get t x := by
  by_cases h : t.highStart ≤ c
  case neg => rw [ehs_eq_of_lt t c (by omega)]
  have hfe := ehs_fieldsEq t c
  have hhs := ehs_hs_of_ge t c h
  have hsMul := hwf.hsMul
  simp only [UTRIE3_DATA_BLOCK_LENGTH_eq] at hsMul
  by_cases hx : MAX_UNICODE < x
  · rw [get_of_err _ _ hx, get_of_err _ _ hx, hfe.2.1]
  push_neg at hx
  by_cases hx2 : t.highStart ≤ x
  · rw [get_of_high t x hx hx2]
    by_cases hx3 : (ensureHighStart t c).highStart ≤ x
    · rw [get_of_high _ x hx hx3, hfe.2.2.1]
    · push_neg at hx3
      rw [hhs] at hx3
      have hf := ehs_flags_hi t c (x / 16) h (by omega) (by omega)
      rw [get_of_allsame _ x hx (by omega) hf.1, hf.2]
      exact hwf.highEqInit.symm
  · push_neg at hx2
    have hslot : x / 16 < t.highStart / 16 := by omega
    have hlo := ehs_flags_lo t c (x / 16) hslot
    have hx3 : x < (ensureHighStart t c).highStart := lt_of_lt_of_le hx2 (ehs_hs_ge t c)
    by_cases hall : t.newTrie.flags (x / 16) = ALL_SAME
    · rw [get_of_allsame t x hx hx2 hall,
        get_of_allsame _ x hx hx3 (hlo.1.trans hall), hlo.2]
    · rw [get_of_mixed t x hx hx2 hall,
        get_of_mixed _ x hx hx3 (fun hh => hall ((hlo.1).symm.trans hh)), hlo.2, hfe.2.2.2.1]

/-! ### `allocDataBlock` / `getDataBlock` lemmas -/

theorem allocDataBlock_spec (nt : UNewTrie3) (v b : Nat) (nt2 : UNewTrie3)
    (h : allocDataBlock nt v = some (b, nt2)) :
    b = nt.dataLength ∧ nt2.dataLength = nt.dataLength + 16 ∧
    nt2.flags = nt.flags ∧ nt2.index = nt.index ∧
    nt2.data = writeBlock nt.data nt.dataLength v := by
  unfold allocDataBlock at h
  simp only [UTRIE3_DATA_BLOCK_LENGTH_eq] at h ⊢
  split at h
  · split at h
    · simp only [Option.some.injEq, Prod.mk.injEq] at h
      obtain ⟨hb, hnt⟩ := h
      subst hb
      rw [← hnt]
      exact ⟨rfl, rfl, rfl, rfl, rfl⟩
    · split at h
      · simp only [Option.some.injEq, Prod.mk.injEq] at h
        obtain ⟨hb, hnt⟩ := h
        subst hb
        rw [← hnt]
        exact ⟨rfl, rfl, rfl, rfl, rfl⟩
      · exact absurd h (by simp)
  · simp only [Option.some.injEq, Prod.mk.injEq] at h
    obtain ⟨hb, hnt⟩ := h
    subst hb
    rw [← hnt]
    exact ⟨rfl, rfl, rfl, rfl, rfl⟩

theorem upd_self (f : Nat → Nat) (i v : Nat) : upd f i v i = v := by
  simp [upd]

theorem upd_other (f : Nat → Nat) (i v j : Nat) (h : j ≠ i) : upd f i v j = f j := by
  simp [upd, h]

theorem writeBlock_in (data : Nat → Nat) (b v j : Nat) (h1 : b ≤ j) (h2 : j < b + 16) :
    writeBlock data b v j = v := by
  simp only [writeBlock, UTRIE3_DATA_BLOCK_LENGTH_eq]
  rw [if_pos ⟨h1, h2⟩]

theorem writeBlock_out (data : Nat → Nat) (b v j : Nat) (h : j < b ∨ b + 16 ≤ j) :
    writeBlock data b v j = data j := by
  simp only [writeBlock, UTRIE3_DATA_BLOCK_LENGTH_eq]
  rw [if_neg (by omega)]

theorem getDataBlock_spec (t : UTrie3) (hwf : TrieWF t) (c : Nat)
    (_hc1 : c ≤ MAX_UNICODE) (hc2 : c < t.highStart)
    (b : Nat) (nt' : UNewTrie3)
    (h : getDataBlock t.newTrie c = some (b, nt')) :
    TrieWF { t with newTrie := nt' } ∧
    nt'.flags (c / 16) = MIXED ∧
    nt'.index (c / 16) = b ∧
    b + 16 ≤ nt'.dataLength ∧
    (∀ x, utrie3bld_get { t with newTrie := nt' } x = utrie3bld_get t x) := by
  have hsMul := hwf.hsMul
  simp only [UTRIE3_DATA_BLOCK_LENGTH_eq] at hsMul
  have hslot : c / 16 < t.highStart / 16 := by omega
  unfold getDataBlock at h
  simp only [UTRIE3_DATA_BLOCK_LENGTH_eq] at h
  split at h
  case isTrue hmix =>
    -- already MIXED: no state change
    simp only [Option.some.injEq, Prod.mk.injEq] at h
    obtain ⟨hb, hnt⟩ := h
    subst hnt
    refine ⟨hwf, hmix, hb, ?_, fun x => rfl⟩
    rw [hb.symm]
    exact (by simpa using hwf.mixedBound (c / 16) (by simpa using hslot) (by simpa using hmix))
  case isFalse hnm =>
    split at h
    case h_1 => exact absurd h (by simp)
    case h_2 newBlock nt2 halloc =>
      simp only [Option.some.injEq, Prod.mk.injEq] at h
      obtain ⟨hb, hnt⟩ := h
      obtain ⟨hb0, hdl2, hfl2, hix2, hdat2⟩ := allocDataBlock_spec _ _ _ _ halloc
      subst hb
      subst hb0
      -- the ALL_SAME value that was materialized
      have hall : t.newTrie.flags (c / 16) = ALL_SAME := by
        rcases hwf.flagsOk (c / 16) (by simpa using hslot) with h0 | h0
        · exact h0
        · exact absurd (by simpa using h0) hnm
      have hflags' : ∀ j, nt'.flags j = upd t.newTrie.flags (c / 16) MIXED j := by
        intro j; rw [← hnt]; simp only [upd, hfl2]
      have hindex' : ∀ j, nt'.index j = upd t.newTrie.index (c / 16) t.newTrie.dataLength j := by
        intro j; rw [← hnt]; simp only [upd, hix2]
      have hdata' : nt'.data = writeBlock t.newTrie.data t.newTrie.dataLength (t.newTrie.index (c / 16)) := by
        rw [← hnt]; exact hdat2
      have hdl' : nt'.dataLength = t.newTrie.dataLength + 16 := by
        rw [← hnt]; exact hdl2
      have hwf' : TrieWF { t with newTrie := nt' } := by
        constructor
        · exact hwf.hsMul
        · exact hwf.hsLe
        · intro j hj
          simp only [] at hj ⊢
          rw [hflags' j]
          by_cases hji : j = c / 16
          · subst hji; rw [upd_self]; right; rfl
          · rw [upd_other _ _ _ _ hji]; exact hwf.flagsOk j hj
        · intro j hj hm
          simp only [UTRIE3_DATA_BLOCK_LENGTH_eq] at hj hm ⊢
          rw [hflags' j] at hm
          rw [hindex' j, hdl']
          by_cases hji : j = c / 16
          · subst hji; rw [upd_self]
          · rw [upd_other _ _ _ _ hji] at hm ⊢
            have := hwf.mixedBound j (by simpa using hj) (by simpa using hm)
            simp only [UTRIE3_DATA_BLOCK_LENGTH_eq] at this
            omega
        · intro j k hj hk hmj hmk hne
          simp only [UTRIE3_DATA_BLOCK_LENGTH_eq] at hj hk hmj hmk ⊢
          rw [hflags' j] at hmj
          rw [hflags' k] at hmk
          rw [hindex' j, hindex' k]
          by_cases hji : j = c / 16
          · subst hji
            rw [upd_self]
            have hkne : k ≠ c / 16 := fun hh => hne (hh ▸ rfl)
            rw [upd_other _ _ _ _ hkne] at hmk ⊢
            have := hwf.mixedBound k (by simpa using hk) (by simpa using hmk)
            simp only [UTRIE3_DATA_BLOCK_LENGTH_eq] at this
            omega
          · rw [upd_other _ _ _ _ hji] at hmj ⊢
            by_cases hki : k = c / 16
            · subst hki
              rw [upd_self]
              have := hwf.mixedBound j (by simpa using hj) (by simpa using hmj)
              simp only [UTRIE3_DATA_BLOCK_LENGTH_eq] at this
              omega
            · rw [upd_other _ _ _ _ hki] at hmk ⊢
              have := hwf.mixedDisj j k (by simpa using hj) (by simpa using hk)
                (by simpa using hmj) (by simpa using hmk) hne
              simpa using this
        · exact hwf.highEqInit
      refine ⟨hwf', ?_, ?_, ?_, ?_⟩
      · rw [hflags' _, upd_self]
      · rw [hindex' _, upd_self]
      · omega
      · -- observation preservation
        intro x
        by_cases hx : MAX_UNICODE < x
        · rw [get_of_err _ _ hx, get_of_err _ _ hx]
        push_neg at hx
        by_cases hx2 : t.highStart ≤ x
        · rw [get_of_high _ x hx (by simpa using hx2), get_of_high _ x hx hx2]
        push_neg at hx2
        have hxslot : x / 16 < t.highStart / 16 := by omega
        by_cases hxi : x / 16 = c / 16
        · -- x lies in the materialized block: reads the old uniform value
          have hgm : utrie3bld_get { t with newTrie := nt' } x
              = nt'.data (nt'.index (x / 16) + x % 16) := by
            refine get_of_mixed _ x hx (by simpa using hx2) ?_
            simp only []
            rw [hflags' _, hxi, upd_self]
            simp
          rw [hgm, hxi, hindex' _, upd_self, hdata', writeBlock_in _ _ _ _ (by omega) (by omega)]
          rw [get_of_allsame t x hx hx2 (by rw [← hxi] at hall; exact hall), hxi]
        · -- other slots are untouched
          by_cases hxall : t.newTrie.flags (x / 16) = ALL_SAME
          · have h1 : utrie3bld_get { t with newTrie := nt' } x = nt'.index (x / 16) := by
              refine get_of_allsame _ x hx (by simpa using hx2) ?_
              simp only []
              rw [hflags' (x / 16), upd_other _ _ _ _ hxi]
              exact hxall
            rw [h1, hindex' _, upd_other _ _ _ _ hxi, get_of_allsame t x hx hx2 hxall]
          · have h1 : utrie3bld_get { t with newTrie := nt' } x
                = nt'.data (nt'.index (x / 16) + x % 16) := by
              refine get_of_mixed _ x hx (by simpa using hx2) ?_
              simp only []
              rw [hflags' (x / 16), upd_other _ _ _ _ hxi]
              exact hxall
            have hxmix : t.newTrie.flags (x / 16) = MIXED := by
              rcases hwf.flagsOk (x / 16) (by simpa using hxslot) with h0 | h0
              · exact absurd h0 hxall
              · exact h0
            have hbnd := hwf.mixedBound (x / 16) (by simpa using hxslot) hxmix
            simp only [UTRIE3_DATA_BLOCK_LENGTH_eq] at hbnd
            rw [h1, hindex' _, upd_other _ _ _ _ hxi, hdata',
              writeBlock_out _ _ _ _ (by omega), get_of_mixed t x hx hx2 hxall]

/-! ### Effect of `utrie3bld_set` -/

theorem set_spec (t : UTrie3) (hwf : TrieWF t) (c v : Nat) (t' : UTrie3)
    (h : utrie3bld_set t c v = .ok t') :
    TrieWF t' ∧ c ≤ MAX_UNICODE ∧
    t'.initialValue = t.initialValue ∧ t'.errorValue = t.errorValue ∧
    t'.highValue = t.highValue ∧ t.highStart ≤ t'.highStart ∧
    (∀ x, utrie3bld_get t' x = if x = c then v else utrie3bld_get t x) := by
  unfold utrie3bld_set at h
  split at h
  case isTrue => exact absurd h (by simp)
  case isFalse hcle =>
  have hc1 : c ≤ MAX_UNICODE := by omega
  simp only [UTRIE3_DATA_BLOCK_LENGTH_eq] at h
  split at h
  case h_1 => exact absurd h (by simp)
  case h_2 b nt2 hmatch =>
  simp only [Except.ok.injEq] at h
  have hwf1 := ehs_wf t c hwf hc1
  have hget1 := ehs_get t c hwf
  have hfe1 := ehs_fieldsEq t c
  have hlt1 : c < (ensureHighStart t c).highStart := ehs_hs_gt t c
  obtain ⟨hwf2, hflag2, hidx2, hbnd2, hget2⟩ :=
    getDataBlock_spec (ensureHighStart t c) hwf1 c hc1 hlt1 b nt2 hmatch
  subst h
  have hsMul1 := hwf1.hsMul
  simp only [UTRIE3_DATA_BLOCK_LENGTH_eq] at hsMul1
  refine ⟨?_, hc1, hfe1.1, hfe1.2.1, hfe1.2.2.1, ehs_hs_ge t c, ?_⟩
  · exact ⟨hwf2.hsMul, hwf2.hsLe, hwf2.flagsOk, hwf2.mixedBound, hwf2.mixedDisj,
      hwf2.highEqInit⟩
  intro x
  by_cases hxc : x = c
  · -- the written code point
    subst hxc
    rw [if_pos rfl]
    have hgm := get_of_mixed
      { ensureHighStart t x with newTrie :=
        { nt2 with data := upd nt2.data (b + x % 16) v } }
      x hc1 hlt1 (by simp [hflag2])
    rw [hgm]
    show upd nt2.data (b + x % 16) v (nt2.index (x / 16) + x % 16) = v
    rw [hidx2, upd_self]
  · rw [if_neg hxc]
    rw [← hget1 x, ← hget2 x]
    by_cases hx : MAX_UNICODE < x
    · rw [get_of_err _ _ hx, get_of_err _ _ hx]
    push_neg at hx
    by_cases hx2 : (ensureHighStart t c).highStart ≤ x
    · have e1 := get_of_high
        { ensureHighStart t c with newTrie :=
          { nt2 with data := upd nt2.data (b + c % 16) v } } x hx hx2
      have e2 := get_of_high { ensureHighStart t c with newTrie := nt2 } x hx hx2
      rw [e1, e2]
    push_neg at hx2
    have hxslot : x / 16 < (ensureHighStart t c).highStart / 16 := by omega
    by_cases hxall : nt2.flags (x / 16) = ALL_SAME
    · have hga := get_of_allsame
        { ensureHighStart t c with newTrie :=
          { nt2 with data := upd nt2.data (b + c % 16) v } } x hx hx2 hxall
      have hgb := get_of_allsame
        { ensureHighStart t c with newTrie := nt2 } x hx hx2 hxall
      rw [hga, hgb]
    · have hga := get_of_mixed
        { ensureHighStart t c with newTrie :=
          { nt2 with data := upd nt2.data (b + c % 16) v } } x hx hx2 hxall
      have hgb := get_of_mixed
        { ensureHighStart t c with newTrie := nt2 } x hx hx2 hxall
      rw [hga, hgb]
      show upd nt2.data (b + c % 16) v (nt2.index (x / 16) + x % 16)
        = nt2.data (nt2.index (x / 16) + x % 16)
      have hxmix : nt2.flags (x / 16) = MIXED := by
        rcases hwf2.flagsOk (x / 16) (by simpa using hxslot) with h0 | h0
        · exact absurd (by simpa using h0) hxall
        · simpa using h0
      by_cases hsame : x / 16 = c / 16
      · -- same block, different offset
        have hxoff : x % 16 ≠ c % 16 := fun hoff => hxc (by omega)
        rw [hsame, hidx2, upd_other]
        omega
      · -- distinct MIXED blocks are disjoint
        have hcslot : c / 16 < (ensureHighStart t c).highStart / 16 := by omega
        have hdisj := hwf2.mixedDisj (x / 16) (c / 16) (by simpa using hxslot)
          (by simpa using hcslot) (by simpa using hxmix) (by simpa using hflag2) hsame
        have hbx := hwf2.mixedBound (x / 16) (by simpa using hxslot) (by simpa using hxmix)
        simp only [UTRIE3_DATA_BLOCK_LENGTH_eq] at hdisj hbx
        have hdisj2 : nt2.index (x / 16) + 16 ≤ nt2.index (c / 16) ∨
            nt2.index (c / 16) + 16 ≤ nt2.index (x / 16) := by simpa using hdisj
        have hbx2 : nt2.index (x / 16) + 16 ≤ nt2.dataLength := by simpa using hbx
        rw [upd_other]
        rw [hidx2] at hdisj2
        omega

/-! ### Effect of `fillBlock` on one materialized block -/

theorem fillBlock_in (data : Nat → Nat) (b lo hi v init : Nat) (ow : Bool) (j : Nat)
    (h1 : b + lo ≤ j) (h2 : j < b + hi) :
    fillBlock data b lo hi v init ow j = if ow = true ∨ data j = init then v else data j := by
  simp only [fillBlock]
  by_cases hcond : ow = true ∨ data j = init
  · rw [if_pos ⟨⟨h1, h2⟩, hcond⟩, if_pos hcond]
  · rw [if_neg (fun hh => hcond hh.2), if_neg hcond]

theorem fillBlock_out (data : Nat → Nat) (b lo hi v init : Nat) (ow : Bool) (j : Nat)
    (h : j < b + lo ∨ b + hi ≤ j) :
    fillBlock data b lo hi v init ow j = data j := by
  simp only [fillBlock]
  rw [if_neg (fun hh => by omega)]

/-- Filling offsets `[lo, hi)` of the MIXED block of slot `i` changes exactly
the code points of that slot at those offsets, under the overwrite policy. -/
theorem fillSlot_spec (t : UTrie3) (hwf : TrieWF t) (i b lo hi v : Nat) (ow : Bool)
    (hiSlot : i < t.highStart / 16) (hfl : t.newTrie.flags i = MIXED)
    (hidx : t.newTrie.index i = b) (hhi : hi ≤ 16) :
    TrieWF { t with newTrie := { t.newTrie with
      data := fillBlock t.newTrie.data b lo hi v t.initialValue ow } } ∧
    (∀ x, utrie3bld_get { t with newTrie := { t.newTrie with
        data := fillBlock t.newTrie.data b lo hi v t.initialValue ow } } x =
      if x / 16 = i ∧ lo ≤ x % 16 ∧ x % 16 < hi ∧ (ow = true ∨ utrie3bld_get t x = t.initialValue)
      then v else utrie3bld_get t x) := by
  have hsMul := hwf.hsMul
  have hsLe := hwf.hsLe
  simp only [UTRIE3_DATA_BLOCK_LENGTH_eq, UNICODE_LIMIT_eq] at hsMul hsLe
  have hbnd := hwf.mixedBound i (by simpa using hiSlot) (by simpa using hfl)
  simp only [UTRIE3_DATA_BLOCK_LENGTH_eq] at hbnd
  rw [hidx] at hbnd
  constructor
  · exact ⟨hwf.hsMul, hwf.hsLe, hwf.flagsOk, hwf.mixedBound, hwf.mixedDisj, hwf.highEqInit⟩
  intro x
  by_cases hx : MAX_UNICODE < x
  · have hxi : x / 16 ≠ i := by simp only [MAX_UNICODE_eq] at hx; omega
    rw [if_neg (fun hh => hxi hh.1)]
    rw [get_of_err _ _ hx, get_of_err _ _ hx]
  push_neg at hx
  by_cases hx2 : t.highStart ≤ x
  · have hxi : x / 16 ≠ i := by omega
    rw [if_neg (fun hh => hxi hh.1)]
    have e1 := get_of_high { t with newTrie := { t.newTrie with
      data := fillBlock t.newTrie.data b lo hi v t.initialValue ow } } x hx hx2
    rw [e1, get_of_high t x hx hx2]
  push_neg at hx2
  by_cases hxi : x / 16 = i
  · -- inside the filled slot
    have hne : t.newTrie.flags (x / 16) ≠ ALL_SAME := by rw [hxi, hfl]; simp
    have hga := get_of_mixed { t with newTrie := { t.newTrie with
      data := fillBlock t.newTrie.data b lo hi v t.initialValue ow } } x hx hx2 hne
    have hgb := get_of_mixed t x hx hx2 hne
    rw [hga, hgb]
    show fillBlock t.newTrie.data b lo hi v t.initialValue ow
      (t.newTrie.index (x / 16) + x % 16) = _
    rw [hxi, hidx]
    by_cases hwin : lo ≤ x % 16 ∧ x % 16 < hi
    · rw [fillBlock_in _ _ _ _ _ _ _ _ (by omega) (by omega)]
      by_cases hcond : ow = true ∨ t.newTrie.data (b + x % 16) = t.initialValue
      · rw [if_pos hcond, if_pos ⟨rfl, hwin.1, hwin.2, hcond⟩]
      · rw [if_neg hcond, if_neg (fun hh => hcond hh.2.2.2)]
    · rw [fillBlock_out _ _ _ _ _ _ _ _ (by omega),
        if_neg (fun hh => hwin ⟨hh.2.1, hh.2.2.1⟩)]
  · -- other slots untouched
    rw [if_neg (fun hh => hxi hh.1)]
    have hxslot : x / 16 < t.highStart / 16 := by omega
    by_cases hxall : t.newTrie.flags (x / 16) = ALL_SAME
    · have e1 := get_of_allsame { t with newTrie := { t.newTrie with
        data := fillBlock t.newTrie.data b lo hi v t.initialValue ow } } x hx hx2 hxall
      rw [e1, get_of_allsame t x hx hx2 hxall]
    · have hxmix : t.newTrie.flags (x / 16) = MIXED := by
        rcases hwf.flagsOk (x / 16) (by simpa using hxslot) with h0 | h0
        · exact absurd h0 hxall
        · exact h0
      have e1 := get_of_mixed { t with newTrie := { t.newTrie with
        data := fillBlock t.newTrie.data b lo hi v t.initialValue ow } } x hx hx2 hxall
      rw [e1, get_of_mixed t x hx hx2 hxall]
      show fillBlock t.newTrie.data b lo hi v t.initialValue ow
        (t.newTrie.index (x / 16) + x % 16) = _
      have hdisj := hwf.mixedDisj (x / 16) i (by simpa using hxslot) (by simpa using hiSlot)
        (by simpa using hxmix) (by simpa using hfl) hxi
      have hbx := hwf.mixedBound (x / 16) (by simpa using hxslot) (by simpa using hxmix)
      simp only [UTRIE3_DATA_BLOCK_LENGTH_eq] at hdisj hbx
      rw [hidx] at hdisj
      rw [fillBlock_out _ _ _ _ _ _ _ _ (by omega)]

/-- Composing two adjacent conditional write windows `[a,b)` and `[b,c)`
over the same overwrite policy. -/
theorem window_compose (g gS gF : Nat → Nat) (init v : Nat) (ow : Bool) (a b c : Nat)
    (hab : a ≤ b) (_hbc : b ≤ c)
    (h1 : ∀ x, gS x = if a ≤ x ∧ x < b ∧ (ow = true ∨ g x = init) then v else g x)
    (h2 : ∀ x, gF x = if b ≤ x ∧ x < c ∧ (ow = true ∨ gS x = init) then v else gS x) :
    ∀ x, gF x = if a ≤ x ∧ x < c ∧ (ow = true ∨ g x = init) then v else g x := by
  intro x
  by_cases hx1 : a ≤ x ∧ x < b
  · have h2' := h2 x
    rw [if_neg (by omega)] at h2'
    rw [h2', h1 x]
    by_cases hg : ow = true ∨ g x = init
    · rw [if_pos ⟨hx1.1, hx1.2, hg⟩, if_pos ⟨hx1.1, by omega, hg⟩]
    · rw [if_neg (fun hh => hg hh.2.2), if_neg (fun hh => hg hh.2.2)]
  · have hgs : gS x = g x := by
      rw [h1 x, if_neg (fun hh => hx1 ⟨hh.1, hh.2.1⟩)]
    have h2' := h2 x
    rw [hgs] at h2'
    rw [h2']
    by_cases hx2 : b ≤ x ∧ x < c
    · by_cases hg : ow = true ∨ g x = init
      · rw [if_pos ⟨hx2.1, hx2.2, hg⟩, if_pos ⟨by omega, hx2.2, hg⟩]
      · rw [if_neg (fun hh => hg hh.2.2), if_neg (fun hh => hg hh.2.2)]
    · rw [if_neg (fun hh => hx2 ⟨hh.1, hh.2.1⟩)]
      rw [if_neg (fun hh => hx2 ⟨by omega, hh.2.1⟩)]

/-- Effect of the all-value-block loop of `setRange`: writes `v` to every code
point of `n` whole blocks from `start`, under the overwrite policy. -/
theorem setRangeBlocks_spec (n : Nat) :
    ∀ (t : UTrie3) (start v : Nat) (ow : Bool),
    TrieWF t → start % 16 = 0 → start + 16 * n ≤ t.highStart →
    TrieWF { t with newTrie := setRangeBlocks t.newTrie t.initialValue v ow start n } ∧
    (setRangeBlocks t.newTrie t.initialValue v ow start n).dataLength = t.newTrie.dataLength ∧
    (∀ x, utrie3bld_get { t with newTrie := setRangeBlocks t.newTrie t.initialValue v ow start n } x =
      if start ≤ x ∧ x < start + 16 * n ∧ (ow = true ∨ utrie3bld_get t x = t.initialValue)
      then v else utrie3bld_get t x) := by
  induction n with
  | zero =>
    intro t start v ow hwf _ _
    refine ⟨hwf, rfl, fun x => ?_⟩
    rw [if_neg (by omega)]
    rfl
  | succ n ih =>
    intro t start v ow hwf hs0 hle
    have hsMul := hwf.hsMul
    have hsLe := hwf.hsLe
    simp only [UTRIE3_DATA_BLOCK_LENGTH_eq, UNICODE_LIMIT_eq] at hsMul hsLe
    have hiSlot : start / 16 < t.highStart / 16 := by omega
    have hc16 : start + 16 + 16 * n = start + 16 * (n + 1) := by ring
    by_cases hall : t.newTrie.flags (start / 16) = ALL_SAME
    · by_cases hguard : ow = true ∨ t.newTrie.index (start / 16) = t.initialValue
      · -- ALL_SAME, written
        set ntS : UNewTrie3 := { t.newTrie with index := upd t.newTrie.index (start / 16) v } with hntS
        have hstep : setRangeBlocks t.newTrie t.initialValue v ow start (n + 1)
            = setRangeBlocks ntS t.initialValue v ow (start + 16) n := by
          rw [hntS]
          simp only [setRangeBlocks, UTRIE3_DATA_BLOCK_LENGTH_eq, hall, if_pos hguard, if_true]
        have hwfS : TrieWF { t with newTrie := ntS } := by
          constructor
          · exact hwf.hsMul
          · exact hwf.hsLe
          · exact hwf.flagsOk
          · intro j hj hm
            have hji : j ≠ start / 16 := by
              intro hh
              rw [hh] at hm
              exact absurd (hall.symm.trans (by simpa using hm)) (by simp)
            show upd t.newTrie.index (start / 16) v j + _ ≤ _
            rw [upd_other _ _ _ _ hji]
            exact hwf.mixedBound j hj hm
          · intro j k hj hk hmj hmk hne
            have hji : j ≠ start / 16 := by
              intro hh
              rw [hh] at hmj
              exact absurd (hall.symm.trans (by simpa using hmj)) (by simp)
            have hki : k ≠ start / 16 := by
              intro hh
              rw [hh] at hmk
              exact absurd (hall.symm.trans (by simpa using hmk)) (by simp)
            show upd t.newTrie.index (start / 16) v j + _ ≤ upd t.newTrie.index (start / 16) v k ∨
              upd t.newTrie.index (start / 16) v k + _ ≤ upd t.newTrie.index (start / 16) v j
            rw [upd_other _ _ _ _ hji, upd_other _ _ _ _ hki]
            exact hwf.mixedDisj j k hj hk hmj hmk hne
          · exact hwf.highEqInit
        have hobsS : ∀ x, utrie3bld_get { t with newTrie := ntS } x =
            if start ≤ x ∧ x < start + 16 ∧ (ow = true ∨ utrie3bld_get t x = t.initialValue)
            then v else utrie3bld_get t x := by
          intro x
          by_cases hx : MAX_UNICODE < x
          · rw [if_neg (by simp only [MAX_UNICODE_eq] at hx; omega)]
            rw [get_of_err { t with newTrie := ntS } x hx, get_of_err t x hx]
          push_neg at hx
          by_cases hx2 : t.highStart ≤ x
          · rw [if_neg (by omega)]
            rw [get_of_high { t with newTrie := ntS } x hx hx2, get_of_high t x hx hx2]
          push_neg at hx2
          by_cases hxi : x / 16 = start / 16
          · have hall' : t.newTrie.flags (x / 16) = ALL_SAME := by rw [hxi]; exact hall
            rw [get_of_allsame { t with newTrie := ntS } x hx hx2 hall',
              get_of_allsame t x hx hx2 hall']
            show upd t.newTrie.index (start / 16) v (x / 16) = _
            rw [hxi, upd_self, if_pos ⟨by omega, by omega, hguard⟩]
          · rw [if_neg (fun hh => hxi (by omega))]
            by_cases hxall : t.newTrie.flags (x / 16) = ALL_SAME
            · rw [get_of_allsame { t with newTrie := ntS } x hx hx2 hxall,
                get_of_allsame t x hx hx2 hxall]
              show upd t.newTrie.index (start / 16) v (x / 16) = _
              rw [upd_other _ _ _ _ hxi]
            · rw [get_of_mixed { t with newTrie := ntS } x hx hx2 hxall,
                get_of_mixed t x hx hx2 hxall]
              show t.newTrie.data (upd t.newTrie.index (start / 16) v (x / 16) + x % 16) = _
              rw [upd_other _ _ _ _ hxi]
        have hih := ih { t with newTrie := ntS } (start + 16) v ow hwfS (by omega) (show start + 16 + 16 * n ≤ t.highStart by omega)
        rw [hstep]
        refine ⟨hih.1, hih.2.1, ?_⟩
        have hcomp := window_compose (utrie3bld_get t) (utrie3bld_get { t with newTrie := ntS }) (utrie3bld_get { t with newTrie := setRangeBlocks ntS t.initialValue v ow (start + 16) n }) t.initialValue v ow start (start + 16) (start + 16 + 16 * n) (by omega) (by omega) hobsS hih.2.2
        simp only [hc16] at hcomp
        exact hcomp
      · -- ALL_SAME, skipped (no overwrite and a non-initial value)
        have hstep : setRangeBlocks t.newTrie t.initialValue v ow start (n + 1)
            = setRangeBlocks t.newTrie t.initialValue v ow (start + 16) n := by
          simp only [setRangeBlocks, UTRIE3_DATA_BLOCK_LENGTH_eq, hall, if_neg hguard, if_true]
        have hobsS : ∀ x, utrie3bld_get t x =
            if start ≤ x ∧ x < start + 16 ∧ (ow = true ∨ utrie3bld_get t x = t.initialValue)
            then v else utrie3bld_get t x := by
          intro x
          by_cases hin : start ≤ x ∧ x < start + 16
          · rw [if_neg]
            intro hh
            rcases hh.2.2 with h0 | h0
            · exact hguard (Or.inl h0)
            · have hxg : utrie3bld_get t x = t.newTrie.index (start / 16) := by
                have e := get_of_allsame t x (by simp only [MAX_UNICODE_eq]; omega) (by omega)
                  (by rw [show x / 16 = start / 16 by omega]; exact hall)
                rw [e, show x / 16 = start / 16 by omega]
              rw [hxg] at h0
              exact hguard (Or.inr h0)
          · rw [if_neg (fun hh => hin ⟨hh.1, hh.2.1⟩)]
        have hih := ih t (start + 16) v ow hwf (by omega) (by omega)
        rw [hstep]
        refine ⟨hih.1, hih.2.1, ?_⟩
        have hcomp := window_compose (utrie3bld_get t) (utrie3bld_get t) (utrie3bld_get { t with newTrie := setRangeBlocks t.newTrie t.initialValue v ow (start + 16) n }) t.initialValue v ow start (start + 16) (start + 16 + 16 * n) (by omega) (by omega) hobsS hih.2.2
        simp only [hc16] at hcomp
        exact hcomp
    · -- MIXED block: fill the whole block
      have hmix : t.newTrie.flags (start / 16) = MIXED := by
        rcases hwf.flagsOk (start / 16) (by simpa using hiSlot) with h0 | h0
        · exact absurd h0 hall
        · exact h0
      set ntS : UNewTrie3 := { t.newTrie with data := fillBlock t.newTrie.data (t.newTrie.index (start / 16)) 0 UTRIE3_DATA_BLOCK_LENGTH v t.initialValue ow } with hntS
      have hstep : setRangeBlocks t.newTrie t.initialValue v ow start (n + 1)
          = setRangeBlocks ntS t.initialValue v ow (start + 16) n := by
        rw [hntS]
        simp only [setRangeBlocks, UTRIE3_DATA_BLOCK_LENGTH_eq, hall, if_false]
      have hfs := fillSlot_spec t hwf (start / 16) (t.newTrie.index (start / 16)) 0 UTRIE3_DATA_BLOCK_LENGTH v ow hiSlot hmix rfl (by simp)
      have hwfS : TrieWF { t with newTrie := ntS } := hfs.1
      have hobsS : ∀ x, utrie3bld_get { t with newTrie := ntS } x =
          if start ≤ x ∧ x < start + 16 ∧ (ow = true ∨ utrie3bld_get t x = t.initialValue)
          then v else utrie3bld_get t x := by
        intro x
        rw [hfs.2 x]
        by_cases hin1 : x / 16 = start / 16 ∧ (ow = true ∨ utrie3bld_get t x = t.initialValue)
        · rw [if_pos ⟨hin1.1, by omega, by simp only [UTRIE3_DATA_BLOCK_LENGTH_eq]; omega, hin1.2⟩,
            if_pos ⟨by omega, by omega, hin1.2⟩]
        · rw [if_neg, if_neg]
          · intro hh
            exact hin1 ⟨by omega, hh.2.2⟩
          · intro hh
            exact hin1 ⟨hh.1, hh.2.2.2⟩
      have hih := ih { t with newTrie := ntS } (start + 16) v ow hwfS (by omega) (show start + 16 + 16 * n ≤ t.highStart by omega)
      rw [hstep]
      refine ⟨hih.1, hih.2.1, ?_⟩
      have hcomp := window_compose (utrie3bld_get t) (utrie3bld_get { t with newTrie := ntS }) (utrie3bld_get { t with newTrie := setRangeBlocks ntS t.initialValue v ow (start + 16) n }) t.initialValue v ow start (start + 16) (start + 16 + 16 * n) (by omega) (by omega) hobsS hih.2.2
      simp only [hc16] at hcomp
      exact hcomp

/-- Effect of the tail of `setRange` (whole blocks plus trailing partial
block) on a block-aligned `start`. -/
theorem setRangeRest_spec (t : UTrie3) (hwf : TrieWF t) (start limit v : Nat) (ow : Bool)
    (t' : UTrie3) (hs0 : start % 16 = 0) (hsl : start ≤ limit) (hlim : limit ≤ t.highStart)
    (_hlimMax : limit ≤ MAX_UNICODE + 1)
    (h : setRangeRest t start limit v ow = .ok t') :
    TrieWF t' ∧
    t'.initialValue = t.initialValue ∧ t'.errorValue = t.errorValue ∧
    t'.highValue = t.highValue ∧ t'.highStart = t.highStart ∧
    (∀ x, utrie3bld_get t' x =
      if start ≤ x ∧ x < limit ∧ (ow = true ∨ utrie3bld_get t x = t.initialValue)
      then v else utrie3bld_get t x) := by
  have hsMul := hwf.hsMul
  have hsLe := hwf.hsLe
  simp only [UTRIE3_DATA_BLOCK_LENGTH_eq, UNICODE_LIMIT_eq] at hsMul hsLe
  unfold setRangeRest at h
  simp only [UTRIE3_DATA_BLOCK_LENGTH_eq] at h
  have hn16 : start + 16 * ((limit - limit % 16 - start) / 16) = limit - limit % 16 := by omega
  have hsrb := setRangeBlocks_spec ((limit - limit % 16 - start) / 16) t start v ow hwf hs0
    (by omega)
  set ntB : UNewTrie3 := setRangeBlocks t.newTrie t.initialValue v ow start ((limit - limit % 16 - start) / 16) with hntB
  split at h
  case isFalse hrest =>
    -- no trailing partial block: limit is block-aligned
    simp only [Except.ok.injEq] at h
    subst h
    refine ⟨hsrb.1, rfl, rfl, rfl, rfl, fun x => ?_⟩
    rw [hsrb.2.2 x, hn16]
    have hlim16 : limit - limit % 16 = limit := by omega
    rw [hlim16]
  case isTrue hrest =>
    split at h
    case h_1 => exact absurd h (by simp)
    case h_2 b nt2 hmatch =>
    simp only [Except.ok.injEq] at h
    have hwfB : TrieWF { t with newTrie := ntB } := hsrb.1
    have hBhs : ({ t with newTrie := ntB } : UTrie3).highStart = t.highStart := rfl
    obtain ⟨hwf2, hflag2, hidx2, hbnd2, hget2⟩ :=
      getDataBlock_spec { t with newTrie := ntB } hwfB (limit - limit % 16)
        (by simp only [MAX_UNICODE_eq]; omega) (by omega) b nt2 hmatch
    have hfs := fillSlot_spec { { t with newTrie := ntB } with newTrie := nt2 } hwf2
      ((limit - limit % 16) / 16) b 0 (limit % 16) v ow
      (show (limit - limit % 16) / 16 < t.highStart / 16 by omega)
      hflag2 hidx2 (by omega)
    subst h
    refine ⟨?_, rfl, rfl, rfl, rfl, ?_⟩
    · exact ⟨hfs.1.hsMul, hfs.1.hsLe, hfs.1.flagsOk, hfs.1.mixedBound, hfs.1.mixedDisj,
        hfs.1.highEqInit⟩
    -- interval form of the trailing fill
    have hobsF : ∀ x, utrie3bld_get { { t with newTrie := ntB } with newTrie :=
        { nt2 with data := fillBlock nt2.data b 0 (limit % 16) v t.initialValue ow } } x =
        if limit - limit % 16 ≤ x ∧ x < limit ∧
          (ow = true ∨ utrie3bld_get { t with newTrie := ntB } x = t.initialValue)
        then v else utrie3bld_get { t with newTrie := ntB } x := by
      intro x
      rw [hfs.2 x, hget2 x]
      by_cases hin : (limit - limit % 16) ≤ x ∧ x < limit
      · have hxi : x / 16 = (limit - limit % 16) / 16 := by omega
        have hxo : x % 16 < limit % 16 := by omega
        by_cases hg : ow = true ∨ utrie3bld_get { t with newTrie := ntB } x = t.initialValue
        · rw [if_pos ⟨hxi, by omega, hxo, hg⟩, if_pos ⟨hin.1, hin.2, hg⟩]
        · rw [if_neg (fun hh => hg hh.2.2.2), if_neg (fun hh => hg hh.2.2)]
      · have hxi : ¬(x / 16 = (limit - limit % 16) / 16 ∧ x % 16 < limit % 16) := by omega
        rw [if_neg (fun hh => hxi ⟨hh.1, hh.2.2.1⟩), if_neg (fun hh => hin ⟨hh.1, hh.2.1⟩)]
    have hobsB : ∀ x, utrie3bld_get { t with newTrie := ntB } x =
        if start ≤ x ∧ x < limit - limit % 16 ∧
          (ow = true ∨ utrie3bld_get t x = t.initialValue)
        then v else utrie3bld_get t x := by
      intro x
      rw [hsrb.2.2 x, hn16]
    have hcomp := window_compose (utrie3bld_get t) (utrie3bld_get { t with newTrie := ntB }) (utrie3bld_get { { t with newTrie := ntB } with newTrie := { nt2 with data := fillBlock nt2.data b 0 (limit % 16) v t.initialValue ow } }) t.initialValue v ow start (limit - limit % 16) limit (by omega) (by omega) hobsB hobsF
    exact hcomp

/-- Effect of a successful `utrie3bld_setRange`: writes `v` on `[s, e]` under
the overwrite policy, preserves everything else. -/
theorem setRange_spec (t : UTrie3) (hwf : TrieWF t) (s e v : Nat) (ow : Bool) (t' : UTrie3)
    (h : utrie3bld_setRange t s e v ow = .ok t') :
    TrieWF t' ∧ s ≤ e ∧ e ≤ MAX_UNICODE ∧
    t'.initialValue = t.initialValue ∧ t'.errorValue = t.errorValue ∧
    t'.highValue = t.highValue ∧ t.highStart ≤ t'.highStart ∧
    (∀ x, utrie3bld_get t' x =
      if s ≤ x ∧ x ≤ e ∧ (ow = true ∨ utrie3bld_get t x = t.initialValue)
      then v else utrie3bld_get t x) := by
  unfold utrie3bld_setRange at h
  split at h
  case isTrue => exact absurd h (by simp)
  case isFalse hargs =>
  push_neg at hargs
  simp only [MAX_UNICODE_eq] at hargs
  have hse : s ≤ e := hargs.2.2
  have heM : e ≤ MAX_UNICODE := by simp only [MAX_UNICODE_eq]; omega
  split at h
  case isTrue hnop =>
    simp only [Except.ok.injEq] at h
    subst h
    refine ⟨hwf, hse, heM, rfl, rfl, rfl, le_refl _, fun x => ?_⟩
    by_cases hc : s ≤ x ∧ x ≤ e ∧ (ow = true ∨ utrie3bld_get t x = t.initialValue)
    · rw [if_pos hc]
      rcases hc.2.2 with h0 | h0
      · rw [h0] at hnop
        exact absurd hnop.1 (by simp)
      · rw [h0, hnop.2]
    · rw [if_neg hc]
  case isFalse =>
  simp only [UTRIE3_DATA_BLOCK_LENGTH_eq, UTRIE3_DATA_MASK_eq] at h
  have hwf1 := ehs_wf t e hwf heM
  have hget1 := ehs_get t e hwf
  have hfe1 := ehs_fieldsEq t e
  have hlt1 : e < (ensureHighStart t e).highStart := ehs_hs_gt t e
  have hge1 : t.highStart ≤ (ensureHighStart t e).highStart := ehs_hs_ge t e
  have hsMul1 := hwf1.hsMul
  simp only [UTRIE3_DATA_BLOCK_LENGTH_eq] at hsMul1
  split at h
  case isFalse halign =>
    have hs0 : s % 16 = 0 := by omega
    have hrest := setRangeRest_spec (ensureHighStart t e) hwf1 s (e + 1) v ow t' hs0
      (by omega) (by omega) (by simp only [MAX_UNICODE_eq]; omega) h
    refine ⟨hrest.1, hse, heM, hrest.2.1.trans hfe1.1, hrest.2.2.1.trans hfe1.2.1,
      hrest.2.2.2.1.trans hfe1.2.2.1, by rw [hrest.2.2.2.2.1]; omega, fun x => ?_⟩
    have ho := hrest.2.2.2.2.2 x
    rw [hget1 x, hfe1.1] at ho
    rw [ho]
    by_cases hc : s ≤ x ∧ x ≤ e ∧ (ow = true ∨ utrie3bld_get t x = t.initialValue)
    · rw [if_pos ⟨hc.1, by omega, hc.2.2⟩, if_pos hc]
    · rw [if_neg (fun hh => hc ⟨hh.1, by omega, hh.2.2⟩), if_neg hc]
  case isTrue halign =>
  split at h
  case h_1 => exact absurd h (by simp)
  case h_2 b nt2 hmatch =>
  obtain ⟨hwf2, hflag2, hidx2, hbnd2, hget2⟩ :=
    getDataBlock_spec (ensureHighStart t e) hwf1 s (by simp only [MAX_UNICODE_eq]; omega)
      (by omega) b nt2 hmatch
  have hT2i : ({ ensureHighStart t e with newTrie := nt2 } : UTrie3).initialValue
      = (ensureHighStart t e).initialValue := rfl
  split at h
  case isTrue hnlim =>
    -- fill [s % 16, 16) of s's block, then the rest from the next block boundary
    have hfs := fillSlot_spec { ensureHighStart t e with newTrie := nt2 } hwf2 (s / 16) b
      (s % 16) 16 v ow (show s / 16 < (ensureHighStart t e).highStart / 16 by omega)
      hflag2 hidx2 (by omega)
    have hobs3 : ∀ x, utrie3bld_get { ensureHighStart t e with newTrie := { nt2 with data := fillBlock nt2.data b (s % 16) 16 v ({ ensureHighStart t e with newTrie := nt2 } : UTrie3).initialValue ow } } x =
        if s ≤ x ∧ x < (s + 15) / 16 * 16 ∧ (ow = true ∨ utrie3bld_get (ensureHighStart t e) x = (ensureHighStart t e).initialValue)
        then v else utrie3bld_get (ensureHighStart t e) x := by
      intro x
      have h0 : utrie3bld_get { ensureHighStart t e with newTrie := { nt2 with data := fillBlock nt2.data b (s % 16) 16 v ({ ensureHighStart t e with newTrie := nt2 } : UTrie3).initialValue ow } } x =
          if x / 16 = s / 16 ∧ s % 16 ≤ x % 16 ∧ x % 16 < 16 ∧ (ow = true ∨ utrie3bld_get (ensureHighStart t e) x = (ensureHighStart t e).initialValue)
          then v else utrie3bld_get (ensureHighStart t e) x := by
        have h0 := hfs.2 x
        rw [hget2 x, hT2i] at h0
        exact h0
      rw [h0]
      by_cases hc : s ≤ x ∧ x < (s + 15) / 16 * 16 ∧
        (ow = true ∨ utrie3bld_get (ensureHighStart t e) x = (ensureHighStart t e).initialValue)
      · obtain ⟨h1, h2, h3⟩ := hc
        rw [if_pos ⟨by omega, by omega, by omega, h3⟩, if_pos ⟨h1, h2, h3⟩]
      · have hneg : ¬(x / 16 = s / 16 ∧ s % 16 ≤ x % 16 ∧ x % 16 < 16 ∧
            (ow = true ∨ utrie3bld_get (ensureHighStart t e) x = (ensureHighStart t e).initialValue)) := by
          intro hh
          obtain ⟨h1, h2, h3, h4⟩ := hh
          exact hc ⟨by omega, by omega, h4⟩
        rw [if_neg hneg, if_neg hc]
    have hrest := setRangeRest_spec
      { ensureHighStart t e with newTrie := { nt2 with data := fillBlock nt2.data b (s % 16) 16 v ({ ensureHighStart t e with newTrie := nt2 } : UTrie3).initialValue ow } }
      hfs.1 ((s + 15) / 16 * 16) (e + 1) v ow t' (by omega) (by omega)
      (show e + 1 ≤ (ensureHighStart t e).highStart by omega)
      (by simp only [MAX_UNICODE_eq]; omega) h
    have hT3 : ({ ensureHighStart t e with newTrie := { nt2 with data := fillBlock nt2.data b (s % 16) 16 v ({ ensureHighStart t e with newTrie := nt2 } : UTrie3).initialValue ow } } : UTrie3).initialValue = (ensureHighStart t e).initialValue := rfl
    have hcomp := window_compose (utrie3bld_get (ensureHighStart t e))
      (utrie3bld_get { ensureHighStart t e with newTrie := { nt2 with data := fillBlock nt2.data b (s % 16) 16 v ({ ensureHighStart t e with newTrie := nt2 } : UTrie3).initialValue ow } })
      (utrie3bld_get t') (ensureHighStart t e).initialValue v ow
      s ((s + 15) / 16 * 16) (e + 1) (by omega) (by omega) hobs3 hrest.2.2.2.2.2
    refine ⟨hrest.1, hse, heM, hrest.2.1.trans hfe1.1, hrest.2.2.1.trans hfe1.2.1,
      hrest.2.2.2.1.trans hfe1.2.2.1, by rw [hrest.2.2.2.2.1]; exact hge1, fun x => ?_⟩
    have ho := hcomp x
    rw [hget1 x, hfe1.1] at ho
    rw [ho]
    by_cases hc : s ≤ x ∧ x ≤ e ∧ (ow = true ∨ utrie3bld_get t x = t.initialValue)
    · rw [if_pos ⟨hc.1, by omega, hc.2.2⟩, if_pos hc]
    · rw [if_neg (fun hh => hc ⟨hh.1, by omega, hh.2.2⟩), if_neg hc]
  case isFalse hnlim =>
    -- the whole range is inside s's block
    have hfs := fillSlot_spec { ensureHighStart t e with newTrie := nt2 } hwf2 (s / 16) b
      (s % 16) ((e + 1) % 16) v ow (show s / 16 < (ensureHighStart t e).highStart / 16 by omega)
      hflag2 hidx2 (by omega)
    simp only [Except.ok.injEq] at h
    have hfinal : ∀ x, utrie3bld_get { ensureHighStart t e with newTrie := { nt2 with data := fillBlock nt2.data b (s % 16) ((e + 1) % 16) v ({ ensureHighStart t e with newTrie := nt2 } : UTrie3).initialValue ow } } x =
        if s ≤ x ∧ x ≤ e ∧ (ow = true ∨ utrie3bld_get t x = t.initialValue)
        then v else utrie3bld_get t x := by
      intro x
      have h0 : utrie3bld_get { ensureHighStart t e with newTrie := { nt2 with data := fillBlock nt2.data b (s % 16) ((e + 1) % 16) v ({ ensureHighStart t e with newTrie := nt2 } : UTrie3).initialValue ow } } x =
          if x / 16 = s / 16 ∧ s % 16 ≤ x % 16 ∧ x % 16 < (e + 1) % 16 ∧ (ow = true ∨ utrie3bld_get (ensureHighStart t e) x = (ensureHighStart t e).initialValue)
          then v else utrie3bld_get (ensureHighStart t e) x := by
        have h0 := hfs.2 x
        rw [hget2 x, hT2i] at h0
        exact h0
      rw [h0, hget1 x]
      by_cases hc : s ≤ x ∧ x ≤ e ∧ (ow = true ∨ utrie3bld_get t x = t.initialValue)
      · obtain ⟨h1, h2, h3⟩ := hc
        have h3' : ow = true ∨ utrie3bld_get t x = (ensureHighStart t e).initialValue := by
          rw [hfe1.1]; exact h3
        rw [if_pos ⟨by omega, by omega, by omega, h3'⟩, if_pos ⟨h1, h2, h3⟩]
      · have hneg : ¬(x / 16 = s / 16 ∧ s % 16 ≤ x % 16 ∧ x % 16 < (e + 1) % 16 ∧
            (ow = true ∨ utrie3bld_get t x = (ensureHighStart t e).initialValue)) := by
          intro hh
          obtain ⟨h1, h2, h3, h4⟩ := hh
          refine hc ⟨by omega, by omega, ?_⟩
          rw [← hfe1.1]; exact h4
        rw [if_neg hneg, if_neg hc]
    refine ⟨?_, hse, heM, ?_, ?_, ?_, ?_, fun x => ?_⟩
    · rw [← h]; exact hfs.1
    · rw [← h]; exact hfe1.1
    · rw [← h]; exact hfe1.2.1
    · rw [← h]; exact hfe1.2.2.1
    · rw [← h]; exact hge1
    · rw [← h]; exact hfinal x

/-! ## Build sequences: correctness of `get` against the write history -/

theorem applyOps_spec (ops : List UOp) :
    ∀ (t : UTrie3) (m : Nat → Nat) (t' : UTrie3),
    TrieWF t → (∀ x, x ≤ MAX_UNICODE → utrie3bld_get t x = m x) →
    applyOps t ops = .ok t' →
    TrieWF t' ∧ t'.initialValue = t.initialValue ∧ t'.errorValue = t.errorValue ∧
    (∀ x, x ≤ MAX_UNICODE → utrie3bld_get t' x = specFold t.initialValue m ops x) := by
  induction ops with
  | nil =>
    intro t m t' hwf hm h
    simp only [applyOps, Except.ok.injEq] at h
    subst h
    exact ⟨hwf, rfl, rfl, hm⟩
  | cons op rest ih =>
    intro t m t' hwf hm h
    simp only [applyOps] at h
    split at h
    case h_1 => exact absurd h (by simp)
    case h_2 t1 hop =>
    cases op with
    | uset c v =>
      obtain ⟨hwf1, hc1, hinit1, herr1, _, _, hobs1⟩ :=
        set_spec t hwf c v t1 hop
      have hm1 : ∀ x, x ≤ MAX_UNICODE →
          utrie3bld_get t1 x = specWrite t.initialValue m (.uset c v) x := by
        intro x hx
        rw [hobs1 x]
        simp only [specWrite]
        by_cases hxc : x = c
        · rw [if_pos hxc, if_pos hxc]
        · rw [if_neg hxc, if_neg hxc, hm x hx]
      have hrest := ih t1 (specWrite t.initialValue m (.uset c v)) t' hwf1 hm1 h
      refine ⟨hrest.1, hrest.2.1.trans hinit1, hrest.2.2.1.trans herr1, fun x hx => ?_⟩
      rw [hrest.2.2.2 x hx, hinit1]
      rfl
    | urange s e v ow =>
      obtain ⟨hwf1, _, _, hinit1, herr1, _, _, hobs1⟩ :=
        setRange_spec t hwf s e v ow t1 hop
      have hm1 : ∀ x, x ≤ MAX_UNICODE →
          utrie3bld_get t1 x = specWrite t.initialValue m (.urange s e v ow) x := by
        intro x hx
        rw [hobs1 x]
        simp only [specWrite]
        by_cases hxc : s ≤ x ∧ x ≤ e ∧ (ow = true ∨ m x = t.initialValue)
        · rw [if_pos ⟨hxc.1, hxc.2.1, by rw [hm x hx]; exact hxc.2.2⟩, if_pos hxc]
        · have hneg : ¬(s ≤ x ∧ x ≤ e ∧ (ow = true ∨ utrie3bld_get t x = t.initialValue)) := by
            intro hh
            exact hxc ⟨hh.1, hh.2.1, by rw [← hm x hx]; exact hh.2.2⟩
          rw [if_neg hneg, if_neg hxc]
          exact hm x hx
      have hrest := ih t1 (specWrite t.initialValue m (.urange s e v ow)) t' hwf1 hm1 h
      refine ⟨hrest.1, hrest.2.1.trans hinit1, hrest.2.2.1.trans herr1, fun x hx => ?_⟩
      rw [hrest.2.2.2 x hx, hinit1]
      rfl

theorem reachable_wf (t : UTrie3) (h : Reachable t) : TrieWF t := by
  induction h with
  | base i e => exact wf_open i e
  | step t t' op hr happ ih =>
    cases op with
    | uset c v => exact (set_spec t ih c v t' happ).1
    | urange s e v ow => exact (setRange_spec t ih s e v ow t' happ).1

/-- C1: after any successful sequence of `set`/`setRange` calls on a fresh
trie, `utrie3bld_get` returns the last value written at each code point
(where a `setRange` without overwrite writes only where the value equals
`initialValue` at that moment), or `initialValue` if nothing was written. -/
theorem c1_get_returns_last_write (i e : Nat) (ops : List UOp) (t : UTrie3)
    (h : applyOps (utrie3bld_open i e) ops = .ok t) (c : Nat) (hc : c ≤ MAX_UNICODE) :
    utrie3bld_get t c = specRun i ops c := by
  have hspec := applyOps_spec ops (utrie3bld_open i e) (fun _ => i) t
    (wf_open i e) (fun x hx => get_open i e x hx) h
  exact hspec.2.2.2 c hc

def c1trie : UTrie3 :=
  match applyOps (utrie3bld_open 0 9) [UOp.uset 65 7, UOp.urange 60 70 8 false] with
  | .ok t => t
  | .error _ => utrie3bld_open 0 9

theorem c1_witness :
    applyOps (utrie3bld_open 0 9) [UOp.uset 65 7, UOp.urange 60 70 8 false] = .ok c1trie ∧
    (65 : Nat) ≤ MAX_UNICODE ∧
    utrie3bld_get c1trie 65 = specRun 0 [UOp.uset 65 7, UOp.urange 60 70 8 false] 65 :=
  ⟨rfl, by decide,
    c1_get_returns_last_write 0 9 [UOp.uset 65 7, UOp.urange 60 70 8 false] c1trie rfl 65
      (by decide)⟩

/-- C7: `utrie3bld_get` returns `errorValue` above U+10FFFF, `highValue` at or
above `highStart`, the slot value for an ALL_SAME slot, and the block-store
entry `data[index[i] + (c & DATA_MASK)]` for a MIXED slot. -/
theorem c7_get_case_analysis (t : UTrie3) (c : Nat) :
    (MAX_UNICODE < c → utrie3bld_get t c = t.errorValue) ∧
    (c ≤ MAX_UNICODE → t.highStart ≤ c → utrie3bld_get t c = t.highValue) ∧
    (c ≤ MAX_UNICODE → c < t.highStart →
      t.newTrie.flags (c / UTRIE3_DATA_BLOCK_LENGTH) = ALL_SAME →
      utrie3bld_get t c = t.newTrie.index (c / UTRIE3_DATA_BLOCK_LENGTH)) ∧
    (c ≤ MAX_UNICODE → c < t.highStart →
      t.newTrie.flags (c / UTRIE3_DATA_BLOCK_LENGTH) = MIXED →
      utrie3bld_get t c = t.newTrie.data
        (t.newTrie.index (c / UTRIE3_DATA_BLOCK_LENGTH) + c % UTRIE3_DATA_BLOCK_LENGTH)) := by
  refine ⟨fun h => get_of_err t c h, fun h1 h2 => get_of_high t c h1 h2, fun h1 h2 h3 => ?_,
    fun h1 h2 h3 => ?_⟩
  · simpa using get_of_allsame t c h1 h2 (by simpa using h3)
  · simpa using get_of_mixed t c h1 h2 (by simp only [UTRIE3_DATA_BLOCK_LENGTH_eq] at h3; simp [h3])

theorem c7_witness :
    utrie3bld_get (utrie3bld_open 1 2) 0x110000 = (utrie3bld_open 1 2).errorValue ∧
    utrie3bld_get (utrie3bld_open 1 2) 5 = (utrie3bld_open 1 2).highValue :=
  ⟨(c7_get_case_analysis (utrie3bld_open 1 2) 0x110000).1 (by decide),
   (c7_get_case_analysis (utrie3bld_open 1 2) 5).2.1 (by decide) (by decide)⟩

/-- C8: in every reachable build state, `highStart` is a multiple of
`DATA_BLOCK_LENGTH`, at most 0x110000, every slot below `highStart >> SHIFT_2`
is ALL_SAME or MIXED, and `highStart` never decreases across a successful
`set` or `setRange` call. -/
theorem c8_build_invariants (t : UTrie3) (h : Reachable t) :
    t.highStart % UTRIE3_DATA_BLOCK_LENGTH = 0 ∧
    t.highStart ≤ 0x110000 ∧
    (∀ i, i < t.highStart / UTRIE3_DATA_BLOCK_LENGTH →
      t.newTrie.flags i = ALL_SAME ∨ t.newTrie.flags i = MIXED) ∧
    (∀ t' c v, utrie3bld_set t c v = .ok t' → t.highStart ≤ t'.highStart) ∧
    (∀ t' s e v ow, utrie3bld_setRange t s e v ow = .ok t' → t.highStart ≤ t'.highStart) := by
  have hwf := reachable_wf t h
  refine ⟨hwf.hsMul, by simpa using hwf.hsLe, hwf.flagsOk, ?_, ?_⟩
  · intro t' c v hset
    exact (set_spec t hwf c v t' hset).2.2.2.2.2.1
  · intro t' s e v ow hsr
    exact (setRange_spec t hwf s e v ow t' hsr).2.2.2.2.2.2.1

theorem c8_witness :
    (utrie3bld_open 0 0).highStart % UTRIE3_DATA_BLOCK_LENGTH = 0 ∧
    (utrie3bld_open 0 0).highStart ≤ 0x110000 :=
  ⟨(c8_build_invariants _ (.base 0 0)).1, (c8_build_invariants _ (.base 0 0)).2.1⟩

/-- C9: a successful `set(trie, c, v)` on a reachable trie leaves `get` at
every other code point unchanged, and leaves `errorValue` unchanged, even
when it grows `highStart` or materializes an ALL_SAME slot into a block. -/
theorem c9_set_frame (t : UTrie3) (h : Reachable t) (c v : Nat) (t' : UTrie3)
    (hset : utrie3bld_set t c v = .ok t') :
    (∀ x, x ≤ MAX_UNICODE → x ≠ c → utrie3bld_get t' x = utrie3bld_get t x) ∧
    t'.errorValue = t.errorValue := by
  have hwf := reachable_wf t h
  obtain ⟨_, _, _, herr, _, _, hobs⟩ := set_spec t hwf c v t' hset
  exact ⟨fun x _ hx => by rw [hobs x, if_neg hx], herr⟩

def c9trie : UTrie3 :=
  match utrie3bld_set (utrie3bld_open 0 3) 0 5 with
  | .ok t => t
  | .error _ => utrie3bld_open 0 3

theorem c9_witness :
    utrie3bld_set (utrie3bld_open 0 3) 0 5 = .ok c9trie ∧
    utrie3bld_get c9trie 1 = utrie3bld_get (utrie3bld_open 0 3) 1 ∧
    c9trie.errorValue = (utrie3bld_open 0 3).errorValue :=
  ⟨rfl,
   (c9_set_frame _ (.base 0 3) 0 5 c9trie rfl).1 1 (by decide) (by decide),
   (c9_set_frame _ (.base 0 3) 0 5 c9trie rfl).2⟩

/-! ## `getRange` (lines 317-394) -/

/-- `maybeHandleValue` (lines 317-325).  The nullable `handleValue` function
pointer with its opaque context is modelled as a total function
(`handleValue == nullptr` corresponds to the identity function). -/
def maybeHandleValue (value initialValue nullValue : Nat) (handleValue : Nat → Nat) : Nat :=
  if value = initialValue then nullValue else handleValue value

/-- The inner scan of `getRange`'s MIXED branch
(`while ((++c & UTRIE3_DATA_MASK) != 0) { if (mhv(data[++di]) != value) return c - 1; }`,
lines 378-383).  `k` counts the remaining positions before the next block
boundary; `some r` is the early `return (c+j) - 1` result. -/
def getRangeScan (data : Nat → Nat) (initialValue nullValue : Nat) (hv : Nat → Nat)
    (value : Nat) : Nat → Nat → Nat → Option Nat
  | 0, _, _ => none
  | k + 1, c, di =>
    if maybeHandleValue (data (di + 1)) initialValue nullValue hv ≠ value then some c
    else getRangeScan data initialValue nullValue hv value k (c + 1) (di + 1)

/-- The main `do { ... } while (c < highStart)` loop of `utrie3bld_getRange`
(lines 350-386), followed by the final `highValue` comparison (lines 387-393).
`c + UTRIE3_DATA_BLOCK_LENGTH - c % UTRIE3_DATA_BLOCK_LENGTH` is the C
`(c + UTRIE3_DATA_BLOCK_LENGTH) & ~UTRIE3_DATA_MASK`. -/
def getRangeLoop (nt : UNewTrie3) (highStart initialValue highValue nullValue : Nat)
    (hv : Nat → Nat) (c : Nat) (value : Nat) (haveValue : Bool) : Nat :=
  if h : c < highStart then
    let i := c / UTRIE3_DATA_BLOCK_LENGTH
    if nt.flags i = ALL_SAME then
      let value2 := maybeHandleValue (nt.index i) initialValue nullValue hv
      if haveValue = true ∧ value2 ≠ value then c - 1
      else
        getRangeLoop nt highStart initialValue highValue nullValue hv
          (c + UTRIE3_DATA_BLOCK_LENGTH - c % UTRIE3_DATA_BLOCK_LENGTH)
          (if haveValue = true then value else value2) true
    else -- MIXED
      let di := nt.index i + c % UTRIE3_DATA_BLOCK_LENGTH
      let value2 := maybeHandleValue (nt.data di) initialValue nullValue hv
      if haveValue = true ∧ value2 ≠ value then c - 1
      else
        let value' := if haveValue = true then value else value2
        match getRangeScan nt.data initialValue nullValue hv value'
            (UTRIE3_DATA_MASK - c % UTRIE3_DATA_BLOCK_LENGTH) c di with
        | some r => r
        | none =>
          getRangeLoop nt highStart initialValue highValue nullValue hv
            (c + UTRIE3_DATA_BLOCK_LENGTH - c % UTRIE3_DATA_BLOCK_LENGTH) value' true
  else
    if maybeHandleValue highValue initialValue nullValue hv ≠ value then c - 1
    else MAX_UNICODE
termination_by highStart - c
decreasing_by
  · simp only [UTRIE3_DATA_BLOCK_LENGTH_eq]
    omega
  · simp only [UTRIE3_DATA_BLOCK_LENGTH_eq]
    omega

/-- `utrie3bld_getRange` (lines 329-394).  `none` models the `U_SENTINEL`
result; the `pValue` out-parameter is not modelled (no claim observes it).
The loop's `value` variable is uninitialized in C before `haveValue` is set;
the model passes 0, which is never read while `haveValue` is false. -/
def utrie3bld_getRange (trie : UTrie3) (start : Nat) (handleValue : Nat → Nat) :
    Option Nat :=
  if start > MAX_UNICODE then none
  else if start ≥ trie.highStart then some MAX_UNICODE
  else
    let nullValue := handleValue trie.initialValue
    some (getRangeLoop trie.newTrie trie.highStart trie.initialValue trie.highValue
      nullValue handleValue start 0 false)

theorem mhv_eq (v init : Nat) (hv : Nat → Nat) :
    maybeHandleValue v init (hv init) hv = hv v := by
  unfold maybeHandleValue
  split
  case isTrue h => rw [h]
  case isFalse => rfl

theorem getRangeScan_spec (t : UTrie3) (hv : Nat → Nat) (value' : Nat)
    (hsMul : t.highStart % 16 = 0) (hsLe : t.highStart ≤ 0x110000) :
    ∀ (k c : Nat), c < t.highStart → c % 16 + k ≤ 15 →
    t.newTrie.flags (c / 16) ≠ ALL_SAME →
    (match getRangeScan t.newTrie.data t.initialValue (hv t.initialValue) hv value' k c
        (t.newTrie.index (c / 16) + c % 16) with
     | some r => c ≤ r ∧ r + 1 ≤ c + k ∧
         (∀ x, c < x → x ≤ r → hv (utrie3bld_get t x) = value') ∧
         hv (utrie3bld_get t (r + 1)) ≠ value'
     | none => ∀ x, c < x → x ≤ c + k → hv (utrie3bld_get t x) = value') := by
  intro k
  induction k with
  | zero =>
    intro c hc hk hfl
    simp only [getRangeScan]
    intro x hx1 hx2
    omega
  | succ k ih =>
    intro c hc hk hfl
    have hc1lt : c + 1 < t.highStart := by omega
    have hc1M : c + 1 ≤ MAX_UNICODE := by simp only [MAX_UNICODE_eq]; omega
    have hslot : (c + 1) / 16 = c / 16 := by omega
    have hoff : (c + 1) % 16 = c % 16 + 1 := by omega
    have hfl1 : t.newTrie.flags ((c + 1) / 16) ≠ ALL_SAME := by rw [hslot]; exact hfl
    have hg1 : utrie3bld_get t (c + 1)
        = t.newTrie.data (t.newTrie.index (c / 16) + c % 16 + 1) := by
      rw [get_of_mixed t (c + 1) hc1M hc1lt hfl1, hslot, hoff]
      ring_nf
    simp only [getRangeScan]
    by_cases hne : maybeHandleValue (t.newTrie.data (t.newTrie.index (c / 16) + c % 16 + 1))
        t.initialValue (hv t.initialValue) hv ≠ value'
    · rw [if_pos hne]
      refine ⟨le_refl c, by omega, fun x hx1 hx2 => by omega, ?_⟩
      rw [mhv_eq] at hne
      rw [hg1]
      exact hne
    · rw [if_neg hne]
      push_neg at hne
      rw [mhv_eq] at hne
      have heq1 : hv (utrie3bld_get t (c + 1)) = value' := by rw [hg1]; exact hne
      have hdi : t.newTrie.index (c / 16) + c % 16 + 1
          = t.newTrie.index ((c + 1) / 16) + (c + 1) % 16 := by
        rw [hslot, hoff]
        ring
      have hih := ih (c + 1) hc1lt (by omega) hfl1
      rw [← hdi] at hih
      cases hscan : getRangeScan t.newTrie.data t.initialValue (hv t.initialValue) hv value' k
          (c + 1) (t.newTrie.index (c / 16) + c % 16 + 1) with
      | some r =>
        rw [hscan] at hih
        refine ⟨by omega, by omega, fun x hx1 hx2 => ?_, hih.2.2.2⟩
        by_cases hx : x = c + 1
        · rw [hx]; exact heq1
        · exact hih.2.2.1 x (by omega) hx2
      | none =>
        rw [hscan] at hih
        intro x hx1 hx2
        by_cases hx : x = c + 1
        · rw [hx]; exact heq1
        · exact hih x (by omega) (by omega)

/-- The property of an end point returned by `getRange`: the transformed
values over `[start, r]` all agree with the one at `start`, and the run is
maximal (either `r = MAX_UNICODE` or the next transformed value differs). -/
def RunEnd (t : UTrie3) (hv : Nat → Nat) (start r : Nat) : Prop :=
  start ≤ r ∧ r ≤ MAX_UNICODE ∧
  (∀ x, start ≤ x → x ≤ r → hv (utrie3bld_get t x) = hv (utrie3bld_get t start)) ∧
  (r = MAX_UNICODE ∨ hv (utrie3bld_get t (r + 1)) ≠ hv (utrie3bld_get t start))

theorem getRangeLoop_exit (t : UTrie3) (hv : Nat → Nat)
    (hsLe : t.highStart ≤ 0x110000)
    (c value : Nat) (haveValue : Bool) (start : Nat)
    (h2 : c ≤ t.highStart) (hge : t.highStart ≤ c)
    (hT : haveValue = true → start < c ∧ value = hv (utrie3bld_get t start))
    (hF : haveValue = false → c = start ∧ c < t.highStart)
    (hcov : ∀ x, start ≤ x → x < c →
      hv (utrie3bld_get t x) = hv (utrie3bld_get t start)) :
    RunEnd t hv start (getRangeLoop t.newTrie t.highStart t.initialValue
      t.highValue (hv t.initialValue) hv c value haveValue) := by
  have hch : c = t.highStart := by omega
  cases hB : haveValue
  · exact absurd ((hF hB).2) (by omega)
  · obtain ⟨hsc, hval⟩ := hT hB
    rw [getRangeLoop, dif_neg (by omega)]
    rw [mhv_eq]
    by_cases hvv : hv t.highValue = value
    · rw [if_neg (by simp only [ne_eq, not_not]; exact hvv)]
      refine ⟨by simp only [MAX_UNICODE_eq]; omega, le_refl _, ?_, Or.inl rfl⟩
      intro x hx1 hx2
      by_cases hxc : x < c
      · exact hcov x hx1 hxc
      · rw [get_of_high t x (by simp only [MAX_UNICODE_eq] at hx2 ⊢; omega) (by omega)]
        rw [hvv, hval]
    · rw [if_pos hvv]
      refine ⟨by omega, by simp only [MAX_UNICODE_eq]; omega,
        fun x hx1 hx2 => hcov x hx1 (by omega), ?_⟩
      by_cases hcM : c - 1 = MAX_UNICODE
      · exact Or.inl hcM
      · refine Or.inr ?_
        have hc1 : c - 1 + 1 = c := by omega
        rw [hc1]
        rw [get_of_high t c (by simp only [MAX_UNICODE_eq] at hcM ⊢; omega) (by omega)]
        rw [← hval]
        exact hvv

theorem getRangeLoop_correct (t : UTrie3) (hv : Nat → Nat)
    (hsMul : t.highStart % 16 = 0) (hsLe : t.highStart ≤ 0x110000) :
    ∀ (n c value : Nat) (haveValue : Bool) (start : Nat),
    t.highStart - c ≤ n →
    start ≤ c → c ≤ t.highStart →
    (haveValue = true → start < c ∧ value = hv (utrie3bld_get t start)) →
    (haveValue = false → c = start ∧ c < t.highStart) →
    (∀ x, start ≤ x → x < c →
      hv (utrie3bld_get t x) = hv (utrie3bld_get t start)) →
    RunEnd t hv start (getRangeLoop t.newTrie t.highStart t.initialValue
      t.highValue (hv t.initialValue) hv c value haveValue) := by
  intro n
  induction n with
  | zero =>
    intro c value haveValue start hn h1 h2 hT hF hcov
    exact getRangeLoop_exit t hv hsLe c value haveValue start h2 (by omega) hT hF hcov
  | succ n ih =>
    intro c value haveValue start hn h1 h2 hT hF hcov
    by_cases hlt : c < t.highStart
    · have hcM : c ≤ MAX_UNICODE := by simp only [MAX_UNICODE_eq]; omega
      rw [getRangeLoop, dif_pos hlt]
      simp only [UTRIE3_DATA_BLOCK_LENGTH_eq, UTRIE3_DATA_MASK_eq]
      by_cases hfl : t.newTrie.flags (c / 16) = ALL_SAME
      · rw [if_pos hfl]
        have hgc : utrie3bld_get t c = t.newTrie.index (c / 16) :=
          get_of_allsame t c hcM hlt hfl
        by_cases hret : haveValue = true ∧
            maybeHandleValue (t.newTrie.index (c / 16)) t.initialValue
              (hv t.initialValue) hv ≠ value
        · rw [if_pos hret]
          obtain ⟨hsc, hval⟩ := hT hret.1
          refine ⟨by omega, by simp only [MAX_UNICODE_eq]; omega,
            fun x hx1 hx2 => hcov x hx1 (by omega), Or.inr ?_⟩
          have hc1 : c - 1 + 1 = c := by omega
          rw [hc1, hgc, ← hval]
          have := hret.2
          rw [mhv_eq] at this
          exact this
        · rw [if_neg hret]
          have hvc : hv (utrie3bld_get t c) = hv (utrie3bld_get t start) := by
            cases hB : haveValue
            · rw [(hF hB).1]
            · obtain ⟨_, hval⟩ := hT hB
              have h2' : maybeHandleValue (t.newTrie.index (c / 16)) t.initialValue
                  (hv t.initialValue) hv = value := by
                by_contra hx
                exact hret ⟨hB, hx⟩
              rw [mhv_eq] at h2'
              rw [hgc, h2', hval]
          have hrec : ∀ v', v' = hv (utrie3bld_get t start) →
              RunEnd t hv start (getRangeLoop t.newTrie t.highStart t.initialValue
                t.highValue (hv t.initialValue) hv (c + 16 - c % 16) v' true) := by
            intro v' hv'
            refine ih (c + 16 - c % 16) v' true start (by omega) (by omega) (by omega)
              (fun _ => ⟨by omega, hv'⟩) (fun h => absurd h (by decide)) ?_
            intro x hx1 hx2
            by_cases hxc : x < c
            · exact hcov x hx1 hxc
            · have hxd : x / 16 = c / 16 := by omega
              rw [get_of_allsame t x (by simp only [MAX_UNICODE_eq]; omega) (by omega)
                (by rw [hxd]; exact hfl), hxd, ← hgc]
              exact hvc
          refine hrec _ ?_
          cases hB : haveValue
          · rw [if_neg (by decide), mhv_eq, ← hgc, (hF hB).1]
          · rw [if_pos rfl]
            exact (hT hB).2
      · rw [if_neg hfl]
        have hgc : utrie3bld_get t c
            = t.newTrie.data (t.newTrie.index (c / 16) + c % 16) :=
          get_of_mixed t c hcM hlt hfl
        by_cases hret : haveValue = true ∧
            maybeHandleValue (t.newTrie.data (t.newTrie.index (c / 16) + c % 16))
              t.initialValue (hv t.initialValue) hv ≠ value
        · rw [if_pos hret]
          obtain ⟨hsc, hval⟩ := hT hret.1
          refine ⟨by omega, by simp only [MAX_UNICODE_eq]; omega,
            fun x hx1 hx2 => hcov x hx1 (by omega), Or.inr ?_⟩
          have hc1 : c - 1 + 1 = c := by omega
          rw [hc1, hgc, ← hval]
          have := hret.2
          rw [mhv_eq] at this
          exact this
        · rw [if_neg hret]
          have hvc : hv (utrie3bld_get t c) = hv (utrie3bld_get t start) := by
            cases hB : haveValue
            · rw [(hF hB).1]
            · obtain ⟨_, hval⟩ := hT hB
              have h2' : maybeHandleValue (t.newTrie.data (t.newTrie.index (c / 16)
                  + c % 16)) t.initialValue (hv t.initialValue) hv = value := by
                by_contra hx
                exact hret ⟨hB, hx⟩
              rw [mhv_eq] at h2'
              rw [hgc, h2', hval]
          have hrec : ∀ v', v' = hv (utrie3bld_get t start) →
              RunEnd t hv start
                (match getRangeScan t.newTrie.data t.initialValue (hv t.initialValue)
                    hv v' (15 - c % 16) c (t.newTrie.index (c / 16) + c % 16) with
                 | some r => r
                 | none => getRangeLoop t.newTrie t.highStart t.initialValue
                     t.highValue (hv t.initialValue) hv (c + 16 - c % 16) v' true) := by
            intro v' hv'
            have hspec := getRangeScan_spec t hv v' hsMul hsLe (15 - c % 16) c hlt
              (by omega) hfl
            cases hscan : getRangeScan t.newTrie.data t.initialValue (hv t.initialValue)
                hv v' (15 - c % 16) c (t.newTrie.index (c / 16) + c % 16) with
            | some r =>
              rw [hscan] at hspec
              have hspec2 : c ≤ r ∧ r + 1 ≤ c + (15 - c % 16) ∧
                  (∀ x, c < x → x ≤ r → hv (utrie3bld_get t x) = v') ∧
                  hv (utrie3bld_get t (r + 1)) ≠ v' := hspec
              obtain ⟨hcr, hrk, hall, hne⟩ := hspec2
              show RunEnd t hv start r
              refine ⟨by omega, by simp only [MAX_UNICODE_eq]; omega, ?_, Or.inr ?_⟩
              · intro x hx1 hx2
                by_cases hxc : x < c
                · exact hcov x hx1 hxc
                · by_cases hxc2 : x = c
                  · rw [hxc2]; exact hvc
                  · rw [hall x (by omega) hx2]; exact hv'
              · rw [← hv']
                exact hne
            | none =>
              rw [hscan] at hspec
              have hspec2 : ∀ x, c < x → x ≤ c + (15 - c % 16) →
                  hv (utrie3bld_get t x) = v' := hspec
              show RunEnd t hv start (getRangeLoop t.newTrie t.highStart t.initialValue
                t.highValue (hv t.initialValue) hv (c + 16 - c % 16) v' true)
              refine ih (c + 16 - c % 16) v' true start (by omega) (by omega) (by omega)
                (fun _ => ⟨by omega, hv'⟩) (fun h => absurd h (by decide)) ?_
              intro x hx1 hx2
              by_cases hxc : x < c
              · exact hcov x hx1 hxc
              · by_cases hxc2 : x = c
                · rw [hxc2]; exact hvc
                · rw [hspec2 x (by omega) (by omega)]; exact hv'
          refine hrec _ ?_
          cases hB : haveValue
          · rw [if_neg (by decide), mhv_eq, ← hgc, (hF hB).1]
          · rw [if_pos rfl]
            exact (hT hB).2
    · exact getRangeLoop_exit t hv hsLe c value haveValue start h2 (by omega) hT hF hcov

def c3trie : UTrie3 := utrie3bld_open 5 9

/-- C3: whenever `utrie3bld_getRange trie start handleValue` returns an end
`e` (i.e. not the `U_SENTINEL` for out-of-range starts), all transformed
values over `[start, e]` agree with the one at `start` — where a stored
value equal to `initialValue` is replaced by
`nullValue = handleValue initialValue` and every other value goes through
`handleValue` — and the run is maximal: either `e = 0x10FFFF` or the
transformed value at `e + 1` differs from the one at `start`.  The
well-formedness facts `highStart % 16 = 0` and `highStart ≤ 0x110000` hold
for every trie reachable through the builder API. -/
theorem c3_getRange_run_maximal (t : UTrie3) (handleValue : Nat → Nat)
    (start e : Nat)
    (hsMul : t.highStart % 16 = 0) (hsLe : t.highStart ≤ UNICODE_LIMIT)
    (h : utrie3bld_getRange t start handleValue = some e) :
    start ≤ e ∧ e ≤ MAX_UNICODE ∧
    (∀ x, start ≤ x → x ≤ e →
      maybeHandleValue (utrie3bld_get t x) t.initialValue
          (handleValue t.initialValue) handleValue
        = maybeHandleValue (utrie3bld_get t start) t.initialValue
          (handleValue t.initialValue) handleValue) ∧
    (e = MAX_UNICODE ∨
      maybeHandleValue (utrie3bld_get t (e + 1)) t.initialValue
          (handleValue t.initialValue) handleValue
        ≠ maybeHandleValue (utrie3bld_get t start) t.initialValue
          (handleValue t.initialValue) handleValue) := by
  simp only [mhv_eq]
  simp only [utrie3bld_getRange] at h
  by_cases hs1 : start > MAX_UNICODE
  · rw [if_pos hs1] at h
    exact absurd h (by simp)
  · rw [if_neg hs1] at h
    by_cases hs2 : start ≥ t.highStart
    · rw [if_pos hs2] at h
      simp only [Option.some.injEq] at h
      subst h
      refine ⟨by omega, le_refl _, ?_, Or.inl rfl⟩
      intro x hx1 hx2
      rw [get_of_high t x hx2 (by omega), get_of_high t start (by omega) hs2]
    · rw [if_neg hs2] at h
      simp only [Option.some.injEq] at h
      have hrun := getRangeLoop_correct t handleValue hsMul
        (by simp only [UNICODE_LIMIT_eq] at hsLe; exact hsLe)
        (t.highStart - start) start 0 false start (le_refl _) (le_refl _) (by omega)
        (fun hh => absurd hh (by decide)) (fun _ => ⟨rfl, by omega⟩)
        (fun x hx1 hx2 => absurd hx2 (by omega))
      rw [h] at hrun
      exact hrun

theorem c3_witness :
    (c3trie.highStart % 16 = 0 ∧ c3trie.highStart ≤ UNICODE_LIMIT ∧
      utrie3bld_getRange c3trie 0 (fun v => v + 1) = some MAX_UNICODE) ∧
    (0 ≤ MAX_UNICODE ∧ MAX_UNICODE ≤ MAX_UNICODE ∧
      (∀ x, 0 ≤ x → x ≤ MAX_UNICODE →
        maybeHandleValue (utrie3bld_get c3trie x) c3trie.initialValue
            ((fun v => v + 1) c3trie.initialValue) (fun v => v + 1)
          = maybeHandleValue (utrie3bld_get c3trie 0) c3trie.initialValue
            ((fun v => v + 1) c3trie.initialValue) (fun v => v + 1)) ∧
      (MAX_UNICODE = MAX_UNICODE ∨
        maybeHandleValue (utrie3bld_get c3trie (MAX_UNICODE + 1)) c3trie.initialValue
            ((fun v => v + 1) c3trie.initialValue) (fun v => v + 1)
          ≠ maybeHandleValue (utrie3bld_get c3trie 0) c3trie.initialValue
            ((fun v => v + 1) c3trie.initialValue) (fun v => v + 1))) :=
  ⟨⟨rfl, by decide, rfl⟩,
    c3_getRange_run_maximal c3trie (fun v => v + 1) 0 MAX_UNICODE rfl (by decide) rfl⟩

/-! ## Compaction helpers (utrie3builder.cpp lines 603-723)

The C helpers walk raw pointers; the model passes the base array plus an
explicit start offset.  `for` loops whose step is the `granularity`
parameter (always 1 or 2 at the call sites) are translated with an explicit
iteration count `(length - blockLength) / granularity + 1`, which is exactly
the number of candidate block positions the C loop visits for any
granularity ≥ 1; the loop guard `block <= length` is kept inside. -/

/-- `maskValues` (lines 603-618).  Both loops touch disjoint slots, so they
are modelled pointwise.  `errorValue` is deliberately left unchanged. -/
def maskValues (trie : UTrie3) (mask : Nat) : UTrie3 :=
  let nt := trie.newTrie
  let iLimit := trie.highStart / UTRIE3_DATA_BLOCK_LENGTH
  let index' := fun i => if i < iLimit ∧ nt.flags i = ALL_SAME then nt.index i &&& mask else nt.index i
  let data' := fun j => if j < nt.dataLength then nt.data j &&& mask else nt.data j
  { trie with
    initialValue := trie.initialValue &&& mask
    highValue := trie.highValue &&& mask
    newTrie := { nt with index := index', data := data' } }

/-- `equal_uint32(s, t, length)` (lines 620-627), with explicit offsets. -/
def equal_uint32 (s : Nat → Nat) (si : Nat) (t : Nat → Nat) (ti : Nat) : Nat → Bool
  | 0 => true
  | length + 1 =>
    if s si = t ti then equal_uint32 s (si + 1) t (ti + 1) length else false

/-- `allValuesSameAs(p, length, value)` (lines 629-633), with an explicit
start offset. -/
def allValuesSameAs (p : Nat → Nat) (ps : Nat) (value : Nat) : Nat → Bool
  | 0 => true
  | length + 1 =>
    if p ps = value then allValuesSameAs p (ps + 1) value length else false

/-- Loop body of `findSameBlock` (lines 636-648): candidate positions
`block = 0, granularity, 2*granularity, ...` while `block ≤ L`. -/
def fsbGo (p : Nat → Nat) (other : Nat → Nat) (os blockLength granularity L : Nat) :
    Nat → Nat → Option Nat
  | 0, _ => none
  | n + 1, block =>
    if block ≤ L then
      if equal_uint32 p block other os blockLength then some block
      else fsbGo p other os blockLength granularity L n (block + granularity)
    else none

/-- `findSameBlock` (lines 636-648).  `none` models the `-1` result.
`length -= blockLength` may go negative in C, in which case the loop does
not run; the `length < blockLength` guard captures that. -/
def findSameBlock (p : Nat → Nat) (length : Nat) (other : Nat → Nat) (os : Nat)
    (blockLength granularity : Nat) : Option Nat :=
  if length < blockLength then none
  else fsbGo p other os blockLength granularity (length - blockLength)
    ((length - blockLength) / granularity + 1) 0

/-- Inner scan of `findAllSameBlock` (lines 655-663): `none` when all of
`p[block+1..blockLength)` equal `value`, else the first mismatch index. -/
def fasbInner (p : Nat → Nat) (block value blockLength : Nat) : Nat → Nat → Option Nat
  | 0, _ => none
  | n + 1, i =>
    if i = blockLength then none
    else if p (block + i) ≠ value then some i
    else fasbInner p block value blockLength n (i + 1)

/-- Outer loop of `findAllSameBlock` (lines 650-667).
`block += i & ~(granularity-1)` is `block + i / granularity * granularity`. -/
def fasbGo (p : Nat → Nat) (value blockLength granularity L : Nat) :
    Nat → Nat → Option Nat
  | 0, _ => none
  | n + 1, block =>
    if block ≤ L then
      if p block = value then
        match fasbInner p block value blockLength blockLength 1 with
        | none => some block
        | some i =>
          fasbGo p value blockLength granularity L n
            (block + i / granularity * granularity + granularity)
      else fasbGo p value blockLength granularity L n (block + granularity)
    else none

/-- `findAllSameBlock` (lines 650-667). -/
def findAllSameBlock (p : Nat → Nat) (length value blockLength granularity : Nat) :
    Option Nat :=
  if length < blockLength then none
  else fasbGo p value blockLength granularity (length - blockLength)
    ((length - blockLength) / granularity + 1) 0

/-- Loop of `getOverlap` (lines 673-681): `overlap` decreases by
`granularity` while positive and the tails do not match; `blockLength` fuel
bounds the iteration count. -/
def goGo (p : Nat → Nat) (length : Nat) (other : Nat → Nat) (os granularity : Nat) :
    Nat → Nat → Nat
  | 0, overlap => overlap
  | n + 1, overlap =>
    if overlap > 0 ∧ equal_uint32 p (length - overlap) other os overlap = false then
      goGo p length other os granularity n (overlap - granularity)
    else overlap

/-- `getOverlap` (lines 673-681). -/
def getOverlap (p : Nat → Nat) (length : Nat) (other : Nat → Nat) (os : Nat)
    (blockLength granularity : Nat) : Nat :=
  goGo p length other os granularity blockLength (blockLength - granularity)

/-- Backward scan of `getAllSameOverlap` (lines 683-689). -/
def gasoGo (p : Nat → Nat) (value mn : Nat) : Nat → Nat → Nat
  | 0, i => i
  | n + 1, i =>
    if mn < i ∧ p (i - 1) = value then gasoGo p value mn n (i - 1) else i

/-- `getAllSameOverlap` (lines 683-689).
`(length - i) & ~(granularity-1)` is `(length - i) / granularity * granularity`. -/
def getAllSameOverlap (p : Nat → Nat) (length value blockLength granularity : Nat) : Nat :=
  let mn := length - (blockLength - granularity)
  let i := gasoGo p value mn blockLength length
  (length - i) / granularity * granularity

/-- One slot check of `findHighStart` (lines 702-715): the MIXED branch's
inline `j` loop is exactly `allValuesSameAs` over the block. -/
def fhsMatch (nt : UNewTrie3) (highValue i : Nat) : Bool :=
  if nt.flags i = ALL_SAME then decide (nt.index i = highValue)
  else allValuesSameAs nt.data (nt.index i) highValue UTRIE3_DATA_BLOCK_LENGTH

/-- Descending loop of `findHighStart` (lines 699-717): slot `i` is checked,
a mismatch returns `(i+1) << UTRIE3_SHIFT_2`. -/
def fhsGo (nt : UNewTrie3) (highValue : Nat) : Nat → Nat
  | 0 => 0
  | i + 1 =>
    if fhsMatch nt highValue i then fhsGo nt highValue i
    else (i + 1) * UTRIE3_DATA_BLOCK_LENGTH

/-- `findHighStart` (lines 696-718). -/
def findHighStart (nt : UNewTrie3) (highStart highValue : Nat) : Nat :=
  fhsGo nt highValue (highStart / UTRIE3_DATA_BLOCK_LENGTH)

/-! ## `AllSameBlocks` (lines 725-795) -/

def ASB_NEW_UNIQUE : Int := -1
def ASB_OVERFLOW : Int := -2
def ASB_CAPACITY : Nat := 32

/-- The fixed-capacity cache of ALL_SAME block values.  `mostRecent = -1`
initially, as in the constructor. -/
structure AllSameBlocks where
  length : Nat
  mostRecent : Int
  indexes : Nat → Nat
  values : Nat → Nat
  refCounts : Nat → Nat

/-- `AllSameBlocks()` constructor (line 730); array contents start
unspecified (modelled as 0, unobservable below `length`). -/
def asbInit : AllSameBlocks :=
  { length := 0
    mostRecent := -1
    indexes := fun _ => 0
    values := fun _ => 0
    refCounts := fun _ => 0 }

/-- The `for (i < length)` scan of `findOrAdd` (lines 737-743): first `i`
with `values[i] == value`. -/
def asbFind (values : Nat → Nat) (value : Nat) : Nat → Nat → Option Nat
  | 0, _ => none
  | n + 1, i => if values i = value then some i else asbFind values value n (i + 1)

/-- `AllSameBlocks::findOrAdd` (lines 732-752): result is an earlier block's
slot index (`≥ 0`), `NEW_UNIQUE` (−1) or `OVERFLOW` (−2), paired with the
updated cache. -/
def asbFindOrAdd (s : AllSameBlocks) (index value : Nat) : Int × AllSameBlocks :=
  if s.mostRecent ≥ 0 ∧ s.values s.mostRecent.toNat = value then
    let m := s.mostRecent.toNat
    ((s.indexes m : Int), { s with refCounts := upd s.refCounts m (s.refCounts m + 1) })
  else
    match asbFind s.values value s.length 0 with
    | some i =>
      ((s.indexes i : Int),
        { s with
          mostRecent := (i : Int)
          refCounts := upd s.refCounts i (s.refCounts i + 1) })
    | none =>
      if s.length = ASB_CAPACITY then (ASB_OVERFLOW, s)
      else
        (ASB_NEW_UNIQUE,
          { length := s.length + 1
            mostRecent := (s.length : Int)
            indexes := upd s.indexes s.length index
            values := upd s.values s.length value
            refCounts := upd s.refCounts s.length 1 })

/-- Least-refcount scan of `add` (lines 757-765): `least` starts at −1,
`leastCount` at `I_LIMIT`. -/
def asbLeast (refCounts : Nat → Nat) : Nat → Nat → Int → Nat → Int
  | 0, _, least, _ => least
  | n + 1, i, least, leastCount =>
    if refCounts i < leastCount then asbLeast refCounts n (i + 1) (i : Int) (refCounts i)
    else asbLeast refCounts n (i + 1) least leastCount

/-- `AllSameBlocks::add` (lines 755-771), replacing the block with the
lowest reference count. -/
def asbAdd (s : AllSameBlocks) (index value : Nat) : AllSameBlocks :=
  let least := asbLeast s.refCounts s.length 0 (-1) I_LIMIT
  let l := least.toNat
  { s with
    mostRecent := least
    indexes := upd s.indexes l index
    values := upd s.values l value
    refCounts := upd s.refCounts l 1 }

/-- Max-refcount scan of `findMostUsed` (lines 775-781). -/
def asbMost (refCounts : Nat → Nat) : Nat → Nat → Int → Nat → Int
  | 0, _, mx, _ => mx
  | n + 1, i, mx, maxCount =>
    if refCounts i > maxCount then asbMost refCounts n (i + 1) (i : Int) (refCounts i)
    else asbMost refCounts n (i + 1) mx maxCount

/-- `AllSameBlocks::findMostUsed` (lines 773-784). -/
def asbFindMostUsed (s : AllSameBlocks) : Int :=
  if s.length = 0 then -1
  else
    let mx := asbMost s.refCounts s.length 0 (-1) 0
    (s.indexes mx.toNat : Int)

/-! ## `compactWholeDataBlocks` (lines 797-875) -/

structure CWDBState where
  nt : UNewTrie3
  asb : AllSameBlocks
  newDataLength : Nat

/-- The `for(j=0;;++j)` duplicate-MIXED search (lines 820-836): first
`j < i` whose block type is MIXED and whose data block equals the one at
data offset `p`. -/
def cwdbFindMixed (nt : UNewTrie3) (p : Nat) : Nat → Nat → Option Nat
  | 0, _ => none
  | n + 1, j =>
    if nt.flags j &&& TYPE_MASK = MIXED ∧
        equal_uint32 nt.data p nt.data (nt.index j) UTRIE3_DATA_BLOCK_LENGTH = true then
      some j
    else cwdbFindMixed nt p n (j + 1)

/-- The overflow-path `for(other=0;;++other)` search (lines 847-860): first
`j < i` whose block type is ALL_SAME with `index[j] == value`. -/
def cwdbFindAllSame (nt : UNewTrie3) (value : Nat) : Nat → Nat → Option Nat
  | 0, _ => none
  | n + 1, j =>
    if nt.flags j &&& TYPE_MASK = ALL_SAME ∧ nt.index j = value then some j
    else cwdbFindAllSame nt value n (j + 1)

/-- The ALL_SAME tail of the loop body (lines 840-872), shared by the
really-ALL_SAME and converted-MIXED paths. -/
def cwdbAllSame (s : CWDBState) (i value : Nat) : CWDBState :=
  let r1 := asbFindOrAdd s.asb i value
  let r2 :=
    if r1.1 = ASB_OVERFLOW then
      match cwdbFindAllSame s.nt value i 0 with
      | none => (ASB_NEW_UNIQUE, asbAdd r1.2 i value)
      | some o => ((o : Int), asbAdd r1.2 o value)
    else r1
  if r2.1 ≥ 0 then
    let o := r2.1.toNat
    let f1 := if i ≥ BMP_I_LIMIT then upd s.nt.flags o (s.nt.flags o ||| SUPP_DATA) else s.nt.flags
    { nt := { s.nt with flags := upd f1 i SAME_AS, index := upd s.nt.index i o }
      asb := r2.2
      newDataLength := s.newDataLength }
  else
    { nt := s.nt
      asb := r2.2
      newDataLength := s.newDataLength + UTRIE3_DATA_BLOCK_LENGTH }

/-- One iteration of the `compactWholeDataBlocks` main loop (lines 805-872)
for slot `i`. -/
def cwdbStep (s : CWDBState) (i : Nat) : CWDBState :=
  let flags := s.nt.flags i
  let value := s.nt.index i
  if flags = MIXED then
    let p := value
    let v := s.nt.data p
    if allValuesSameAs s.nt.data (p + 1) v (UTRIE3_DATA_BLOCK_LENGTH - 1) then
      -- Really all same: convert to ALL_SAME and fall through (lines 813-817).
      cwdbAllSame
        { s with nt := { s.nt with flags := upd s.nt.flags i ALL_SAME, index := upd s.nt.index i v } }
        i v
    else
      match cwdbFindMixed s.nt p i 0 with
      | none => { s with newDataLength := s.newDataLength + UTRIE3_DATA_BLOCK_LENGTH }
      | some j =>
        let f1 := if i ≥ BMP_I_LIMIT then upd s.nt.flags j (s.nt.flags j ||| SUPP_DATA) else s.nt.flags
        { s with nt := { s.nt with flags := upd f1 i SAME_AS, index := upd s.nt.index i j } }
  else cwdbAllSame s i value

/-- The `for(i=0; i<iLimit; ++i)` loop: `n` remaining slots starting at `i`. -/
def cwdbGo : Nat → Nat → CWDBState → CWDBState
  | 0, _, s => s
  | n + 1, i, s => cwdbGo n (i + 1) (cwdbStep s i)

/-- `compactWholeDataBlocks` (lines 797-875): returns the computed
`newDataLength` and the updated `UNewTrie3` (with `dataNullIndex` set from
`findMostUsed`). -/
def compactWholeDataBlocks (nt : UNewTrie3) (highStart : Nat) : Nat × UNewTrie3 :=
  let s := cwdbGo (highStart / UTRIE3_DATA_BLOCK_LENGTH) 0 ⟨nt, asbInit, 0⟩
  (s.newDataLength, { s.nt with dataNullIndex := asbFindMostUsed s.asb })

/-! ## `compactData` (lines 893-1033) -/

structure CDState where
  nt : UNewTrie3
  newData : Nat → Nat
  newStart : Nat

/-- `while(n<UTRIE3_DATA_BLOCK_LENGTH) { newData[newStart++]=value; ++n; }`
(lines 980-983): write `k` copies of `value` at `pos, pos+1, ...`. -/
def cdFillSame (value : Nat) : (Nat → Nat) → Nat → Nat → (Nat → Nat)
  | d, _, 0 => d
  | d, pos, k + 1 => cdFillSame value (upd d pos value) (pos + 1) k

/-- `while(n<UTRIE3_DATA_BLOCK_LENGTH) { newData[newStart++]=block[n++]; }`
(lines 996-998): copy `k` entries from `src` at `sp` to `pos`.  `src` is the
old data array, distinct from the destination, so a snapshot read is
faithful. -/
def cdCopy (src : Nat → Nat) : (Nat → Nat) → Nat → Nat → Nat → (Nat → Nat)
  | d, _, _, 0 => d
  | d, pos, sp, k + 1 => cdCopy src (upd d pos (src sp)) (pos + 1) (sp + 1) k

/-- One iteration of the data-compaction loop body (lines 965-1002) for slot
`i`.  In the second pass (`granularity != 1`) the flags are masked with
`TYPE_MASK` (line 969). -/
def cdStep (granularity : Nat) (s : CDState) (i : Nat) : CDState :=
  let flags0 := s.nt.flags i
  let flags := if granularity ≠ 1 then flags0 &&& TYPE_MASK else flags0
  if flags = ALL_SAME then
    let value := s.nt.index i
    match findAllSameBlock s.newData s.newStart value UTRIE3_DATA_BLOCK_LENGTH granularity with
    | some n =>
      { s with nt := { s.nt with index := upd s.nt.index i n, flags := upd s.nt.flags i MOVED } }
    | none =>
      let n := getAllSameOverlap s.newData s.newStart value UTRIE3_DATA_BLOCK_LENGTH granularity
      { nt := { s.nt with index := upd s.nt.index i (s.newStart - n), flags := upd s.nt.flags i MOVED }
        newData := cdFillSame value s.newData s.newStart (UTRIE3_DATA_BLOCK_LENGTH - n)
        newStart := s.newStart + (UTRIE3_DATA_BLOCK_LENGTH - n) }
  else if flags = MIXED then
    let block := s.nt.index i
    match findSameBlock s.newData s.newStart s.nt.data block UTRIE3_DATA_BLOCK_LENGTH granularity with
    | some n =>
      { s with nt := { s.nt with index := upd s.nt.index i n, flags := upd s.nt.flags i MOVED } }
    | none =>
      let n := getOverlap s.newData s.newStart s.nt.data block UTRIE3_DATA_BLOCK_LENGTH granularity
      { nt := { s.nt with index := upd s.nt.index i (s.newStart - n), flags := upd s.nt.flags i MOVED }
        newData := cdCopy s.nt.data s.newData s.newStart (block + n) (UTRIE3_DATA_BLOCK_LENGTH - n)
        newStart := s.newStart + (UTRIE3_DATA_BLOCK_LENGTH - n) }
  else s

/-- The per-pass slot loop: `n` remaining slots starting at `i`.  The C code
runs both passes in one `for` loop with an `i = ASCII_I_LIMIT` reset (lines
942-960); the reset makes the second pass revisit `[ASCII_I_LIMIT, iLimit)`,
which is modelled as a second `cdGo`. -/
def cdGo (granularity : Nat) : Nat → Nat → CDState → CDState
  | 0, _, s => s
  | n + 1, i, s => cdGo granularity n (i + 1) (cdStep granularity s i)

/-- The between-pass padding loop (lines 949-955): write a copy of the last
value while `newStart` is not a multiple of `UTRIE3_DATA_GRANULARITY`. -/
def cdPad (d : Nat → Nat) (ns : Nat) : (Nat → Nat) × Nat :=
  if ns % UTRIE3_DATA_GRANULARITY ≠ 0 then cdPad (upd d ns (d (ns - 1))) (ns + 1)
  else (d, ns)
termination_by ns % UTRIE3_DATA_GRANULARITY
decreasing_by
  simp only [UTRIE3_DATA_GRANULARITY_eq] at *
  omega

/-- `compactData` (lines 893-1033).  `asciiData` is captured from
`utrie3bld_get` before `compactWholeDataBlocks` rewrites the slots (lines
895-898).  The debug build is unconditionally enabled (line 7 `#define
UTRIE3_DEBUG`), so the `trie->initialValue` overwrite (line 920) is part of
the compiled code.  The ASCII slot loop (lines 929-933) and the final
SAME_AS resolution loop (lines 1005-1014) write disjoint slots (SAME_AS
targets are earlier, already-MOVED slots, never themselves SAME_AS), so both
are modelled pointwise. -/
def compactData (trie : UTrie3) (highStart : Nat) : UTrie3 :=
  let asciiData : Nat → Nat := fun i => utrie3bld_get trie i
  let iLimit := highStart / UTRIE3_DATA_BLOCK_LENGTH
  let r := compactWholeDataBlocks trie.newTrie highStart
  let newDataLength := r.1 + ASCII_LIMIT
  let nt0 := r.2
  let dataNullIndex := nt0.dataNullIndex
  let newData0 : Nat → Nat := fun j => if j < ASCII_LIMIT then asciiData j else 0
  let initialValue' :=
    if dataNullIndex ≥ 0 then nt0.index dataNullIndex.toNat else trie.initialValue
  let flagsA := fun i => if i < ASCII_I_LIMIT then MOVED else nt0.flags i
  let indexA := fun i => if i < ASCII_I_LIMIT then i * UTRIE3_DATA_BLOCK_LENGTH else nt0.index i
  let s1 := cdGo 1 (BMP_I_LIMIT - ASCII_I_LIMIT) ASCII_I_LIMIT
    ⟨{ nt0 with flags := flagsA, index := indexA }, newData0, ASCII_LIMIT⟩
  let p := cdPad s1.newData s1.newStart
  let s3 := cdGo UTRIE3_DATA_GRANULARITY (iLimit - ASCII_I_LIMIT) ASCII_I_LIMIT
    ⟨s1.nt, p.1, p.2⟩
  let flagsR := fun i =>
    if ASCII_I_LIMIT ≤ i ∧ i < iLimit ∧ s3.nt.flags i = SAME_AS then MOVED else s3.nt.flags i
  let indexR := fun i =>
    if ASCII_I_LIMIT ≤ i ∧ i < iLimit ∧ s3.nt.flags i = SAME_AS then s3.nt.index (s3.nt.index i)
    else s3.nt.index i
  let dataNullOffset :=
    if dataNullIndex ≥ 0 then indexR dataNullIndex.toNat else UTRIE3_NO_DATA_NULL_OFFSET
  { trie with
    initialValue := initialValue'
    dataNullOffset := dataNullOffset
    dataLength := s3.newStart
    newTrie :=
      { flags := flagsR
        index := indexR
        data := s3.newData
        dataCapacity := newDataLength
        dataLength := s3.newStart
        dataNullIndex := dataNullIndex } }

/-! ## `compactIndex2` (lines 1035-1127) -/

structure CI2State where
  index : Nat → Nat
  newStart : Nat
  nullOffset : Int
  index1 : Nat → Nat

/-- `while (n < UTRIE3_INDEX_2_BLOCK_LENGTH) { index[newStart++] = index[start + n++]; }`
(lines 1085-1087): an ascending in-place copy whose reads are always ahead of
its writes (`newStart ≤ start`), modelled faithfully step by step. -/
def ci2Copy : (Nat → Nat) → Nat → Nat → Nat → (Nat → Nat)
  | d, _, _, 0 => d
  | d, dst, src, k + 1 => ci2Copy (upd d dst (d src)) (dst + 1) (src + 1) k

/-- One iteration of the `compactIndex2` block loop (lines 1056-1102) for the
index-2 block at `start`.  `dno` is `trie->dataNullOffset`, `dni` is
`newTrie->dataNullIndex`, `offset` is the index-1 insertion offset.
`index1` stores `uint16_t` values, hence the `% 0x10000` at the store.
`i2 - offset` may be a negative pointer offset in C for a BMP-deduplicated
block; the natural-number truncation mirrors the (never provably read)
garbage comparison. -/
def ci2Step (dno : Nat) (dni : Int) (offset : Nat) (s : CI2State) (start : Nat) : CI2State :=
  let i1pos := start / UTRIE3_INDEX_2_BLOCK_LENGTH - UTRIE3_OMITTED_BMP_INDEX_1_LENGTH
  if s.nullOffset ≥ 0 ∧
      allValuesSameAs s.index start dno UTRIE3_INDEX_2_BLOCK_LENGTH = true then
    { s with index1 := upd s.index1 i1pos (s.nullOffset.toNat % 0x10000) }
  else
    let r : Nat × CI2State :=
      match findSameBlock s.index BMP_I_LIMIT s.index start UTRIE3_INDEX_2_BLOCK_LENGTH 1 with
      | some n => (n, s)
      | none =>
        match findSameBlock (fun k => s.index (BMP_I_LIMIT + k)) (s.newStart - BMP_I_LIMIT)
            s.index start UTRIE3_INDEX_2_BLOCK_LENGTH 1 with
        | some n => (BMP_I_LIMIT + offset + n, s)
        | none =>
          let n :=
            if s.newStart = BMP_I_LIMIT then 0
            else getOverlap (fun k => s.index (BMP_I_LIMIT + k)) (s.newStart - BMP_I_LIMIT)
              s.index start UTRIE3_INDEX_2_BLOCK_LENGTH 1
          let i2 := offset + (s.newStart - n)
          if n > 0 ∨ s.newStart ≠ start then
            (i2, { s with
              index := ci2Copy s.index s.newStart (start + n) (UTRIE3_INDEX_2_BLOCK_LENGTH - n)
              newStart := s.newStart + (UTRIE3_INDEX_2_BLOCK_LENGTH - n) })
          else
            (i2, { s with newStart := s.newStart + UTRIE3_INDEX_2_BLOCK_LENGTH })
    let i2 := r.1
    let s' := r.2
    let s'' :=
      if s.nullOffset < 0 ∧ dni ≥ 0 ∧
          allValuesSameAs s'.index (i2 - offset) dno UTRIE3_INDEX_2_BLOCK_LENGTH = true then
        { s' with nullOffset := (i2 : Int) }
      else s'
    { s'' with index1 := upd s''.index1 i1pos (i2 % 0x10000) }

/-- The `for (; start < iLimit; start += UTRIE3_INDEX_2_BLOCK_LENGTH)` loop:
`n` remaining blocks starting at `start`. -/
def ci2Go (dno : Nat) (dni : Int) (offset : Nat) : Nat → Nat → CI2State → CI2State
  | 0, _, s => s
  | n + 1, start, s =>
    ci2Go dno dni offset n (start + UTRIE3_INDEX_2_BLOCK_LENGTH) (ci2Step dno dni offset s start)

/-- The data-alignment padding loop (lines 1114-1118): `length` grows with
`newStart` while `length & ((UTRIE3_DATA_GRANULARITY-1)|1)` (i.e. `length % 2`)
is nonzero; `0xffff << UTRIE3_INDEX_SHIFT` is the padding value.  One write
makes `length` even, so the `while` runs at most once and is written as a
single conditional step. -/
def ci2Align (d : Nat → Nat) (newStart length : Nat) : (Nat → Nat) × Nat × Nat :=
  if length % 2 ≠ 0 then (upd d newStart (0xffff * 2), newStart + 1, length + 1)
  else (d, newStart, length)

/-- The whole supplementary index-2 compaction loop of `compactIndex2`
(lines 1056-1102): `highStart` is a multiple of `UTRIE3_CP_PER_INDEX_1_ENTRY`
at the call site, so the block-count division is exact. -/
def ci2Run (trie : UTrie3) (highStart : Nat) : CI2State :=
  let iLimit := highStart / UTRIE3_DATA_BLOCK_LENGTH
  -- (highStart - BMP_LIMIT) >> UTRIE3_SHIFT_1; since BMP_LIMIT is
  -- 8 * UTRIE3_CP_PER_INDEX_1_ENTRY, ⌊(x - 8k)/k⌋ = ⌊x/k⌋ - 8 for every x.
  let offset := highStart / UTRIE3_CP_PER_INDEX_1_ENTRY - UTRIE3_OMITTED_BMP_INDEX_1_LENGTH
  -- the block count (iLimit - BMP_I_LIMIT) / UTRIE3_INDEX_2_BLOCK_LENGTH,
  -- again with the subtraction taken after the division.
  ci2Go trie.dataNullOffset trie.newTrie.dataNullIndex offset
    (iLimit / UTRIE3_INDEX_2_BLOCK_LENGTH - UTRIE3_OMITTED_BMP_INDEX_1_LENGTH) BMP_I_LIMIT
    ⟨trie.newTrie.index, BMP_I_LIMIT, -1, fun _ => 0⟩

/-- `compactIndex2` (lines 1035-1127): returns the updated trie and the
filled `index1` array (uninitialized entries modelled as 0).
`trie->index2NullOffset` is a `uint16_t` field, hence `% 0x10000`. -/
def compactIndex2 (trie : UTrie3) (highStart : Nat) : UTrie3 × (Nat → Nat) :=
  if highStart ≤ BMP_LIMIT then
    ({ trie with indexLength := BMP_I_LIMIT }, fun _ => 0)
  else
    -- (highStart - BMP_LIMIT) >> UTRIE3_SHIFT_1, as in ci2Run
    let offset := highStart / UTRIE3_CP_PER_INDEX_1_ENTRY - UTRIE3_OMITTED_BMP_INDEX_1_LENGTH
    let s := ci2Run trie highStart
    let index2NullOffset :=
      if s.nullOffset ≥ 0 then s.nullOffset.toNat % 0x10000 else UTRIE3_NO_INDEX2_NULL_OFFSET
    let a := ci2Align s.index s.newStart (s.newStart + offset)
    ({ trie with
        index2NullOffset := index2NullOffset
        indexLength := a.2.2
        newTrie := { trie.newTrie with index := a.1 } },
      s.index1)

/-! ## `compactTrie` (lines 1129-1175) and `utrie3bld_freeze` (lines 1182-1332) -/

/-- `compactTrie` (lines 1129-1175): find and round up `highStart`, set the
high fields, pin the BMP range, then compact data and index.  The rounding
`do`-`while` (lines 1138-1144) fills whole slots and stops exactly at the
next multiple of `UTRIE3_CP_PER_INDEX_1_ENTRY` (its writes touch disjoint
slots, modelled pointwise); `U16_LEAD(highStart)` is
`(highStart >> 10) + 0xd7c0` cast to `uint16_t`; `highStart >> UTRIE3_SHIFT_1`
is division by `UTRIE3_CP_PER_INDEX_1_ENTRY`. -/
def compactTrie (trie : UTrie3) : UTrie3 × (Nat → Nat) :=
  let highValue := utrie3bld_get trie MAX_UNICODE
  let hs0 := findHighStart trie.newTrie trie.highStart highValue
  let needRound := hs0 % UTRIE3_CP_PER_INDEX_1_ENTRY ≠ 0
  let highStart :=
    if needRound then (hs0 / UTRIE3_CP_PER_INDEX_1_ENTRY + 1) * UTRIE3_CP_PER_INDEX_1_ENTRY
    else hs0
  let nt0 := trie.newTrie
  let nt1 :=
    if needRound then
      { nt0 with
        flags := fun i =>
          if hs0 / UTRIE3_DATA_BLOCK_LENGTH ≤ i ∧ i < highStart / UTRIE3_DATA_BLOCK_LENGTH
          then ALL_SAME else nt0.flags i
        index := fun i =>
          if hs0 / UTRIE3_DATA_BLOCK_LENGTH ≤ i ∧ i < highStart / UTRIE3_DATA_BLOCK_LENGTH
          then highValue else nt0.index i }
    else nt0
  let highValue2 := if highStart = UNICODE_LIMIT then trie.initialValue else highValue
  let pinned := highStart ≤ BMP_LIMIT
  let nt2 :=
    if pinned then
      { nt1 with
        flags := fun i =>
          if highStart / UTRIE3_DATA_BLOCK_LENGTH ≤ i ∧ i < BMP_I_LIMIT
          then ALL_SAME else nt1.flags i
        index := fun i =>
          if highStart / UTRIE3_DATA_BLOCK_LENGTH ≤ i ∧ i < BMP_I_LIMIT
          then highValue2 else nt1.index i }
    else nt1
  let suppHighStart := if pinned then BMP_LIMIT else highStart
  let t1 :=
    { trie with
      highValue := highValue2
      highStart := highStart
      highStartLead16 := (highStart / 1024 + 0xd7c0) % 0x10000
      shiftedHighStart := highStart / UTRIE3_CP_PER_INDEX_1_ENTRY
      newTrie := nt2 }
  let t2 := compactData t1 suppHighStart
  compactIndex2 t2 suppHighStart

/-- The serialized (frozen) trie: the header fields, the 16-bit index array
and the 16- or 32-bit data array produced by `utrie3bld_freeze`. -/
structure UTrie3Frozen where
  initialValue : Nat
  errorValue : Nat
  highValue : Nat
  highStart : Nat
  highStartLead16 : Nat
  shiftedHighStart : Nat
  index2NullOffset : Nat
  dataNullOffset : Nat
  indexLength : Nat
  dataLength : Nat
  options : Nat
  index : Nat → Nat
  data16 : Option (Nat → Nat)
  data32 : Option (Nat → Nat)

/-- The BMP index-limit check loop (lines 1233-1240): `true` iff
`dataMove + index[i] ≤ 0xffff` for the first `n` entries from `i`. -/
def bmpIndexesOk (index : Nat → Nat) (dataMove : Nat) : Nat → Nat → Bool
  | 0, _ => true
  | n + 1, i =>
    if dataMove + index i > 0xffff then false else bmpIndexesOk index dataMove n (i + 1)

/-- `utrie3bld_freeze` (lines 1182-1332) on a mutable (not yet frozen) trie.
Allocation never fails in the model, so the only error paths are the
argument check and the two index-limit checks; both checks precede any
serialized output, as in the C code.  The serialized index is: the 4096
unshifted BMP entries (plus `dataMove`, cast to `uint16_t`), then for
`highStart > BMP_LIMIT` the `index1` table and the shifted supplementary
entries.  `(uint16_t)` casts are `% 0x10000`;
`options = (options << 12) | valueBits` is `* 4096 + valueBits` since
`valueBits < 4096`. -/
def utrie3bld_freeze (trie : UTrie3) (valueBits : Nat) : Except UErrorCode UTrie3Frozen :=
  if valueBits > UTRIE3_32_VALUE_BITS then .error .U_ILLEGAL_ARGUMENT_ERROR
  else
    let tm := if valueBits ≠ UTRIE3_32_VALUE_BITS then maskValues trie 0xffff else trie
    let c := compactTrie tm
    let tc := c.1
    let index1 := c.2
    let highStart := tc.highStart
    let dataMove := if valueBits = UTRIE3_16_VALUE_BITS then tc.indexLength else 0
    if (dataMove + tc.dataLength) / 2 > 0xffff then .error .U_INDEX_OUTOFBOUNDS_ERROR
    else if bmpIndexesOk tc.newTrie.index dataMove UTRIE3_INDEX_2_BMP_LENGTH 0 = false then
      .error .U_INDEX_OUTOFBOUNDS_ERROR
    else
      let index1Length :=
        if highStart > BMP_LIMIT then
          -- (highStart - BMP_LIMIT) >> UTRIE3_SHIFT_1, subtraction after division
          highStart / UTRIE3_CP_PER_INDEX_1_ENTRY - UTRIE3_OMITTED_BMP_INDEX_1_LENGTH
        else 0
      let serIndex : Nat → Nat := fun q =>
        if q < UTRIE3_INDEX_2_BMP_LENGTH then (dataMove + tc.newTrie.index q) % 0x10000
        else if q < UTRIE3_INDEX_2_BMP_LENGTH + index1Length then
          index1 (q - UTRIE3_INDEX_2_BMP_LENGTH)
        else ((dataMove + tc.newTrie.index (q - index1Length)) / 2) % 0x10000
      let options0 := tc.dataNullOffset
      let options1 := if options0 ≠ UTRIE3_NO_DATA_NULL_OFFSET then options0 + dataMove else options0
      .ok
        { initialValue := tc.initialValue
          errorValue := tc.errorValue
          highValue := tc.highValue
          highStart := highStart
          highStartLead16 := tc.highStartLead16
          shiftedHighStart := tc.shiftedHighStart
          index2NullOffset := tc.index2NullOffset
          dataNullOffset := tc.dataNullOffset
          indexLength := tc.indexLength
          dataLength := tc.dataLength
          options := options1 * 4096 + valueBits
          index := serIndex
          data16 :=
            if valueBits = UTRIE3_16_VALUE_BITS then some (fun j => tc.newTrie.data j % 0x10000)
            else none
          data32 := if valueBits = UTRIE3_32_VALUE_BITS then some tc.newTrie.data else none }

theorem bmpIndexesOk_spec (index : Nat → Nat) (dm : Nat) :
    ∀ n i0, bmpIndexesOk index dm n i0 = true ↔
      ∀ k, k < n → dm + index (i0 + k) ≤ 0xffff := by
  intro n
  induction n with
  | zero =>
    intro i0
    simp [bmpIndexesOk]
  | succ n ih =>
    intro i0
    simp only [bmpIndexesOk]
    by_cases h : dm + index i0 > 0xffff
    · rw [if_pos h]
      constructor
      · intro hh
        exact absurd hh (by simp)
      · intro hall
        have h0 := hall 0 (by omega)
        have heq : i0 + 0 = i0 := rfl
        rw [heq] at h0
        omega
    · rw [if_neg h, ih (i0 + 1)]
      constructor
      · intro hall k hk
        cases k with
        | zero =>
          have heq : i0 + 0 = i0 := rfl
          rw [heq]
          omega
        | succ k =>
          have hh := hall k (by omega)
          have heq : i0 + 1 + k = i0 + (k + 1) := by omega
          rw [heq] at hh
          exact hh
      · intro hall k hk
        have hh := hall (k + 1) (by omega)
        have heq : i0 + (k + 1) = i0 + 1 + k := by omega
        rw [heq] at hh
        exact hh

/-- C6: `utrie3bld_freeze` fails with `U_INDEX_OUTOFBOUNDS_ERROR` — before
any serialized output is produced, since both checks precede the
serialization — if and only if, after compaction, either
`(dataMove + dataLength) >> UTRIE3_INDEX_SHIFT` exceeds `0xffff` or some BMP
index-2 entry `i < UTRIE3_INDEX_2_BMP_LENGTH` has
`dataMove + index[i] > 0xffff`, where `dataMove` is `indexLength` for 16-bit
values and 0 for 32-bit values. -/
theorem c6_freeze_index_outofbounds_iff (t : UTrie3) (valueBits : Nat)
    (tc : UTrie3) (dataMove : Nat)
    (hvb : valueBits ≤ UTRIE3_32_VALUE_BITS)
    (htc : tc = (compactTrie
      (if valueBits ≠ UTRIE3_32_VALUE_BITS then maskValues t 0xffff else t)).1)
    (hdm : dataMove = if valueBits = UTRIE3_16_VALUE_BITS then tc.indexLength else 0) :
    (utrie3bld_freeze t valueBits = .error .U_INDEX_OUTOFBOUNDS_ERROR) ↔
    ((dataMove + tc.dataLength) / 2 > 0xffff ∨
      ∃ i, i < UTRIE3_INDEX_2_BMP_LENGTH ∧ dataMove + tc.newTrie.index i > 0xffff) := by
  subst htc
  subst hdm
  simp only [utrie3bld_freeze]
  rw [if_neg (by omega : ¬ valueBits > UTRIE3_32_VALUE_BITS)]
  by_cases h1 : ((if valueBits = UTRIE3_16_VALUE_BITS then
      (compactTrie (if valueBits ≠ UTRIE3_32_VALUE_BITS then maskValues t 0xffff else t)).1.indexLength
      else 0) +
      (compactTrie (if valueBits ≠ UTRIE3_32_VALUE_BITS then maskValues t 0xffff else t)).1.dataLength) / 2
      > 0xffff
  · rw [if_pos h1]
    simp only [true_iff, iff_true]
    exact Or.inl h1
  · rw [if_neg h1]
    cases hb : bmpIndexesOk
        (compactTrie (if valueBits ≠ UTRIE3_32_VALUE_BITS then maskValues t 0xffff else t)).1.newTrie.index
        (if valueBits = UTRIE3_16_VALUE_BITS then
          (compactTrie (if valueBits ≠ UTRIE3_32_VALUE_BITS then maskValues t 0xffff else t)).1.indexLength
          else 0)
        UTRIE3_INDEX_2_BMP_LENGTH 0 with
    | false =>
      rw [if_pos rfl]
      simp only [true_iff, iff_true]
      refine Or.inr ?_
      by_contra hno
      push_neg at hno
      have hok : bmpIndexesOk
          (compactTrie (if valueBits ≠ UTRIE3_32_VALUE_BITS then maskValues t 0xffff else t)).1.newTrie.index
          (if valueBits = UTRIE3_16_VALUE_BITS then
            (compactTrie (if valueBits ≠ UTRIE3_32_VALUE_BITS then maskValues t 0xffff else t)).1.indexLength
            else 0)
          UTRIE3_INDEX_2_BMP_LENGTH 0 = true := by
        rw [bmpIndexesOk_spec]
        intro k hk
        have := hno k hk
        have heq : (0 : Nat) + k = k := by omega
        rw [heq]
        omega
      rw [hok] at hb
      exact absurd hb (by simp)
    | true =>
      rw [if_neg (by decide : ¬(true = false))]
      constructor
      · intro hh
        exact absurd hh (by simp)
      · intro hor
        cases hor with
        | inl h => exact absurd h h1
        | inr h =>
          obtain ⟨i, hi, hgt⟩ := h
          have := (bmpIndexesOk_spec _ _ UTRIE3_INDEX_2_BMP_LENGTH 0).mp hb i hi
          have heq : (0 : Nat) + i = i := by omega
          rw [heq] at this
          omega

theorem c6_witness :
    ((1 : Nat) ≤ UTRIE3_32_VALUE_BITS ∧
      (compactTrie (if (1 : Nat) ≠ UTRIE3_32_VALUE_BITS then maskValues (utrie3bld_open 0 0) 0xffff
        else utrie3bld_open 0 0)).1
      = (compactTrie (if (1 : Nat) ≠ UTRIE3_32_VALUE_BITS then maskValues (utrie3bld_open 0 0) 0xffff
        else utrie3bld_open 0 0)).1) ∧
    ((utrie3bld_freeze (utrie3bld_open 0 0) 1 = .error .U_INDEX_OUTOFBOUNDS_ERROR) ↔
      (((if (1 : Nat) = UTRIE3_16_VALUE_BITS then
          (compactTrie (if (1 : Nat) ≠ UTRIE3_32_VALUE_BITS then maskValues (utrie3bld_open 0 0) 0xffff
            else utrie3bld_open 0 0)).1.indexLength else 0) +
        (compactTrie (if (1 : Nat) ≠ UTRIE3_32_VALUE_BITS then maskValues (utrie3bld_open 0 0) 0xffff
          else utrie3bld_open 0 0)).1.dataLength) / 2 > 0xffff ∨
        ∃ i, i < UTRIE3_INDEX_2_BMP_LENGTH ∧
          (if (1 : Nat) = UTRIE3_16_VALUE_BITS then
            (compactTrie (if (1 : Nat) ≠ UTRIE3_32_VALUE_BITS then maskValues (utrie3bld_open 0 0) 0xffff
              else utrie3bld_open 0 0)).1.indexLength else 0) +
          (compactTrie (if (1 : Nat) ≠ UTRIE3_32_VALUE_BITS then maskValues (utrie3bld_open 0 0) 0xffff
            else utrie3bld_open 0 0)).1.newTrie.index i > 0xffff)) :=
  ⟨⟨by decide, rfl⟩,
    c6_freeze_index_outofbounds_iff (utrie3bld_open 0 0) 1 _ _ (by decide) rfl rfl⟩

theorem allValuesSameAs_spec (p : Nat → Nat) (value : Nat) :
    ∀ n ps, allValuesSameAs p ps value n = true ↔ ∀ k, k < n → p (ps + k) = value := by
  intro n
  induction n with
  | zero =>
    intro ps
    simp [allValuesSameAs]
  | succ n ih =>
    intro ps
    simp only [allValuesSameAs]
    by_cases h : p ps = value
    · rw [if_pos h, ih (ps + 1)]
      constructor
      · intro hall k hk
        cases k with
        | zero =>
          have heq : ps + 0 = ps := rfl
          rw [heq]
          exact h
        | succ k =>
          have hh := hall k (by omega)
          have heq : ps + 1 + k = ps + (k + 1) := by omega
          rw [heq] at hh
          exact hh
      · intro hall k hk
        have hh := hall (k + 1) (by omega)
        have heq : ps + (k + 1) = ps + 1 + k := by omega
        rw [heq] at hh
        exact hh
    · rw [if_neg h]
      constructor
      · intro hh
        exact absurd hh (by simp)
      · intro hall
        have h0 := hall 0 (by omega)
        have heq : ps + 0 = ps := rfl
        rw [heq] at h0
        exact absurd h0 h

theorem fhsGo_spec (nt : UNewTrie3) (hV : Nat) :
    ∀ i, fhsGo nt hV i ≤ UTRIE3_DATA_BLOCK_LENGTH * i ∧
      fhsGo nt hV i % UTRIE3_DATA_BLOCK_LENGTH = 0 ∧
      (∀ j, fhsGo nt hV i ≤ UTRIE3_DATA_BLOCK_LENGTH * j → j < i →
        fhsMatch nt hV j = true) := by
  intro i
  induction i with
  | zero =>
    refine ⟨by simp [fhsGo], by simp [fhsGo], fun j _ hj => absurd hj (by omega)⟩
  | succ i ih =>
    simp only [fhsGo]
    by_cases hm : fhsMatch nt hV i = true
    · rw [if_pos hm]
      obtain ⟨h1, h2, h3⟩ := ih
      refine ⟨by simp only [UTRIE3_DATA_BLOCK_LENGTH_eq] at h1 ⊢; omega, h2, ?_⟩
      intro j hj1 hj2
      by_cases hji : j = i
      · rw [hji]; exact hm
      · exact h3 j hj1 (by omega)
    · rw [if_neg hm]
      refine ⟨by simp only [UTRIE3_DATA_BLOCK_LENGTH_eq]; omega, by simp only [UTRIE3_DATA_BLOCK_LENGTH_eq]; omega, ?_⟩
      intro j hj1 hj2
      simp only [UTRIE3_DATA_BLOCK_LENGTH_eq] at hj1
      omega

/-- A slot that matches `fhsMatch` yields `highValue` for every code point
in it. -/
theorem fhsMatch_get (t : UTrie3) (hV c : Nat) (hc1 : c ≤ MAX_UNICODE)
    (hc2 : c < t.highStart)
    (hm : fhsMatch t.newTrie hV (c / UTRIE3_DATA_BLOCK_LENGTH) = true) :
    utrie3bld_get t c = hV := by
  unfold fhsMatch at hm
  by_cases hfl : t.newTrie.flags (c / UTRIE3_DATA_BLOCK_LENGTH) = ALL_SAME
  · rw [if_pos hfl] at hm
    have hg := get_of_allsame t c hc1 hc2 (by simpa using hfl)
    simp only [UTRIE3_DATA_BLOCK_LENGTH_eq] at hm ⊢
    rw [hg]
    exact of_decide_eq_true hm
  · rw [if_neg hfl] at hm
    have hg := get_of_mixed t c hc1 hc2 (by simpa using hfl)
    have hlt : c % 16 < UTRIE3_DATA_BLOCK_LENGTH := by
      simp only [UTRIE3_DATA_BLOCK_LENGTH_eq]
      omega
    have := (allValuesSameAs_spec _ _ _ _).mp hm (c % 16) hlt
    simp only [UTRIE3_DATA_BLOCK_LENGTH_eq] at this ⊢
    rw [hg]
    exact this

theorem compactData_highStart (t : UTrie3) (hs : Nat) :
    (compactData t hs).highStart = t.highStart := rfl

theorem compactData_highValue (t : UTrie3) (hs : Nat) :
    (compactData t hs).highValue = t.highValue := rfl

theorem compactData_errorValue (t : UTrie3) (hs : Nat) :
    (compactData t hs).errorValue = t.errorValue := rfl

theorem compactIndex2_highStart (t : UTrie3) (hs : Nat) :
    (compactIndex2 t hs).1.highStart = t.highStart := by
  unfold compactIndex2
  split <;> rfl

theorem compactIndex2_highValue (t : UTrie3) (hs : Nat) :
    (compactIndex2 t hs).1.highValue = t.highValue := by
  unfold compactIndex2
  split <;> rfl

theorem compactIndex2_errorValue (t : UTrie3) (hs : Nat) :
    (compactIndex2 t hs).1.errorValue = t.errorValue := by
  unfold compactIndex2
  split <;> rfl

theorem compactTrie_highStart (tm : UTrie3) :
    (compactTrie tm).1.highStart =
      (if findHighStart tm.newTrie tm.highStart (utrie3bld_get tm MAX_UNICODE) %
            UTRIE3_CP_PER_INDEX_1_ENTRY ≠ 0
       then (findHighStart tm.newTrie tm.highStart (utrie3bld_get tm MAX_UNICODE) /
            UTRIE3_CP_PER_INDEX_1_ENTRY + 1) * UTRIE3_CP_PER_INDEX_1_ENTRY
       else findHighStart tm.newTrie tm.highStart (utrie3bld_get tm MAX_UNICODE)) := by
  simp only [compactTrie]
  rw [compactIndex2_highStart, compactData_highStart]

theorem compactTrie_highValue (tm : UTrie3) :
    (compactTrie tm).1.highValue =
      (if (if findHighStart tm.newTrie tm.highStart (utrie3bld_get tm MAX_UNICODE) %
              UTRIE3_CP_PER_INDEX_1_ENTRY ≠ 0
            then (findHighStart tm.newTrie tm.highStart (utrie3bld_get tm MAX_UNICODE) /
              UTRIE3_CP_PER_INDEX_1_ENTRY + 1) * UTRIE3_CP_PER_INDEX_1_ENTRY
            else findHighStart tm.newTrie tm.highStart (utrie3bld_get tm MAX_UNICODE))
          = UNICODE_LIMIT
       then tm.initialValue
       else utrie3bld_get tm MAX_UNICODE) := by
  simp only [compactTrie]
  rw [compactIndex2_highValue, compactData_highValue]

/-- C5: after a successful `utrie3bld_freeze`, `highStart` is a multiple of
`UTRIE3_CP_PER_INDEX_1_ENTRY` (8192); every code point at or above the new
`highStart` carried the value `highValue = utrie3bld_get tm MAX_UNICODE` in
the pre-compaction trie `tm` (the mutable trie, masked first for a 16-bit
freeze), found by `findHighStart`'s downward scan and rounded up; and if the
new `highStart` equals `0x110000` then `highValue` is set to
`initialValue`. -/
theorem c5_freeze_highStart_rounded (t : UTrie3) (valueBits : Nat) (tm tc : UTrie3)
    (htm : tm = if valueBits ≠ UTRIE3_32_VALUE_BITS then maskValues t 0xffff else t)
    (htc : tc = (compactTrie tm).1)
    (hsMul : tm.highStart % UTRIE3_DATA_BLOCK_LENGTH = 0) :
    (∀ f, utrie3bld_freeze t valueBits = .ok f →
      f.highStart = tc.highStart ∧ f.highValue = tc.highValue) ∧
    tc.highStart % UTRIE3_CP_PER_INDEX_1_ENTRY = 0 ∧
    (∀ c, tc.highStart ≤ c → c ≤ MAX_UNICODE →
      utrie3bld_get tm c = utrie3bld_get tm MAX_UNICODE) ∧
    (tc.highStart ≠ UNICODE_LIMIT →
      tc.highValue = utrie3bld_get tm MAX_UNICODE) ∧
    (tc.highStart = UNICODE_LIMIT → tc.highValue = tm.initialValue) := by
  have hhs : tc.highStart =
      (if findHighStart tm.newTrie tm.highStart (utrie3bld_get tm MAX_UNICODE) %
            UTRIE3_CP_PER_INDEX_1_ENTRY ≠ 0
       then (findHighStart tm.newTrie tm.highStart (utrie3bld_get tm MAX_UNICODE) /
            UTRIE3_CP_PER_INDEX_1_ENTRY + 1) * UTRIE3_CP_PER_INDEX_1_ENTRY
       else findHighStart tm.newTrie tm.highStart (utrie3bld_get tm MAX_UNICODE)) := by
    rw [htc, compactTrie_highStart]
  have hhv : tc.highValue =
      (if (if findHighStart tm.newTrie tm.highStart (utrie3bld_get tm MAX_UNICODE) %
              UTRIE3_CP_PER_INDEX_1_ENTRY ≠ 0
            then (findHighStart tm.newTrie tm.highStart (utrie3bld_get tm MAX_UNICODE) /
              UTRIE3_CP_PER_INDEX_1_ENTRY + 1) * UTRIE3_CP_PER_INDEX_1_ENTRY
            else findHighStart tm.newTrie tm.highStart (utrie3bld_get tm MAX_UNICODE))
          = UNICODE_LIMIT
       then tm.initialValue
       else utrie3bld_get tm MAX_UNICODE) := by
    rw [htc, compactTrie_highValue]
  have hspec := fhsGo_spec tm.newTrie (utrie3bld_get tm MAX_UNICODE)
    (tm.highStart / UTRIE3_DATA_BLOCK_LENGTH)
  have hfhs : findHighStart tm.newTrie tm.highStart (utrie3bld_get tm MAX_UNICODE) =
      fhsGo tm.newTrie (utrie3bld_get tm MAX_UNICODE)
        (tm.highStart / UTRIE3_DATA_BLOCK_LENGTH) := rfl
  refine ⟨?_, ?_, ?_, ?_, ?_⟩
  · intro f hf
    simp only [utrie3bld_freeze] at hf
    by_cases hvb : valueBits > UTRIE3_32_VALUE_BITS
    · rw [if_pos hvb] at hf
      exact absurd hf (by simp)
    · rw [if_neg hvb] at hf
      rw [← htm] at hf
      by_cases h1 : ((if valueBits = UTRIE3_16_VALUE_BITS then (compactTrie tm).1.indexLength
          else 0) + (compactTrie tm).1.dataLength) / 2 > 0xffff
      · rw [if_pos h1] at hf
        exact absurd hf (by simp)
      · rw [if_neg h1] at hf
        by_cases h2 : bmpIndexesOk (compactTrie tm).1.newTrie.index
            (if valueBits = UTRIE3_16_VALUE_BITS then (compactTrie tm).1.indexLength else 0)
            UTRIE3_INDEX_2_BMP_LENGTH 0 = false
        · rw [if_pos h2] at hf
          exact absurd hf (by simp)
        · rw [if_neg h2] at hf
          simp only [Except.ok.injEq] at hf
          rw [← hf, htc]
          exact ⟨rfl, rfl⟩
  · rw [hhs]
    by_cases hr : findHighStart tm.newTrie tm.highStart (utrie3bld_get tm MAX_UNICODE) %
        UTRIE3_CP_PER_INDEX_1_ENTRY ≠ 0
    · rw [if_pos hr]
      simp only [UTRIE3_CP_PER_INDEX_1_ENTRY_eq]
      omega
    · rw [if_neg hr]
      omega
  · intro c hc1 hc2
    rw [hhs] at hc1
    have hfhs_le : findHighStart tm.newTrie tm.highStart (utrie3bld_get tm MAX_UNICODE) ≤ c := by
      by_cases hr : findHighStart tm.newTrie tm.highStart (utrie3bld_get tm MAX_UNICODE) %
          UTRIE3_CP_PER_INDEX_1_ENTRY ≠ 0
      · rw [if_pos hr] at hc1
        simp only [UTRIE3_CP_PER_INDEX_1_ENTRY_eq] at hc1 hr ⊢
        omega
      · rw [if_neg hr] at hc1
        exact hc1
    by_cases hcs : c < tm.highStart
    · have hmod : findHighStart tm.newTrie tm.highStart (utrie3bld_get tm MAX_UNICODE) %
          UTRIE3_DATA_BLOCK_LENGTH = 0 := by
        rw [hfhs]
        exact hspec.2.1
      have h16 : fhsGo tm.newTrie (utrie3bld_get tm MAX_UNICODE)
          (tm.highStart / UTRIE3_DATA_BLOCK_LENGTH) ≤
          UTRIE3_DATA_BLOCK_LENGTH * (c / UTRIE3_DATA_BLOCK_LENGTH) := by
        rw [← hfhs]
        simp only [UTRIE3_DATA_BLOCK_LENGTH_eq]
        simp only [UTRIE3_DATA_BLOCK_LENGTH_eq] at hmod
        omega
      have hjlt : c / UTRIE3_DATA_BLOCK_LENGTH < tm.highStart / UTRIE3_DATA_BLOCK_LENGTH := by
        simp only [UTRIE3_DATA_BLOCK_LENGTH_eq] at hsMul ⊢
        omega
      have hmatch := hspec.2.2 (c / UTRIE3_DATA_BLOCK_LENGTH) h16 hjlt
      rw [fhsMatch_get tm (utrie3bld_get tm MAX_UNICODE) c hc2 hcs hmatch]
    · rw [get_of_high tm c hc2 (by omega), get_of_high tm MAX_UNICODE (le_refl _) (by omega)]
  · intro hne
    rw [hhs] at hne
    rw [hhv, if_neg hne]
  · intro heq
    rw [hhs] at heq
    rw [hhv, if_pos heq]

theorem c5_witness :
    ((if (1 : Nat) ≠ UTRIE3_32_VALUE_BITS then maskValues (utrie3bld_open 5 9) 0xffff
        else utrie3bld_open 5 9).highStart % UTRIE3_DATA_BLOCK_LENGTH = 0) ∧
    ((∀ f, utrie3bld_freeze (utrie3bld_open 5 9) 1 = .ok f →
      f.highStart = (compactTrie (if (1 : Nat) ≠ UTRIE3_32_VALUE_BITS
        then maskValues (utrie3bld_open 5 9) 0xffff else utrie3bld_open 5 9)).1.highStart ∧
      f.highValue = (compactTrie (if (1 : Nat) ≠ UTRIE3_32_VALUE_BITS
        then maskValues (utrie3bld_open 5 9) 0xffff else utrie3bld_open 5 9)).1.highValue) ∧
    (compactTrie (if (1 : Nat) ≠ UTRIE3_32_VALUE_BITS
      then maskValues (utrie3bld_open 5 9) 0xffff else utrie3bld_open 5 9)).1.highStart %
      UTRIE3_CP_PER_INDEX_1_ENTRY = 0 ∧
    (∀ c, (compactTrie (if (1 : Nat) ≠ UTRIE3_32_VALUE_BITS
        then maskValues (utrie3bld_open 5 9) 0xffff else utrie3bld_open 5 9)).1.highStart ≤ c →
      c ≤ MAX_UNICODE →
      utrie3bld_get (if (1 : Nat) ≠ UTRIE3_32_VALUE_BITS
        then maskValues (utrie3bld_open 5 9) 0xffff else utrie3bld_open 5 9) c =
      utrie3bld_get (if (1 : Nat) ≠ UTRIE3_32_VALUE_BITS
        then maskValues (utrie3bld_open 5 9) 0xffff else utrie3bld_open 5 9) MAX_UNICODE) ∧
    ((compactTrie (if (1 : Nat) ≠ UTRIE3_32_VALUE_BITS
        then maskValues (utrie3bld_open 5 9) 0xffff else utrie3bld_open 5 9)).1.highStart ≠
      UNICODE_LIMIT →
      (compactTrie (if (1 : Nat) ≠ UTRIE3_32_VALUE_BITS
        then maskValues (utrie3bld_open 5 9) 0xffff else utrie3bld_open 5 9)).1.highValue =
      utrie3bld_get (if (1 : Nat) ≠ UTRIE3_32_VALUE_BITS
        then maskValues (utrie3bld_open 5 9) 0xffff else utrie3bld_open 5 9) MAX_UNICODE) ∧
    ((compactTrie (if (1 : Nat) ≠ UTRIE3_32_VALUE_BITS
        then maskValues (utrie3bld_open 5 9) 0xffff else utrie3bld_open 5 9)).1.highStart =
      UNICODE_LIMIT →
      (compactTrie (if (1 : Nat) ≠ UTRIE3_32_VALUE_BITS
        then maskValues (utrie3bld_open 5 9) 0xffff else utrie3bld_open 5 9)).1.highValue =
      (if (1 : Nat) ≠ UTRIE3_32_VALUE_BITS then maskValues (utrie3bld_open 5 9) 0xffff
        else utrie3bld_open 5 9).initialValue)) :=
  ⟨by decide,
    c5_freeze_highStart_rounded (utrie3bld_open 5 9) 1 _ _ rfl rfl (by decide)⟩

/-- Number of slots in `[lo, lo+n)` whose type bits (`flags & TYPE_MASK`)
are `ALL_SAME` or `MIXED`: the unique data blocks that compaction still has
to write (claim C10's "unique MIXED blocks plus unique ALL_SAME value
groups"). -/
def countTyped (f : Nat → Nat) : Nat → Nat → Nat
  | _, 0 => 0
  | lo, n + 1 =>
    (if f lo &&& TYPE_MASK ≤ 1 then 1 else 0) + countTyped f (lo + 1) n

theorem lor_supp_and_type (f : Nat) :
    (f ||| SUPP_DATA) &&& TYPE_MASK = f &&& TYPE_MASK := by
  apply Nat.eq_of_testBit_eq
  intro b
  simp only [Nat.testBit_land, Nat.testBit_lor, SUPP_DATA, TYPE_MASK]
  match b with
  | 0 =>
    have h16 : Nat.testBit 16 0 = false := by decide
    rw [h16, Bool.or_false]
  | 1 =>
    have h16 : Nat.testBit 16 1 = false := by decide
    rw [h16, Bool.or_false]
  | b + 2 =>
    have h3 : Nat.testBit 3 (b + 2) = false := by
      apply Nat.testBit_eq_false_of_lt
      calc (3 : Nat) < 2 ^ 2 := by omega
        _ ≤ 2 ^ (b + 2) := Nat.pow_le_pow_right (by omega) (by omega)
    rw [h3, Bool.and_false, Bool.and_false]

theorem countTyped_congr (f g : Nat → Nat) :
    ∀ n lo, (∀ k, k < n → f (lo + k) &&& TYPE_MASK = g (lo + k) &&& TYPE_MASK) →
    countTyped f lo n = countTyped g lo n := by
  intro n
  induction n with
  | zero =>
    intro lo _
    rfl
  | succ n ih =>
    intro lo h
    simp only [countTyped]
    have h0 := h 0 (by omega)
    have heq : lo + 0 = lo := rfl
    rw [heq] at h0
    rw [h0, ih (lo + 1) (fun k hk => by
      have := h (k + 1) (by omega)
      have heq2 : lo + (k + 1) = lo + 1 + k := by omega
      rw [heq2] at this
      exact this)]

theorem countTyped_split (f : Nat → Nat) :
    ∀ m n lo, countTyped f lo (m + n) = countTyped f lo m + countTyped f (lo + m) n := by
  intro m
  induction m with
  | zero =>
    intro n lo
    simp only [countTyped, Nat.zero_add, Nat.add_zero]
  | succ m ih =>
    intro n lo
    have h1 : m + 1 + n = (m + n) + 1 := by omega
    rw [h1]
    simp only [countTyped]
    rw [ih n (lo + 1)]
    have h2 : lo + 1 + m = lo + (m + 1) := by omega
    rw [h2]
    omega

theorem countTyped_upd (f : Nat → Nat) (v : Nat) :
    ∀ n lo i, lo ≤ i → i < lo + n →
    countTyped (upd f i v) lo n + (if f i &&& TYPE_MASK ≤ 1 then 1 else 0)
      = countTyped f lo n + (if v &&& TYPE_MASK ≤ 1 then 1 else 0) := by
  intro n
  induction n with
  | zero =>
    intro lo i h1 h2
    omega
  | succ n ih =>
    intro lo i h1 h2
    simp only [countTyped]
    by_cases hi : i = lo
    · subst hi
      have hv : upd f i v i = v := by simp [upd]
      rw [hv]
      have htail : countTyped (upd f i v) (i + 1) n = countTyped f (i + 1) n := by
        apply countTyped_congr
        intro k _
        have : upd f i v (i + 1 + k) = f (i + 1 + k) := by
          simp only [upd]
          rw [if_neg (by omega)]
        rw [this]
      rw [htail]
      omega
    · have hlo : upd f i v lo = f lo := by
        simp only [upd]
        rw [if_neg (by omega)]
      rw [hlo]
      have := ih (lo + 1) i (by omega) (by omega)
      omega

theorem cwdbAllSame_le (s : CWDBState) (i value : Nat) :
    ((cwdbAllSame s i value).newDataLength = s.newDataLength + UTRIE3_DATA_BLOCK_LENGTH ∧
      (cwdbAllSame s i value).nt.flags = s.nt.flags) ∨
    ((cwdbAllSame s i value).newDataLength = s.newDataLength ∧
      (cwdbAllSame s i value).nt.flags i = SAME_AS ∧
      (∀ j, j ≠ i → (cwdbAllSame s i value).nt.flags j &&& TYPE_MASK
        = s.nt.flags j &&& TYPE_MASK)) := by
  simp only [cwdbAllSame]
  by_cases hge : (if (asbFindOrAdd s.asb i value).1 = ASB_OVERFLOW then
      (match cwdbFindAllSame s.nt value i 0 with
       | none => (ASB_NEW_UNIQUE, asbAdd (asbFindOrAdd s.asb i value).2 i value)
       | some o => ((o : Int), asbAdd (asbFindOrAdd s.asb i value).2 o value))
    else asbFindOrAdd s.asb i value).1 ≥ 0
  · rw [if_pos hge]
    refine Or.inr ⟨rfl, by simp [upd], ?_⟩
    intro j hj
    show upd (if i ≥ BMP_I_LIMIT then _ else s.nt.flags) i SAME_AS j &&& TYPE_MASK = _
    rw [upd]
    rw [if_neg hj]
    by_cases hbmp : i ≥ BMP_I_LIMIT
    · rw [if_pos hbmp]
      rw [upd]
      by_cases hjo : j = (if (asbFindOrAdd s.asb i value).1 = ASB_OVERFLOW then
          (match cwdbFindAllSame s.nt value i 0 with
           | none => (ASB_NEW_UNIQUE, asbAdd (asbFindOrAdd s.asb i value).2 i value)
           | some o => ((o : Int), asbAdd (asbFindOrAdd s.asb i value).2 o value))
        else asbFindOrAdd s.asb i value).1.toNat
      · rw [if_pos hjo, hjo, lor_supp_and_type]
      · rw [if_neg hjo]
    · rw [if_neg hbmp]
  · rw [if_neg hge]
    exact Or.inl ⟨rfl, rfl⟩

theorem cwdbStep_le (s : CWDBState) (i : Nat) :
    s.newDataLength +
      (if (cwdbStep s i).nt.flags i &&& TYPE_MASK ≤ 1 then UTRIE3_DATA_BLOCK_LENGTH else 0)
      ≤ (cwdbStep s i).newDataLength ∧
    (∀ j, j ≠ i → (cwdbStep s i).nt.flags j &&& TYPE_MASK
      = s.nt.flags j &&& TYPE_MASK) := by
  simp only [cwdbStep]
  by_cases hfl : s.nt.flags i = MIXED
  · rw [if_pos hfl]
    by_cases hall : allValuesSameAs s.nt.data (s.nt.index i + 1) (s.nt.data (s.nt.index i))
        (UTRIE3_DATA_BLOCK_LENGTH - 1) = true
    · rw [if_pos hall]
      rcases cwdbAllSame_le { s with nt := { s.nt with flags := upd s.nt.flags i ALL_SAME, index := upd s.nt.index i (s.nt.data (s.nt.index i)) } } i (s.nt.data (s.nt.index i)) with ⟨h1, h2⟩ | ⟨h1, h2, h3⟩
      · rw [h1, h2]
        constructor
        · have hty : upd s.nt.flags i ALL_SAME i &&& TYPE_MASK ≤ 1 := by
            simp [upd]
          have hty2 : ({ s with nt := { s.nt with flags := upd s.nt.flags i ALL_SAME, index := upd s.nt.index i (s.nt.data (s.nt.index i)) } } : CWDBState).nt.flags i &&& TYPE_MASK ≤ 1 := hty
          rw [if_pos hty2]
        · intro j hj
          have : ({ s with nt := { s.nt with flags := upd s.nt.flags i ALL_SAME, index := upd s.nt.index i (s.nt.data (s.nt.index i)) } } : CWDBState).nt.flags j = upd s.nt.flags i ALL_SAME j := rfl
          rw [this, upd, if_neg hj]
      · rw [h1, h2]
        constructor
        · rw [if_neg (by decide : ¬ SAME_AS &&& TYPE_MASK ≤ 1)]
          have : ({ s with nt := { s.nt with flags := upd s.nt.flags i ALL_SAME, index := upd s.nt.index i (s.nt.data (s.nt.index i)) } } : CWDBState).newDataLength = s.newDataLength := rfl
          rw [this]
          omega
        · intro j hj
          rw [h3 j hj]
          have : ({ s with nt := { s.nt with flags := upd s.nt.flags i ALL_SAME, index := upd s.nt.index i (s.nt.data (s.nt.index i)) } } : CWDBState).nt.flags j = upd s.nt.flags i ALL_SAME j := rfl
          rw [this, upd, if_neg hj]
    · rw [if_neg hall]
      cases hfind : cwdbFindMixed s.nt (s.nt.index i) i 0 with
      | none =>
        simp only [hfind]
        constructor
        · rw [hfl]
          rw [if_pos (by decide : MIXED &&& TYPE_MASK ≤ 1)]
        · intro j hj
          exact trivial
      | some j' =>
        simp only [hfind]
        constructor
        · simp only [upd_self]
          rw [if_neg (by decide : ¬ SAME_AS &&& TYPE_MASK ≤ 1)]
          omega
        · intro j hj
          show upd (if i ≥ BMP_I_LIMIT then _ else s.nt.flags) i SAME_AS j &&& TYPE_MASK = _
          rw [upd, if_neg hj]
          by_cases hbmp : i ≥ BMP_I_LIMIT
          · rw [if_pos hbmp, upd]
            by_cases hjo : j = j'
            · rw [if_pos hjo, hjo, lor_supp_and_type]
            · rw [if_neg hjo]
          · rw [if_neg hbmp]
  · rw [if_neg hfl]
    rcases cwdbAllSame_le s i (s.nt.index i) with ⟨h1, h2⟩ | ⟨h1, h2, h3⟩
    · rw [h1, h2]
      constructor
      · split
        · omega
        · omega
      · intro j hj
        rfl
    · rw [h1, h2]
      constructor
      · rw [if_neg (by decide : ¬ SAME_AS &&& TYPE_MASK ≤ 1)]
        omega
      · exact h3

theorem cwdbGo_type_pres : ∀ n i (s : CWDBState) j, j < i →
    (cwdbGo n i s).nt.flags j &&& TYPE_MASK = s.nt.flags j &&& TYPE_MASK := by
  intro n
  induction n with
  | zero =>
    intro i s j _
    rfl
  | succ n ih =>
    intro i s j hj
    simp only [cwdbGo]
    rw [ih (i + 1) (cwdbStep s i) j (by omega)]
    exact (cwdbStep_le s i).2 j (by omega)

theorem cwdbGo_le : ∀ n i (s : CWDBState),
    s.newDataLength + UTRIE3_DATA_BLOCK_LENGTH * countTyped (cwdbGo n i s).nt.flags i n
      ≤ (cwdbGo n i s).newDataLength := by
  intro n
  induction n with
  | zero =>
    intro i s
    simp [cwdbGo, countTyped]
  | succ n ih =>
    intro i s
    simp only [cwdbGo, countTyped]
    have hstep := cwdbStep_le s i
    have hih := ih (i + 1) (cwdbStep s i)
    have hpres : (cwdbGo n (i + 1) (cwdbStep s i)).nt.flags i &&& TYPE_MASK
        = (cwdbStep s i).nt.flags i &&& TYPE_MASK :=
      cwdbGo_type_pres n (i + 1) (cwdbStep s i) i (by omega)
    by_cases hty : (cwdbGo n (i + 1) (cwdbStep s i)).nt.flags i &&& TYPE_MASK ≤ 1
    · rw [if_pos hty]
      rw [hpres] at hty
      rw [if_pos hty] at hstep
      simp only [UTRIE3_DATA_BLOCK_LENGTH_eq] at hstep hih ⊢
      omega
    · rw [if_neg hty]
      have h0 := hstep.1
      simp only [UTRIE3_DATA_BLOCK_LENGTH_eq] at h0 hih ⊢
      omega

theorem cdStep_bound (g : Nat) (s : CDState) (i lo m : Nat)
    (h1 : lo ≤ i) (h2 : i < lo + m) :
    (cdStep g s i).newStart + 16 * countTyped (cdStep g s i).nt.flags lo m
      + (cdStep g s i).newStart % 2
    ≤ s.newStart + 16 * countTyped s.nt.flags lo m + s.newStart % 2 := by
  simp only [cdStep]
  by_cases hAS : (if g ≠ 1 then s.nt.flags i &&& TYPE_MASK else s.nt.flags i) = ALL_SAME
  · rw [if_pos hAS]
    have htyp : s.nt.flags i &&& TYPE_MASK ≤ 1 := by
      by_cases hg : g ≠ 1
      · rw [if_pos hg] at hAS
        rw [hAS]
        decide
      · rw [if_neg hg] at hAS
        rw [hAS]
        decide
    have hcnt := countTyped_upd s.nt.flags MOVED m lo i h1 h2
    rw [if_pos htyp, if_neg (by decide : ¬ MOVED &&& TYPE_MASK ≤ 1)] at hcnt
    cases hfind : findAllSameBlock s.newData s.newStart (s.nt.index i)
        UTRIE3_DATA_BLOCK_LENGTH g with
    | some n' =>
      simp only [hfind]
      omega
    | none =>
      simp only [hfind, UTRIE3_DATA_BLOCK_LENGTH_eq]
      omega
  · rw [if_neg hAS]
    by_cases hMX : (if g ≠ 1 then s.nt.flags i &&& TYPE_MASK else s.nt.flags i) = MIXED
    · rw [if_pos hMX]
      have htyp : s.nt.flags i &&& TYPE_MASK ≤ 1 := by
        by_cases hg : g ≠ 1
        · rw [if_pos hg] at hMX
          rw [hMX]
          decide
        · rw [if_neg hg] at hMX
          rw [hMX]
          decide
      have hcnt := countTyped_upd s.nt.flags MOVED m lo i h1 h2
      rw [if_pos htyp, if_neg (by decide : ¬ MOVED &&& TYPE_MASK ≤ 1)] at hcnt
      cases hfind : findSameBlock s.newData s.newStart s.nt.data (s.nt.index i)
          UTRIE3_DATA_BLOCK_LENGTH g with
      | some n' =>
        simp only [hfind]
        omega
      | none =>
        simp only [hfind, UTRIE3_DATA_BLOCK_LENGTH_eq]
        omega
    · rw [if_neg hMX]

theorem cdGo_bound (g : Nat) : ∀ n i (s : CDState) lo m, lo ≤ i → i + n ≤ lo + m →
    (cdGo g n i s).newStart + 16 * countTyped (cdGo g n i s).nt.flags lo m
      + (cdGo g n i s).newStart % 2
    ≤ s.newStart + 16 * countTyped s.nt.flags lo m + s.newStart % 2 := by
  intro n
  induction n with
  | zero =>
    intro i s lo m _ _
    exact le_refl _
  | succ n ih =>
    intro i s lo m hlo hn
    simp only [cdGo]
    exact le_trans (ih (i + 1) (cdStep g s i) lo m (by omega) (by omega))
      (cdStep_bound g s i lo m hlo (by omega))

theorem cdPad_le (d : Nat → Nat) (ns : Nat) :
    (cdPad d ns).2 + (cdPad d ns).2 % 2 ≤ ns + ns % 2 ∧ ns ≤ (cdPad d ns).2 := by
  rw [cdPad]
  by_cases h : ns % UTRIE3_DATA_GRANULARITY ≠ 0
  · rw [if_pos h]
    rw [cdPad]
    rw [if_neg (by simp only [UTRIE3_DATA_GRANULARITY_eq] at h ⊢; omega)]
    simp only [UTRIE3_DATA_GRANULARITY_eq] at h
    constructor
    · omega
    · omega
  · rw [if_neg h]
    exact ⟨le_refl _, le_refl _⟩

theorem cdPipeline_bound (nt : UNewTrie3) (d0 : Nat → Nat) (iLimit : Nat)
    (s1 : CDState) (p : (Nat → Nat) × Nat) (s3 : CDState)
    (h4096 : BMP_I_LIMIT ≤ iLimit)
    (hs1 : s1 = cdGo 1 (BMP_I_LIMIT - ASCII_I_LIMIT) ASCII_I_LIMIT ⟨nt, d0, ASCII_LIMIT⟩)
    (hp : p = cdPad s1.newData s1.newStart)
    (hs3 : s3 = cdGo UTRIE3_DATA_GRANULARITY (iLimit - ASCII_I_LIMIT) ASCII_I_LIMIT
      ⟨s1.nt, p.1, p.2⟩) :
    s3.newStart ≤ ASCII_LIMIT + 16 * countTyped nt.flags ASCII_I_LIMIT (iLimit - ASCII_I_LIMIT) := by
  have hpass1 := cdGo_bound 1 (BMP_I_LIMIT - ASCII_I_LIMIT) ASCII_I_LIMIT
    ⟨nt, d0, ASCII_LIMIT⟩ ASCII_I_LIMIT (iLimit - ASCII_I_LIMIT) (le_refl _)
    (by simp only [BMP_I_LIMIT_eq, ASCII_I_LIMIT_eq] at h4096 ⊢; omega)
  rw [← hs1] at hpass1
  have e1 : (⟨nt, d0, ASCII_LIMIT⟩ : CDState).newStart = ASCII_LIMIT := rfl
  have e2 : (⟨nt, d0, ASCII_LIMIT⟩ : CDState).nt = nt := rfl
  rw [e1, e2] at hpass1
  have hpad := cdPad_le s1.newData s1.newStart
  rw [← hp] at hpad
  have hpass2 := cdGo_bound UTRIE3_DATA_GRANULARITY (iLimit - ASCII_I_LIMIT) ASCII_I_LIMIT
    ⟨s1.nt, p.1, p.2⟩ ASCII_I_LIMIT (iLimit - ASCII_I_LIMIT) (le_refl _) (le_refl _)
  rw [← hs3] at hpass2
  have e3 : (⟨s1.nt, p.1, p.2⟩ : CDState).newStart = p.2 := rfl
  have e4 : (⟨s1.nt, p.1, p.2⟩ : CDState).nt = s1.nt := rfl
  rw [e3, e4] at hpass2
  simp only [ASCII_LIMIT_eq] at hpass1 ⊢
  omega

/-- C10: during `compactData` the final write position `newStart` — which
becomes `dataLength` — never exceeds the allocated size of the destination
array, `newDataLength = compactWholeDataBlocks(...) + ASCII_LIMIT` entries
(recorded in `dataCapacity`), so the internal assertion
`newStart <= newDataLength` cannot fail; since `newStart` only grows and all
writes happen below the final `newStart`, every write stays within the
allocation. -/
theorem c10_compactData_within_bound (t : UTrie3) (hs : Nat)
    (hbmp : BMP_LIMIT ≤ hs) :
    (compactData t hs).newTrie.dataCapacity
      = (compactWholeDataBlocks t.newTrie hs).1 + ASCII_LIMIT ∧
    (compactData t hs).dataLength = (compactData t hs).newTrie.dataLength ∧
    (compactData t hs).newTrie.dataLength ≤ (compactData t hs).newTrie.dataCapacity := by
  have hIL : ASCII_I_LIMIT ≤ hs / UTRIE3_DATA_BLOCK_LENGTH ∧
      BMP_I_LIMIT ≤ hs / UTRIE3_DATA_BLOCK_LENGTH := by
    simp only [ASCII_I_LIMIT_eq, BMP_I_LIMIT_eq, UTRIE3_DATA_BLOCK_LENGTH_eq,
      BMP_LIMIT_eq] at hbmp ⊢
    omega
  refine ⟨rfl, rfl, ?_⟩
  have hdc : (compactData t hs).newTrie.dataCapacity
      = (compactWholeDataBlocks t.newTrie hs).1 + ASCII_LIMIT := rfl
  rw [hdc]
  have hpipe := cdPipeline_bound
    ({ (compactWholeDataBlocks t.newTrie hs).2 with
        flags := fun i => if i < ASCII_I_LIMIT then MOVED
          else (compactWholeDataBlocks t.newTrie hs).2.flags i,
        index := fun i => if i < ASCII_I_LIMIT then i * UTRIE3_DATA_BLOCK_LENGTH
          else (compactWholeDataBlocks t.newTrie hs).2.index i })
    (fun j => if j < ASCII_LIMIT then (fun i => utrie3bld_get t i) j else 0)
    (hs / UTRIE3_DATA_BLOCK_LENGTH) _ _ _ hIL.2 rfl rfl rfl
  refine le_trans hpipe ?_
  have hcongr : countTyped
      (fun i => if i < ASCII_I_LIMIT then MOVED
        else (compactWholeDataBlocks t.newTrie hs).2.flags i)
      ASCII_I_LIMIT (hs / UTRIE3_DATA_BLOCK_LENGTH - ASCII_I_LIMIT)
      = countTyped (compactWholeDataBlocks t.newTrie hs).2.flags
        ASCII_I_LIMIT (hs / UTRIE3_DATA_BLOCK_LENGTH - ASCII_I_LIMIT) := by
    apply countTyped_congr
    intro k _
    rw [if_neg (by simp only [ASCII_I_LIMIT_eq]; omega)]
  have hAty : countTyped
      ({ (compactWholeDataBlocks t.newTrie hs).2 with
          flags := fun i => if i < ASCII_I_LIMIT then MOVED
            else (compactWholeDataBlocks t.newTrie hs).2.flags i,
          index := fun i => if i < ASCII_I_LIMIT then i * UTRIE3_DATA_BLOCK_LENGTH
            else (compactWholeDataBlocks t.newTrie hs).2.index i } : UNewTrie3).flags
      ASCII_I_LIMIT (hs / UTRIE3_DATA_BLOCK_LENGTH - ASCII_I_LIMIT)
      = countTyped (compactWholeDataBlocks t.newTrie hs).2.flags
        ASCII_I_LIMIT (hs / UTRIE3_DATA_BLOCK_LENGTH - ASCII_I_LIMIT) := hcongr
  rw [hAty]
  have hsplit := countTyped_split (compactWholeDataBlocks t.newTrie hs).2.flags
    ASCII_I_LIMIT (hs / UTRIE3_DATA_BLOCK_LENGTH - ASCII_I_LIMIT) 0
  have hIL2 : ASCII_I_LIMIT + (hs / UTRIE3_DATA_BLOCK_LENGTH - ASCII_I_LIMIT)
      = hs / UTRIE3_DATA_BLOCK_LENGTH := by omega
  rw [hIL2] at hsplit
  have hflags_eq : (compactWholeDataBlocks t.newTrie hs).2.flags
      = (cwdbGo (hs / UTRIE3_DATA_BLOCK_LENGTH) 0 ⟨t.newTrie, asbInit, 0⟩).nt.flags := rfl
  have hlen_eq : (compactWholeDataBlocks t.newTrie hs).1
      = (cwdbGo (hs / UTRIE3_DATA_BLOCK_LENGTH) 0 ⟨t.newTrie, asbInit, 0⟩).newDataLength := rfl
  have hle := cwdbGo_le (hs / UTRIE3_DATA_BLOCK_LENGTH) 0 ⟨t.newTrie, asbInit, 0⟩
  have e0 : (⟨t.newTrie, asbInit, 0⟩ : CWDBState).newDataLength = 0 := rfl
  rw [e0] at hle
  rw [hflags_eq, hlen_eq]
  rw [hflags_eq] at hsplit
  simp only [UTRIE3_DATA_BLOCK_LENGTH_eq] at hle hsplit ⊢
  have h08 : (0 : Nat) + ASCII_I_LIMIT = ASCII_I_LIMIT := by omega
  rw [h08] at hsplit
  omega

theorem c10_witness :
    BMP_LIMIT ≤ 0x10000 ∧
    ((compactData (utrie3bld_open 0 0) 0x10000).newTrie.dataCapacity
      = (compactWholeDataBlocks (utrie3bld_open 0 0).newTrie 0x10000).1 + ASCII_LIMIT ∧
    (compactData (utrie3bld_open 0 0) 0x10000).dataLength
      = (compactData (utrie3bld_open 0 0) 0x10000).newTrie.dataLength ∧
    (compactData (utrie3bld_open 0 0) 0x10000).newTrie.dataLength
      ≤ (compactData (utrie3bld_open 0 0) 0x10000).newTrie.dataCapacity) :=
  ⟨by decide, c10_compactData_within_bound (utrie3bld_open 0 0) 0x10000 (by decide)⟩

/-! ## Masked-value propagation through compaction (for claim C4) -/

/-- All data-relevant values of the build arrays fit in 16 bits, and MIXED
blocks stay inside the data store: the state of a trie whose values were
masked with `0xffff`. -/
def Masked16 (nt : UNewTrie3) (iLimit : Nat) : Prop :=
  (∀ i, i < iLimit → nt.flags i &&& TYPE_MASK = ALL_SAME → nt.index i < 0x10000) ∧
  (∀ i, i < iLimit → nt.flags i &&& TYPE_MASK = MIXED →
    nt.index i + UTRIE3_DATA_BLOCK_LENGTH ≤ nt.dataLength) ∧
  (∀ j, j < nt.dataLength → nt.data j < 0x10000)

/-- Field-level effect of `cwdbAllSame`: data and dataLength are untouched,
the stepped slot either becomes `SAME_AS` (type 2) or keeps its flags/index,
and no other slot's index changes. -/
theorem cwdbAllSame_fields (s : CWDBState) (i value : Nat) :
    (cwdbAllSame s i value).nt.data = s.nt.data ∧
    (cwdbAllSame s i value).nt.dataLength = s.nt.dataLength ∧
    ((cwdbAllSame s i value).nt.flags i &&& TYPE_MASK = 2 ∨
      ((cwdbAllSame s i value).nt.flags = s.nt.flags ∧
        (cwdbAllSame s i value).nt.index = s.nt.index)) ∧
    (∀ j, j ≠ i → (cwdbAllSame s i value).nt.index j = s.nt.index j) := by
  simp only [cwdbAllSame]
  by_cases hge : (if (asbFindOrAdd s.asb i value).1 = ASB_OVERFLOW then
      (match cwdbFindAllSame s.nt value i 0 with
       | none => (ASB_NEW_UNIQUE, asbAdd (asbFindOrAdd s.asb i value).2 i value)
       | some o => ((o : Int), asbAdd (asbFindOrAdd s.asb i value).2 o value))
    else asbFindOrAdd s.asb i value).1 ≥ 0
  · rw [if_pos hge]
    refine ⟨rfl, rfl, Or.inl ?_, ?_⟩
    · show upd (if i ≥ BMP_I_LIMIT then _ else s.nt.flags) i SAME_AS i &&& TYPE_MASK = 2
      rw [upd_self]
      decide
    intro j hj
    exact upd_other _ _ _ _ hj
  · rw [if_neg hge]
    exact ⟨rfl, rfl, Or.inr ⟨rfl, rfl⟩, fun j _ => rfl⟩

/-- For any other slot, `cwdbAllSame` leaves the flags unchanged or ors in
`SUPP_DATA`. -/
theorem cwdbAllSame_flags_cases (s : CWDBState) (i value k : Nat) (hk : k ≠ i) :
    (cwdbAllSame s i value).nt.flags k = s.nt.flags k ∨
    (cwdbAllSame s i value).nt.flags k = s.nt.flags k ||| SUPP_DATA := by
  simp only [cwdbAllSame]
  by_cases hge : (if (asbFindOrAdd s.asb i value).1 = ASB_OVERFLOW then
      (match cwdbFindAllSame s.nt value i 0 with
       | none => (ASB_NEW_UNIQUE, asbAdd (asbFindOrAdd s.asb i value).2 i value)
       | some o => ((o : Int), asbAdd (asbFindOrAdd s.asb i value).2 o value))
    else asbFindOrAdd s.asb i value).1 ≥ 0
  · rw [if_pos hge]
    show upd (if i ≥ BMP_I_LIMIT then _ else s.nt.flags) i SAME_AS k = _ ∨
      upd (if i ≥ BMP_I_LIMIT then _ else s.nt.flags) i SAME_AS k = _
    rw [upd, if_neg hk]
    by_cases hbmp : i ≥ BMP_I_LIMIT
    · rw [if_pos hbmp, upd]
      by_cases hko : k = (if (asbFindOrAdd s.asb i value).1 = ASB_OVERFLOW then
          (match cwdbFindAllSame s.nt value i 0 with
           | none => (ASB_NEW_UNIQUE, asbAdd (asbFindOrAdd s.asb i value).2 i value)
           | some o => ((o : Int), asbAdd (asbFindOrAdd s.asb i value).2 o value))
        else asbFindOrAdd s.asb i value).1.toNat
      · rw [if_pos hko, hko]
        exact Or.inr rfl
      · rw [if_neg hko]
        exact Or.inl rfl
    · rw [if_neg hbmp]
      exact Or.inl rfl
  · rw [if_neg hge]
    exact Or.inl rfl

/-- Per-slot effect of one `compactWholeDataBlocks` iteration: a slot is
unchanged, gains only the `SUPP_DATA` bit, becomes `SAME_AS`, or (the
really-all-same MIXED conversion) becomes `ALL_SAME` holding a data value of
its old block. -/
theorem cwdbStep_slot (s : CWDBState) (i : Nat) :
    (cwdbStep s i).nt.data = s.nt.data ∧
    (cwdbStep s i).nt.dataLength = s.nt.dataLength ∧
    ∀ k,
      ((cwdbStep s i).nt.flags k = s.nt.flags k ∧
        (cwdbStep s i).nt.index k = s.nt.index k) ∨
      ((cwdbStep s i).nt.flags k = s.nt.flags k ||| SUPP_DATA ∧
        (cwdbStep s i).nt.index k = s.nt.index k) ∨
      ((cwdbStep s i).nt.flags k &&& TYPE_MASK = 2) ∨
      (k = i ∧ (cwdbStep s i).nt.flags k = ALL_SAME ∧ s.nt.flags i = MIXED ∧
        (cwdbStep s i).nt.index k = s.nt.data (s.nt.index i)) := by
  simp only [cwdbStep]
  by_cases hfl : s.nt.flags i = MIXED
  · rw [if_pos hfl]
    by_cases hall : allValuesSameAs s.nt.data (s.nt.index i + 1) (s.nt.data (s.nt.index i))
        (UTRIE3_DATA_BLOCK_LENGTH - 1) = true
    · rw [if_pos hall]
      obtain ⟨hd1, hdl1, hcase, hidx⟩ := cwdbAllSame_fields
        { s with nt := { s.nt with flags := upd s.nt.flags i ALL_SAME, index := upd s.nt.index i (s.nt.data (s.nt.index i)) } }
        i (s.nt.data (s.nt.index i))
      refine ⟨hd1, hdl1, ?_⟩
      intro k
      by_cases hki : k = i
      · subst hki
        rcases hcase with hsa | ⟨hfeq, hieq⟩
        · exact Or.inr (Or.inr (Or.inl hsa))
        · refine Or.inr (Or.inr (Or.inr ⟨rfl, ?_, hfl, ?_⟩))
          · rw [hfeq]
            exact upd_self _ _ _
          · rw [hieq]
            exact upd_self _ _ _
      · rcases cwdbAllSame_flags_cases
            { s with nt := { s.nt with flags := upd s.nt.flags i ALL_SAME, index := upd s.nt.index i (s.nt.data (s.nt.index i)) } }
            i (s.nt.data (s.nt.index i)) k hki with hceq | hcor
        · refine Or.inl ⟨?_, ?_⟩
          · rw [hceq]
            show upd s.nt.flags i ALL_SAME k = s.nt.flags k
            exact upd_other _ _ _ _ hki
          · rw [hidx k hki]
            exact upd_other _ _ _ _ hki
        · refine Or.inr (Or.inl ⟨?_, ?_⟩)
          · rw [hcor]
            show upd s.nt.flags i ALL_SAME k ||| SUPP_DATA = s.nt.flags k ||| SUPP_DATA
            rw [upd_other _ _ _ _ hki]
          · rw [hidx k hki]
            exact upd_other _ _ _ _ hki
    · rw [if_neg hall]
      cases hfind : cwdbFindMixed s.nt (s.nt.index i) i 0 with
      | none =>
        simp only [hfind]
        exact ⟨trivial, trivial, fun k => Or.inl ⟨trivial, trivial⟩⟩
      | some j' =>
        simp only [hfind]
        refine ⟨trivial, trivial, ?_⟩
        intro k
        by_cases hki : k = i
        · subst hki
          refine Or.inr (Or.inr (Or.inl ?_))
          rw [upd_self]
          decide
        · rw [upd_other _ _ _ _ hki]
          by_cases hbmp : i ≥ BMP_I_LIMIT
          · rw [if_pos hbmp]
            by_cases hkj : k = j'
            · subst hkj
              refine Or.inr (Or.inl ⟨?_, upd_other _ _ _ _ hki⟩)
              rw [upd_self]
            · refine Or.inl ⟨?_, upd_other _ _ _ _ hki⟩
              rw [upd_other _ _ _ _ hkj]
          · rw [if_neg hbmp]
            exact Or.inl ⟨rfl, upd_other _ _ _ _ hki⟩
  · rw [if_neg hfl]
    obtain ⟨hd1, hdl1, hcase, hidx⟩ := cwdbAllSame_fields s i (s.nt.index i)
    refine ⟨hd1, hdl1, ?_⟩
    intro k
    by_cases hki : k = i
    · subst hki
      rcases hcase with hsa | ⟨hfeq, hieq⟩
      · exact Or.inr (Or.inr (Or.inl hsa))
      · exact Or.inl ⟨by rw [hfeq], by rw [hieq]⟩
    · rcases cwdbAllSame_flags_cases s i (s.nt.index i) k hki with hceq | hcor
      · exact Or.inl ⟨hceq, hidx k hki⟩
      · exact Or.inr (Or.inl ⟨hcor, hidx k hki⟩)

theorem cwdbStep_masked (s : CWDBState) (i iL : Nat) (hi : i < iL)
    (hm : Masked16 s.nt iL) : Masked16 (cwdbStep s i).nt iL := by
  obtain ⟨hd, hdl, hslot⟩ := cwdbStep_slot s i
  obtain ⟨hAS, hMX, hD⟩ := hm
  refine ⟨?_, ?_, ?_⟩
  · intro k hk hty
    rcases hslot k with ⟨hf, hic⟩ | ⟨hf, hic⟩ | h2 | ⟨hki, hf, hmx, hic⟩
    · rw [hic]
      apply hAS k hk
      rw [hf] at hty
      exact hty
    · rw [hic]
      apply hAS k hk
      rw [hf, lor_supp_and_type] at hty
      exact hty
    · rw [h2] at hty
      exact absurd hty (by decide)
    · subst hki
      rw [hic]
      apply hD
      have hb := hMX k hk (by rw [hmx]; decide)
      simp only [UTRIE3_DATA_BLOCK_LENGTH_eq] at hb
      omega
  · intro k hk hty
    rw [hdl]
    rcases hslot k with ⟨hf, hic⟩ | ⟨hf, hic⟩ | h2 | ⟨hki, hf, hmx, hic⟩
    · rw [hic]
      apply hMX k hk
      rw [hf] at hty
      exact hty
    · rw [hic]
      apply hMX k hk
      rw [hf, lor_supp_and_type] at hty
      exact hty
    · rw [h2] at hty
      exact absurd hty (by decide)
    · rw [hf] at hty
      exact absurd hty (by decide)
  · intro j hj
    rw [hd]
    apply hD
    rw [hdl] at hj
    exact hj

theorem cwdbGo_masked : ∀ n i (s : CWDBState) iL, i + n ≤ iL →
    Masked16 s.nt iL → Masked16 (cwdbGo n i s).nt iL := by
  intro n
  induction n with
  | zero =>
    intro i s iL _ hm
    exact hm
  | succ n ih =>
    intro i s iL hn hm
    simp only [cwdbGo]
    exact ih (i + 1) (cwdbStep s i) iL (by omega)
      (cwdbStep_masked s i iL (by omega) hm)

theorem cdFillSame_lt (value : Nat) (hv : value < 0x10000) :
    ∀ k (d : Nat → Nat) pos, (∀ j, d j < 0x10000) →
    ∀ j, cdFillSame value d pos k j < 0x10000 := by
  intro k
  induction k with
  | zero =>
    intro d pos hd j
    exact hd j
  | succ k ih =>
    intro d pos hd j
    simp only [cdFillSame]
    apply ih
    intro j'
    by_cases hj : j' = pos
    · rw [hj, upd_self]
      exact hv
    · rw [upd_other _ _ _ _ hj]
      exact hd j'

theorem cdCopy_lt (src : Nat → Nat) :
    ∀ k (d : Nat → Nat) pos sp, (∀ j, d j < 0x10000) →
    (∀ l, l < k → src (sp + l) < 0x10000) →
    ∀ j, cdCopy src d pos sp k j < 0x10000 := by
  intro k
  induction k with
  | zero =>
    intro d pos sp hd _ j
    exact hd j
  | succ k ih =>
    intro d pos sp hd hsrc j
    simp only [cdCopy]
    apply ih
    · intro j'
      by_cases hj : j' = pos
      · rw [hj, upd_self]
        have := hsrc 0 (by omega)
        have heq : sp + 0 = sp := rfl
        rw [heq] at this
        exact this
      · rw [upd_other _ _ _ _ hj]
        exact hd j'
    · intro l hl
      have := hsrc (l + 1) (by omega)
      have heq : sp + (l + 1) = sp + 1 + l := by omega
      rw [heq] at this
      exact this

theorem cdStep_masked (g : Nat) (s : CDState) (i iL : Nat) (hi : i < iL)
    (hm : Masked16 s.nt iL) (hd : ∀ j, s.newData j < 0x10000) :
    Masked16 (cdStep g s i).nt iL ∧ (∀ j, (cdStep g s i).newData j < 0x10000) := by
  obtain ⟨hAS, hMX, hD⟩ := hm
  have hmoved : ∀ (v : Nat),
      Masked16 { s.nt with index := upd s.nt.index i v, flags := upd s.nt.flags i MOVED } iL := by
    intro v
    refine ⟨?_, ?_, fun j hj => hD j hj⟩
    · intro k hk hty
      have hty' : upd s.nt.flags i MOVED k &&& TYPE_MASK = ALL_SAME := hty
      show upd s.nt.index i v k < 0x10000
      by_cases hki : k = i
      · subst hki
        rw [upd_self] at hty'
        exact absurd hty' (by decide)
      · rw [upd_other _ _ _ _ hki] at hty' ⊢
        exact hAS k hk hty'
    · intro k hk hty
      have hty' : upd s.nt.flags i MOVED k &&& TYPE_MASK = MIXED := hty
      show upd s.nt.index i v k + UTRIE3_DATA_BLOCK_LENGTH ≤ s.nt.dataLength
      by_cases hki : k = i
      · subst hki
        rw [upd_self] at hty'
        exact absurd hty' (by decide)
      · rw [upd_other _ _ _ _ hki] at hty' ⊢
        exact hMX k hk hty'
  simp only [cdStep]
  by_cases hASc : (if g ≠ 1 then s.nt.flags i &&& TYPE_MASK else s.nt.flags i) = ALL_SAME
  · rw [if_pos hASc]
    have htyA : s.nt.flags i &&& TYPE_MASK = ALL_SAME := by
      by_cases hg : g ≠ 1
      · rw [if_pos hg] at hASc
        exact hASc
      · rw [if_neg hg] at hASc
        rw [hASc]
        decide
    have hvlt : s.nt.index i < 0x10000 := hAS i hi htyA
    cases hfind : findAllSameBlock s.newData s.newStart (s.nt.index i)
        UTRIE3_DATA_BLOCK_LENGTH g with
    | some n' =>
      simp only [hfind]
      exact ⟨hmoved n', hd⟩
    | none =>
      simp only [hfind]
      refine ⟨hmoved _, ?_⟩
      exact cdFillSame_lt (s.nt.index i) hvlt _ s.newData s.newStart hd
  · rw [if_neg hASc]
    by_cases hMXc : (if g ≠ 1 then s.nt.flags i &&& TYPE_MASK else s.nt.flags i) = MIXED
    · rw [if_pos hMXc]
      have htyM : s.nt.flags i &&& TYPE_MASK = MIXED := by
        by_cases hg : g ≠ 1
        · rw [if_pos hg] at hMXc
          exact hMXc
        · rw [if_neg hg] at hMXc
          rw [hMXc]
          decide
      have hblt := hMX i hi htyM
      cases hfind : findSameBlock s.newData s.newStart s.nt.data (s.nt.index i)
          UTRIE3_DATA_BLOCK_LENGTH g with
      | some n' =>
        simp only [hfind]
        exact ⟨hmoved n', hd⟩
      | none =>
        simp only [hfind]
        refine ⟨hmoved _, ?_⟩
        apply cdCopy_lt s.nt.data _ s.newData s.newStart _ hd
        intro l hl
        apply hD
        simp only [UTRIE3_DATA_BLOCK_LENGTH_eq] at hblt hl ⊢
        omega
    · rw [if_neg hMXc]
      exact ⟨⟨hAS, hMX, hD⟩, hd⟩

theorem cdGo_masked (g : Nat) : ∀ n i (s : CDState) iL, i + n ≤ iL →
    Masked16 s.nt iL → (∀ j, s.newData j < 0x10000) →
    Masked16 (cdGo g n i s).nt iL ∧ (∀ j, (cdGo g n i s).newData j < 0x10000) := by
  intro n
  induction n with
  | zero =>
    intro i s iL _ hm hd
    exact ⟨hm, hd⟩
  | succ n ih =>
    intro i s iL hn hm hd
    simp only [cdGo]
    obtain ⟨hm', hd'⟩ := cdStep_masked g s i iL (by omega) hm hd
    exact ih (i + 1) (cdStep g s i) iL (by omega) hm' hd'

theorem cdPad_lt (d : Nat → Nat) (ns : Nat) (hd : ∀ j, d j < 0x10000) :
    ∀ j, (cdPad d ns).1 j < 0x10000 := by
  rw [cdPad]
  by_cases h : ns % UTRIE3_DATA_GRANULARITY ≠ 0
  · rw [if_pos h]
    rw [cdPad]
    rw [if_neg (by simp only [UTRIE3_DATA_GRANULARITY_eq] at h ⊢; omega)]
    intro j
    by_cases hj : j = ns
    · show upd d ns (d (ns - 1)) j < 0x10000
      rw [hj, upd_self]
      exact hd (ns - 1)
    · show upd d ns (d (ns - 1)) j < 0x10000
      rw [upd_other _ _ _ _ hj]
      exact hd j
  · rw [if_neg h]
    exact hd

theorem get_lt_of_masked (t : UTrie3) (iL : Nat)
    (hle : t.highStart / UTRIE3_DATA_BLOCK_LENGTH ≤ iL)
    (hm : Masked16 t.newTrie iL)
    (hfo : ∀ i, i < t.highStart / UTRIE3_DATA_BLOCK_LENGTH →
      t.newTrie.flags i = ALL_SAME ∨ t.newTrie.flags i = MIXED)
    (hhv : t.highValue < 0x10000) (hsMul : t.highStart % UTRIE3_DATA_BLOCK_LENGTH = 0)
    (c : Nat) (hc : c ≤ MAX_UNICODE) :
    utrie3bld_get t c < 0x10000 := by
  obtain ⟨hmAS, hmMX, hmD⟩ := hm
  simp only [UTRIE3_DATA_BLOCK_LENGTH_eq] at hle hsMul hfo hmMX
  by_cases hcs : c < t.highStart
  · have hslot : c / 16 < t.highStart / 16 := by omega
    rcases hfo (c / 16) hslot with hA | hM
    · rw [get_of_allsame t c hc hcs hA]
      exact hmAS (c / 16) (by omega) (by rw [hA]; decide)
    · rw [get_of_mixed t c hc hcs (by rw [hM]; decide)]
      apply hmD
      have hb := hmMX (c / 16) (by omega) (by rw [hM]; decide)
      omega
  · rw [get_of_high t c hc (by omega)]
    exact hhv

theorem compactIndex2_data (t : UTrie3) (hs : Nat) :
    (compactIndex2 t hs).1.newTrie.data = t.newTrie.data := by
  unfold compactIndex2
  split <;> rfl

theorem cdPipeline_lt (nt : UNewTrie3) (d0 : Nat → Nat) (iLimit : Nat)
    (s1 : CDState) (p : (Nat → Nat) × Nat) (s3 : CDState)
    (hIL : BMP_I_LIMIT ≤ iLimit)
    (hs1 : s1 = cdGo 1 (BMP_I_LIMIT - ASCII_I_LIMIT) ASCII_I_LIMIT ⟨nt, d0, ASCII_LIMIT⟩)
    (hp : p = cdPad s1.newData s1.newStart)
    (hs3 : s3 = cdGo UTRIE3_DATA_GRANULARITY (iLimit - ASCII_I_LIMIT) ASCII_I_LIMIT
      ⟨s1.nt, p.1, p.2⟩)
    (hm : Masked16 nt iLimit) (hd0 : ∀ j, d0 j < 0x10000) :
    ∀ j, s3.newData j < 0x10000 := by
  have h1 := cdGo_masked 1 (BMP_I_LIMIT - ASCII_I_LIMIT) ASCII_I_LIMIT
    ⟨nt, d0, ASCII_LIMIT⟩ iLimit
    (by simp only [BMP_I_LIMIT_eq, ASCII_I_LIMIT_eq] at hIL ⊢; omega) hm hd0
  rw [← hs1] at h1
  have hpl := cdPad_lt s1.newData s1.newStart h1.2
  rw [← hp] at hpl
  have h2 := cdGo_masked UTRIE3_DATA_GRANULARITY (iLimit - ASCII_I_LIMIT) ASCII_I_LIMIT
    ⟨s1.nt, p.1, p.2⟩ iLimit
    (by simp only [BMP_I_LIMIT_eq, ASCII_I_LIMIT_eq] at hIL ⊢; omega) h1.1 hpl
  rw [← hs3] at h2
  exact h2.2

theorem compactData_data_lt (t : UTrie3) (hs : Nat)
    (hm : Masked16 t.newTrie (hs / UTRIE3_DATA_BLOCK_LENGTH))
    (hfo : ∀ i, i < t.highStart / UTRIE3_DATA_BLOCK_LENGTH →
      t.newTrie.flags i = ALL_SAME ∨ t.newTrie.flags i = MIXED)
    (hhsle : t.highStart / UTRIE3_DATA_BLOCK_LENGTH ≤ hs / UTRIE3_DATA_BLOCK_LENGTH)
    (hhv : t.highValue < 0x10000)
    (hsMul : t.highStart % UTRIE3_DATA_BLOCK_LENGTH = 0)
    (hbmp : BMP_LIMIT ≤ hs) :
    ∀ j, (compactData t hs).newTrie.data j < 0x10000 := by
  have hIL : BMP_I_LIMIT ≤ hs / UTRIE3_DATA_BLOCK_LENGTH := by
    simp only [BMP_I_LIMIT_eq, UTRIE3_DATA_BLOCK_LENGTH_eq, BMP_LIMIT_eq] at hbmp ⊢
    omega
  have hm1 : Masked16 (compactWholeDataBlocks t.newTrie hs).2 (hs / UTRIE3_DATA_BLOCK_LENGTH) := by
    have := cwdbGo_masked (hs / UTRIE3_DATA_BLOCK_LENGTH) 0 ⟨t.newTrie, asbInit, 0⟩
      (hs / UTRIE3_DATA_BLOCK_LENGTH) (by omega) hm
    exact this
  have hm2 : Masked16
      ({ (compactWholeDataBlocks t.newTrie hs).2 with
        flags := fun i => if i < ASCII_I_LIMIT then MOVED
          else (compactWholeDataBlocks t.newTrie hs).2.flags i,
        index := fun i => if i < ASCII_I_LIMIT then i * UTRIE3_DATA_BLOCK_LENGTH
          else (compactWholeDataBlocks t.newTrie hs).2.index i } : UNewTrie3)
      (hs / UTRIE3_DATA_BLOCK_LENGTH) := by
    refine ⟨?_, ?_, hm1.2.2⟩
    · intro k hk hty
      have hty' : (if k < ASCII_I_LIMIT then MOVED
          else (compactWholeDataBlocks t.newTrie hs).2.flags k) &&& TYPE_MASK = ALL_SAME := hty
      show (if k < ASCII_I_LIMIT then k * UTRIE3_DATA_BLOCK_LENGTH
        else (compactWholeDataBlocks t.newTrie hs).2.index k) < 0x10000
      by_cases hka : k < ASCII_I_LIMIT
      · rw [if_pos hka] at hty'
        exact absurd hty' (by decide)
      · rw [if_neg hka] at hty' ⊢
        exact hm1.1 k hk hty'
    · intro k hk hty
      have hty' : (if k < ASCII_I_LIMIT then MOVED
          else (compactWholeDataBlocks t.newTrie hs).2.flags k) &&& TYPE_MASK = MIXED := hty
      show (if k < ASCII_I_LIMIT then k * UTRIE3_DATA_BLOCK_LENGTH
        else (compactWholeDataBlocks t.newTrie hs).2.index k) + UTRIE3_DATA_BLOCK_LENGTH
        ≤ (compactWholeDataBlocks t.newTrie hs).2.dataLength
      by_cases hka : k < ASCII_I_LIMIT
      · rw [if_pos hka] at hty'
        exact absurd hty' (by decide)
      · rw [if_neg hka] at hty' ⊢
        exact hm1.2.1 k hk hty'
  have hd0 : ∀ j, (fun j => if j < ASCII_LIMIT then (fun i => utrie3bld_get t i) j else 0) j
      < 0x10000 := by
    intro j
    by_cases hja : j < ASCII_LIMIT
    · show (if j < ASCII_LIMIT then utrie3bld_get t j else 0) < 0x10000
      rw [if_pos hja]
      exact get_lt_of_masked t (hs / UTRIE3_DATA_BLOCK_LENGTH) hhsle hm hfo hhv hsMul j
        (by simp only [ASCII_LIMIT_eq] at hja; simp only [MAX_UNICODE_eq]; omega)
    · show (if j < ASCII_LIMIT then utrie3bld_get t j else 0) < 0x10000
      rw [if_neg hja]
      omega
  exact cdPipeline_lt
    ({ (compactWholeDataBlocks t.newTrie hs).2 with
        flags := fun i => if i < ASCII_I_LIMIT then MOVED
          else (compactWholeDataBlocks t.newTrie hs).2.flags i,
        index := fun i => if i < ASCII_I_LIMIT then i * UTRIE3_DATA_BLOCK_LENGTH
          else (compactWholeDataBlocks t.newTrie hs).2.index i })
    (fun j => if j < ASCII_LIMIT then (fun i => utrie3bld_get t i) j else 0)
    (hs / UTRIE3_DATA_BLOCK_LENGTH) _ _ _ hIL rfl rfl rfl hm2 hd0

theorem masked16_mono (nt : UNewTrie3) (iL iL' : Nat) (h : iL' ≤ iL)
    (hm : Masked16 nt iL) : Masked16 nt iL' :=
  ⟨fun i hi => hm.1 i (by omega), fun i hi => hm.2.1 i (by omega), hm.2.2⟩

theorem masked16_fill (nt : UNewTrie3) (iL iL' lo hi hv : Nat)
    (hm : Masked16 nt iL) (hhv : hv < 0x10000) (hlo : lo ≤ iL) (hhi : iL' ≤ hi) :
    Masked16 { nt with
      flags := fun i => if lo ≤ i ∧ i < hi then ALL_SAME else nt.flags i,
      index := fun i => if lo ≤ i ∧ i < hi then hv else nt.index i } iL' := by
  refine ⟨?_, ?_, hm.2.2⟩
  · intro k hk hty
    have hty' : (if lo ≤ k ∧ k < hi then ALL_SAME else nt.flags k) &&& TYPE_MASK
        = ALL_SAME := hty
    show (if lo ≤ k ∧ k < hi then hv else nt.index k) < 0x10000
    by_cases hin : lo ≤ k ∧ k < hi
    · rw [if_pos hin]
      exact hhv
    · rw [if_neg hin] at hty' ⊢
      exact hm.1 k (by omega) hty'
  · intro k hk hty
    have hty' : (if lo ≤ k ∧ k < hi then ALL_SAME else nt.flags k) &&& TYPE_MASK
        = MIXED := hty
    show (if lo ≤ k ∧ k < hi then hv else nt.index k) + UTRIE3_DATA_BLOCK_LENGTH
      ≤ nt.dataLength
    by_cases hin : lo ≤ k ∧ k < hi
    · rw [if_pos hin] at hty'
      exact absurd hty' (by decide)
    · rw [if_neg hin] at hty' ⊢
      exact hm.2.1 k (by omega) hty'

theorem flagsOk_fill (nt : UNewTrie3) (iL iL' lo hi : Nat)
    (hfo : ∀ i, i < iL → nt.flags i = ALL_SAME ∨ nt.flags i = MIXED)
    (hlo : lo ≤ iL) (hhi : iL' ≤ hi) :
    ∀ i, i < iL' →
      (if lo ≤ i ∧ i < hi then ALL_SAME else nt.flags i) = ALL_SAME ∨
      (if lo ≤ i ∧ i < hi then ALL_SAME else nt.flags i) = MIXED := by
  intro k hk
  by_cases hin : lo ≤ k ∧ k < hi
  · rw [if_pos hin]
    exact Or.inl rfl
  · rw [if_neg hin]
    exact hfo k (by omega)

/-! Named components of `compactTrie`, for stating its invariants without
repeating the large let-bound terms.  Each is definitionally the
corresponding local variable of `compactTrie` (checked by
`compactTrie_eq`). -/

def ctHighValue (tm : UTrie3) : Nat := utrie3bld_get tm MAX_UNICODE

def ctHs0 (tm : UTrie3) : Nat := findHighStart tm.newTrie tm.highStart (ctHighValue tm)

def ctHighStart (tm : UTrie3) : Nat :=
  if ctHs0 tm % UTRIE3_CP_PER_INDEX_1_ENTRY ≠ 0 then
    (ctHs0 tm / UTRIE3_CP_PER_INDEX_1_ENTRY + 1) * UTRIE3_CP_PER_INDEX_1_ENTRY
  else ctHs0 tm

def ctNt1 (tm : UTrie3) : UNewTrie3 :=
  if ctHs0 tm % UTRIE3_CP_PER_INDEX_1_ENTRY ≠ 0 then
    { tm.newTrie with
      flags := fun i =>
        if ctHs0 tm / UTRIE3_DATA_BLOCK_LENGTH ≤ i ∧
            i < ctHighStart tm / UTRIE3_DATA_BLOCK_LENGTH
        then ALL_SAME else tm.newTrie.flags i
      index := fun i =>
        if ctHs0 tm / UTRIE3_DATA_BLOCK_LENGTH ≤ i ∧
            i < ctHighStart tm / UTRIE3_DATA_BLOCK_LENGTH
        then ctHighValue tm else tm.newTrie.index i }
  else tm.newTrie

def ctHighValue2 (tm : UTrie3) : Nat :=
  if ctHighStart tm = UNICODE_LIMIT then tm.initialValue else ctHighValue tm

def ctNt2 (tm : UTrie3) : UNewTrie3 :=
  if ctHighStart tm ≤ BMP_LIMIT then
    { ctNt1 tm with
      flags := fun i =>
        if ctHighStart tm / UTRIE3_DATA_BLOCK_LENGTH ≤ i ∧ i < BMP_I_LIMIT
        then ALL_SAME else (ctNt1 tm).flags i
      index := fun i =>
        if ctHighStart tm / UTRIE3_DATA_BLOCK_LENGTH ≤ i ∧ i < BMP_I_LIMIT
        then ctHighValue2 tm else (ctNt1 tm).index i }
  else ctNt1 tm

def ctSuppHighStart (tm : UTrie3) : Nat :=
  if ctHighStart tm ≤ BMP_LIMIT then BMP_LIMIT else ctHighStart tm

def ctT1 (tm : UTrie3) : UTrie3 :=
  { tm with
    highValue := ctHighValue2 tm
    highStart := ctHighStart tm
    highStartLead16 := (ctHighStart tm / 1024 + 0xd7c0) % 0x10000
    shiftedHighStart := ctHighStart tm / UTRIE3_CP_PER_INDEX_1_ENTRY
    newTrie := ctNt2 tm }

theorem compactTrie_eq (tm : UTrie3) :
    compactTrie tm
      = compactIndex2 (compactData (ctT1 tm) (ctSuppHighStart tm)) (ctSuppHighStart tm) := rfl

theorem ctHighValue_lt (tm : UTrie3)
    (hsMul : tm.highStart % UTRIE3_DATA_BLOCK_LENGTH = 0)
    (hfo : ∀ i, i < tm.highStart / UTRIE3_DATA_BLOCK_LENGTH →
      tm.newTrie.flags i = ALL_SAME ∨ tm.newTrie.flags i = MIXED)
    (hm : Masked16 tm.newTrie (tm.highStart / UTRIE3_DATA_BLOCK_LENGTH))
    (hhv : tm.highValue < 0x10000) :
    ctHighValue tm < 0x10000 :=
  get_lt_of_masked tm _ (le_refl _) hm hfo hhv hsMul MAX_UNICODE (le_refl _)

theorem compactTrie_data_lt (tm : UTrie3)
    (hsMul : tm.highStart % UTRIE3_DATA_BLOCK_LENGTH = 0)
    (hfo : ∀ i, i < tm.highStart / UTRIE3_DATA_BLOCK_LENGTH →
      tm.newTrie.flags i = ALL_SAME ∨ tm.newTrie.flags i = MIXED)
    (hm : Masked16 tm.newTrie (tm.highStart / UTRIE3_DATA_BLOCK_LENGTH))
    (hhv : tm.highValue < 0x10000) (hinit : tm.initialValue < 0x10000) :
    ∀ j, (compactTrie tm).1.newTrie.data j < 0x10000 := by
  have hVlt : ctHighValue tm < 0x10000 := ctHighValue_lt tm hsMul hfo hm hhv
  have hspec := fhsGo_spec tm.newTrie (ctHighValue tm) (tm.highStart / UTRIE3_DATA_BLOCK_LENGTH)
  have hhs0le : ctHs0 tm ≤ tm.highStart := by
    have h1 : ctHs0 tm ≤ UTRIE3_DATA_BLOCK_LENGTH * (tm.highStart / UTRIE3_DATA_BLOCK_LENGTH) :=
      hspec.1
    simp only [UTRIE3_DATA_BLOCK_LENGTH_eq] at h1 hsMul
    omega
  have hmon : ctHs0 tm / UTRIE3_DATA_BLOCK_LENGTH ≤ tm.highStart / UTRIE3_DATA_BLOCK_LENGTH :=
    Nat.div_le_div_right hhs0le
  have hHSMul : ctHighStart tm % UTRIE3_DATA_BLOCK_LENGTH = 0 := by
    unfold ctHighStart
    by_cases hNR : ctHs0 tm % UTRIE3_CP_PER_INDEX_1_ENTRY ≠ 0
    · rw [if_pos hNR]
      simp only [UTRIE3_DATA_BLOCK_LENGTH_eq, UTRIE3_CP_PER_INDEX_1_ENTRY_eq]
      omega
    · rw [if_neg hNR]
      exact hspec.2.1
  have hm1 : Masked16 (ctNt1 tm) (ctHighStart tm / UTRIE3_DATA_BLOCK_LENGTH) := by
    unfold ctNt1
    by_cases hNR : ctHs0 tm % UTRIE3_CP_PER_INDEX_1_ENTRY ≠ 0
    · rw [if_pos hNR]
      exact masked16_fill tm.newTrie _ _ _ _ _ hm hVlt hmon (le_refl _)
    · rw [if_neg hNR]
      have hEq : ctHighStart tm = ctHs0 tm := by
        unfold ctHighStart
        rw [if_neg hNR]
      rw [hEq]
      exact masked16_mono tm.newTrie _ _ hmon hm
  have hfo1 : ∀ i, i < ctHighStart tm / UTRIE3_DATA_BLOCK_LENGTH →
      (ctNt1 tm).flags i = ALL_SAME ∨ (ctNt1 tm).flags i = MIXED := by
    unfold ctNt1
    by_cases hNR : ctHs0 tm % UTRIE3_CP_PER_INDEX_1_ENTRY ≠ 0
    · rw [if_pos hNR]
      exact flagsOk_fill tm.newTrie _ _ _ _ hfo hmon (le_refl _)
    · rw [if_neg hNR]
      have hEq : ctHighStart tm = ctHs0 tm := by
        unfold ctHighStart
        rw [if_neg hNR]
      rw [hEq]
      intro i hi
      exact hfo i (by omega)
  have hv2lt : ctHighValue2 tm < 0x10000 := by
    unfold ctHighValue2
    by_cases hU : ctHighStart tm = UNICODE_LIMIT
    · rw [if_pos hU]
      exact hinit
    · rw [if_neg hU]
      exact hVlt
  have hm2 : Masked16 (ctNt2 tm) (ctSuppHighStart tm / UTRIE3_DATA_BLOCK_LENGTH) := by
    unfold ctNt2 ctSuppHighStart
    by_cases hPIN : ctHighStart tm ≤ BMP_LIMIT
    · rw [if_pos hPIN, if_pos hPIN]
      exact masked16_fill (ctNt1 tm) _ _ _ _ _ hm1 hv2lt (le_refl _) (by decide)
    · rw [if_neg hPIN, if_neg hPIN]
      exact hm1
  have hfoT1 : ∀ i, i < ctHighStart tm / UTRIE3_DATA_BLOCK_LENGTH →
      (ctNt2 tm).flags i = ALL_SAME ∨ (ctNt2 tm).flags i = MIXED := by
    unfold ctNt2
    by_cases hPIN : ctHighStart tm ≤ BMP_LIMIT
    · rw [if_pos hPIN]
      intro i hi
      have hout : ¬ (ctHighStart tm / UTRIE3_DATA_BLOCK_LENGTH ≤ i ∧ i < BMP_I_LIMIT) := by
        omega
      show (if ctHighStart tm / UTRIE3_DATA_BLOCK_LENGTH ≤ i ∧ i < BMP_I_LIMIT
          then ALL_SAME else (ctNt1 tm).flags i) = ALL_SAME ∨
        (if ctHighStart tm / UTRIE3_DATA_BLOCK_LENGTH ≤ i ∧ i < BMP_I_LIMIT
          then ALL_SAME else (ctNt1 tm).flags i) = MIXED
      rw [if_neg hout]
      exact hfo1 i hi
    · rw [if_neg hPIN]
      exact hfo1
  have hHSleSupp : ctHighStart tm / UTRIE3_DATA_BLOCK_LENGTH
      ≤ ctSuppHighStart tm / UTRIE3_DATA_BLOCK_LENGTH := by
    unfold ctSuppHighStart
    by_cases hPIN : ctHighStart tm ≤ BMP_LIMIT
    · rw [if_pos hPIN]
      exact Nat.div_le_div_right hPIN
    · rw [if_neg hPIN]
  have hbmpSupp : BMP_LIMIT ≤ ctSuppHighStart tm := by
    unfold ctSuppHighStart
    by_cases hPIN : ctHighStart tm ≤ BMP_LIMIT
    · rw [if_pos hPIN]
    · rw [if_neg hPIN]
      omega
  intro j
  rw [compactTrie_eq tm, compactIndex2_data]
  exact compactData_data_lt (ctT1 tm) (ctSuppHighStart tm) hm2 hfoT1 hHSleSupp hv2lt hHSMul
    hbmpSupp j

theorem maskValues_masked16 (t : UTrie3)
    (hfo : ∀ i, i < t.highStart / UTRIE3_DATA_BLOCK_LENGTH →
      t.newTrie.flags i = ALL_SAME ∨ t.newTrie.flags i = MIXED)
    (hmx : ∀ i, i < t.highStart / UTRIE3_DATA_BLOCK_LENGTH → t.newTrie.flags i = MIXED →
      t.newTrie.index i + UTRIE3_DATA_BLOCK_LENGTH ≤ t.newTrie.dataLength) :
    Masked16 (maskValues t 0xffff).newTrie (t.highStart / UTRIE3_DATA_BLOCK_LENGTH) := by
  refine ⟨?_, ?_, ?_⟩
  · intro i hi hty
    have hty' : t.newTrie.flags i &&& TYPE_MASK = ALL_SAME := hty
    have hAS : t.newTrie.flags i = ALL_SAME := by
      rcases hfo i hi with h | h
      · exact h
      · rw [h] at hty'
        exact absurd hty' (by decide)
    show (if i < t.highStart / UTRIE3_DATA_BLOCK_LENGTH ∧ t.newTrie.flags i = ALL_SAME
        then t.newTrie.index i &&& 0xffff else t.newTrie.index i) < 0x10000
    rw [if_pos ⟨hi, hAS⟩]
    have hle : t.newTrie.index i &&& 0xffff ≤ 0xffff := Nat.and_le_right
    omega
  · intro i hi hty
    have hty' : t.newTrie.flags i &&& TYPE_MASK = MIXED := hty
    have hMX : t.newTrie.flags i = MIXED := by
      rcases hfo i hi with h | h
      · rw [h] at hty'
        exact absurd hty' (by decide)
      · exact h
    show (if i < t.highStart / UTRIE3_DATA_BLOCK_LENGTH ∧ t.newTrie.flags i = ALL_SAME
        then t.newTrie.index i &&& 0xffff else t.newTrie.index i) + UTRIE3_DATA_BLOCK_LENGTH
      ≤ t.newTrie.dataLength
    rw [if_neg (fun hc => by rw [hMX] at hc; exact absurd hc.2 (by decide))]
    exact hmx i hi hMX
  · intro j hj
    have hj' : j < t.newTrie.dataLength := hj
    show (if j < t.newTrie.dataLength then t.newTrie.data j &&& 0xffff
        else t.newTrie.data j) < 0x10000
    rw [if_pos hj']
    have hle : t.newTrie.data j &&& 0xffff ≤ 0xffff := Nat.and_le_right
    omega

/-- C4: with 16-bit `valueBits`, `utrie3bld_freeze` first applies
`maskValues(0xFFFF)`, which ANDs `initialValue`, `highValue`, every
ALL_SAME slot's value and every entry of the data block store with
`0xFFFF` while leaving `errorValue` unchanged; consequently the 16-bit
data array of the frozen trie stores the compacted values of the masked
trie exactly (every compacted value is below `0x10000`, so the final
16-bit store truncates nothing). -/
theorem c4_freeze16_masks_values (t : UTrie3)
    (hsMul : t.highStart % UTRIE3_DATA_BLOCK_LENGTH = 0)
    (hfo : ∀ i, i < t.highStart / UTRIE3_DATA_BLOCK_LENGTH →
      t.newTrie.flags i = ALL_SAME ∨ t.newTrie.flags i = MIXED)
    (hmx : ∀ i, i < t.highStart / UTRIE3_DATA_BLOCK_LENGTH → t.newTrie.flags i = MIXED →
      t.newTrie.index i + UTRIE3_DATA_BLOCK_LENGTH ≤ t.newTrie.dataLength) :
    (maskValues t 0xffff).initialValue = t.initialValue &&& 0xffff ∧
    (maskValues t 0xffff).highValue = t.highValue &&& 0xffff ∧
    (maskValues t 0xffff).errorValue = t.errorValue ∧
    (∀ i, i < t.highStart / UTRIE3_DATA_BLOCK_LENGTH → t.newTrie.flags i = ALL_SAME →
      (maskValues t 0xffff).newTrie.index i = t.newTrie.index i &&& 0xffff) ∧
    (∀ j, j < t.newTrie.dataLength →
      (maskValues t 0xffff).newTrie.data j = t.newTrie.data j &&& 0xffff) ∧
    (∀ f, utrie3bld_freeze t UTRIE3_16_VALUE_BITS = .ok f →
      f.data16 = some (compactTrie (maskValues t 0xffff)).1.newTrie.data ∧
      ∀ j, (compactTrie (maskValues t 0xffff)).1.newTrie.data j < 0x10000) := by
  have hlt : ∀ j, (compactTrie (maskValues t 0xffff)).1.newTrie.data j < 0x10000 := by
    apply compactTrie_data_lt (maskValues t 0xffff)
    · exact hsMul
    · exact hfo
    · exact maskValues_masked16 t hfo hmx
    · show t.highValue &&& 0xffff < 0x10000
      have hle : t.highValue &&& 0xffff ≤ 0xffff := Nat.and_le_right
      omega
    · show t.initialValue &&& 0xffff < 0x10000
      have hle : t.initialValue &&& 0xffff ≤ 0xffff := Nat.and_le_right
      omega
  refine ⟨rfl, rfl, rfl, ?_, ?_, ?_⟩
  · intro i hi hAS
    show (if i < t.highStart / UTRIE3_DATA_BLOCK_LENGTH ∧ t.newTrie.flags i = ALL_SAME
        then t.newTrie.index i &&& 0xffff else t.newTrie.index i)
      = t.newTrie.index i &&& 0xffff
    rw [if_pos ⟨hi, hAS⟩]
  · intro j hj
    show (if j < t.newTrie.dataLength then t.newTrie.data j &&& 0xffff else t.newTrie.data j)
      = t.newTrie.data j &&& 0xffff
    rw [if_pos hj]
  · intro f hf
    simp only [utrie3bld_freeze] at hf
    rw [if_neg (by decide : ¬ UTRIE3_16_VALUE_BITS > UTRIE3_32_VALUE_BITS)] at hf
    rw [if_pos (by decide : UTRIE3_16_VALUE_BITS ≠ UTRIE3_32_VALUE_BITS)] at hf
    simp only [if_true] at hf
    by_cases h1 : ((compactTrie (maskValues t 0xffff)).1.indexLength +
        (compactTrie (maskValues t 0xffff)).1.dataLength) / 2 > 0xffff
    · rw [if_pos h1] at hf
      exact absurd hf (by simp)
    · rw [if_neg h1] at hf
      by_cases h2 : bmpIndexesOk (compactTrie (maskValues t 0xffff)).1.newTrie.index
          (compactTrie (maskValues t 0xffff)).1.indexLength UTRIE3_INDEX_2_BMP_LENGTH 0 = false
      · rw [if_pos h2] at hf
        exact absurd hf (by simp)
      · rw [if_neg h2] at hf
        injection hf with hfr
        subst hfr
        refine ⟨?_, hlt⟩
        exact congrArg some (funext fun j => Nat.mod_eq_of_lt (hlt j))

theorem c4_witness :
    (maskValues (utrie3bld_open 0 0) 0xffff).errorValue = (utrie3bld_open 0 0).errorValue :=
  (c4_freeze16_masks_values (utrie3bld_open 0 0) (by decide)
    (fun i hi => absurd hi (Nat.not_lt_zero i))
    (fun i hi => absurd hi (Nat.not_lt_zero i))).2.2.1

/-! ## The concrete build path of the spec's example:
`open(0, 0); setRange(0, 0x10FFFF, 5, true); freeze(16)` -/

theorem UNewTrie3_ext (a b : UNewTrie3)
    (h1 : ∀ j, a.flags j = b.flags j) (h2 : ∀ j, a.index j = b.index j)
    (h3 : ∀ j, a.data j = b.data j) (h4 : a.dataCapacity = b.dataCapacity)
    (h5 : a.dataLength = b.dataLength) (h6 : a.dataNullIndex = b.dataNullIndex) :
    a = b := by
  cases a
  cases b
  simp only [UNewTrie3.mk.injEq]
  exact ⟨funext h1, funext h2, funext h3, h4, h5, h6⟩

theorem UTrie3_ext (a b : UTrie3)
    (h1 : a.initialValue = b.initialValue) (h2 : a.errorValue = b.errorValue)
    (h3 : a.highValue = b.highValue) (h4 : a.highStart = b.highStart)
    (h5 : a.highStartLead16 = b.highStartLead16)
    (h6 : a.shiftedHighStart = b.shiftedHighStart)
    (h7 : a.index2NullOffset = b.index2NullOffset)
    (h8 : a.dataNullOffset = b.dataNullOffset)
    (h9 : a.indexLength = b.indexLength) (h10 : a.dataLength = b.dataLength)
    (h11 : a.newTrie = b.newTrie) : a = b := by
  cases a
  cases b
  simp only [UTrie3.mk.injEq]
  exact ⟨h1, h2, h3, h4, h5, h6, h7, h8, h9, h10, h11⟩

theorem AllSameBlocks_ext (a b : AllSameBlocks)
    (h1 : a.length = b.length) (h2 : a.mostRecent = b.mostRecent)
    (h3 : ∀ j, a.indexes j = b.indexes j) (h4 : ∀ j, a.values j = b.values j)
    (h5 : ∀ j, a.refCounts j = b.refCounts j) : a = b := by
  cases a
  cases b
  simp only [AllSameBlocks.mk.injEq]
  exact ⟨h1, h2, funext h3, funext h4, funext h5⟩

theorem CWDBState_ext (a b : CWDBState)
    (h1 : a.nt = b.nt) (h2 : a.asb = b.asb) (h3 : a.newDataLength = b.newDataLength) :
    a = b := by
  cases a
  cases b
  simp only [CWDBState.mk.injEq]
  exact ⟨h1, h2, h3⟩

/-- A record-update helper: two tries that differ only in `index` are equal
when the index functions agree pointwise. -/
theorem UNewTrie3_index_congr (nt : UNewTrie3) (f g : Nat → Nat) (h : ∀ j, f j = g j) :
    ({ nt with index := f } : UNewTrie3) = { nt with index := g } := by
  rw [funext h]

/-- `setRangeBlocks` on an overwrite run over ALL_SAME slots: every touched
slot's value becomes `v`; flags, data and the lengths are untouched. -/
theorem setRangeBlocks_allsame (iv v : Nat) :
    ∀ n start nt, (∀ j, nt.flags j = ALL_SAME) →
      start % UTRIE3_DATA_BLOCK_LENGTH = 0 →
      setRangeBlocks nt iv v true start n =
        { nt with index := fun j =>
            if start / UTRIE3_DATA_BLOCK_LENGTH ≤ j ∧
                j < start / UTRIE3_DATA_BLOCK_LENGTH + n then v
            else nt.index j } := by
  intro n
  induction n with
  | zero =>
    intro start nt hAS hmul
    show nt = _
    have hfun : (fun j =>
        if start / UTRIE3_DATA_BLOCK_LENGTH ≤ j ∧
            j < start / UTRIE3_DATA_BLOCK_LENGTH + 0 then v
        else nt.index j) = nt.index := funext fun j => if_neg (by omega)
    rw [hfun]
  | succ n ih =>
    intro start nt hAS hmul
    show setRangeBlocks nt iv v true start (n + 1) = _
    rw [setRangeBlocks]
    rw [if_pos (hAS (start / UTRIE3_DATA_BLOCK_LENGTH))]
    rw [if_pos (Or.inl rfl)]
    rw [ih (start + UTRIE3_DATA_BLOCK_LENGTH)
      { nt with index := upd nt.index (start / UTRIE3_DATA_BLOCK_LENGTH) v }
      hAS (by simp only [UTRIE3_DATA_BLOCK_LENGTH_eq] at hmul ⊢; omega)]
    refine UNewTrie3_index_congr nt _ _ ?_
    intro j
    simp only [upd, UTRIE3_DATA_BLOCK_LENGTH_eq] at *
    have h16 : (start + 16) / 16 = start / 16 + 1 := by omega
    rw [h16]
    by_cases hj : j = start / 16
    · subst hj
      rw [if_neg (by omega), if_pos rfl, if_pos (by omega)]
    · rw [if_neg hj]
      by_cases hin : start / 16 + 1 ≤ j ∧ j < start / 16 + 1 + n
      · rw [if_pos hin, if_pos (by omega)]
      · rw [if_neg hin, if_neg (by omega)]

/-- The builder's `newTrie` after `open(0, 0); setRange(0, 0x10FFFF, 5, true)`:
every slot below `I_LIMIT` is ALL_SAME with value 5. -/
def c2nt : UNewTrie3 :=
  { flags := fun _ => ALL_SAME
    index := fun j => if j < 69632 then 5 else 0
    data := fun _ => 0
    dataCapacity := UNEWTRIE3_INITIAL_DATA_LENGTH
    dataLength := 0
    dataNullIndex := -1 }

/-- The intermediate state after `ensureHighStart` has grown the trie to
`UNICODE_LIMIT` (all slots ALL_SAME with the initial value 0). -/
def c2nt0 : UNewTrie3 :=
  { flags := fun _ => ALL_SAME
    index := fun _ => 0
    data := fun _ => 0
    dataCapacity := UNEWTRIE3_INITIAL_DATA_LENGTH
    dataLength := 0
    dataNullIndex := -1 }

def c2pre : UTrie3 := { utrie3bld_open 0 0 with highStart := 0x110000, newTrie := c2nt0 }

/-- The mutable trie after `open(0, 0); setRange(0, 0x10FFFF, 5, true)`. -/
def c2t1 : UTrie3 := { utrie3bld_open 0 0 with highStart := 0x110000, newTrie := c2nt }

theorem c2_ensure : ensureHighStart (utrie3bld_open 0 0) 0x10ffff = c2pre := by
  simp only [ensureHighStart]
  rw [if_pos (by decide : (0x10ffff : Nat) ≥ (utrie3bld_open 0 0).highStart)]
  refine UTrie3_ext _ _ rfl rfl rfl (by decide) rfl rfl rfl rfl rfl rfl ?_
  refine UNewTrie3_ext _ _ ?_ ?_ (fun j => rfl) rfl rfl rfl
  · intro j
    show (if _ ∧ _ then ALL_SAME else (utrie3bld_open 0 0).newTrie.flags j) = ALL_SAME
    split
    · rfl
    · rfl
  · intro j
    show (if _ ∧ _ then (utrie3bld_open 0 0).initialValue
        else (utrie3bld_open 0 0).newTrie.index j) = 0
    split
    · rfl
    · rfl

theorem c2_setRange_eq :
    utrie3bld_setRange (utrie3bld_open 0 0) 0 0x10ffff 5 true = .ok c2t1 := by
  simp only [utrie3bld_setRange]
  rw [if_neg (by decide :
    ¬ ((0 : Nat) > MAX_UNICODE ∨ (0x10ffff : Nat) > MAX_UNICODE ∨ (0 : Nat) > 0x10ffff))]
  rw [if_neg (by decide :
    ¬ (true = false ∧ (5 : Nat) = (utrie3bld_open 0 0).initialValue))]
  rw [c2_ensure]
  rw [if_neg (by decide : ¬ (0 : Nat) % UTRIE3_DATA_BLOCK_LENGTH ≠ 0)]
  unfold setRangeRest
  rw [if_neg (by decide : ¬ (0x10ffff + 1 : Nat) % UTRIE3_DATA_BLOCK_LENGTH > 0)]
  refine congrArg Except.ok ?_
  rw [setRangeBlocks_allsame c2pre.initialValue 5
    ((0x10ffff + 1 - (0x10ffff + 1) % UTRIE3_DATA_BLOCK_LENGTH - 0) / UTRIE3_DATA_BLOCK_LENGTH)
    0 c2pre.newTrie (fun j => rfl) (by decide)]
  refine UTrie3_ext _ _ rfl rfl rfl rfl rfl rfl rfl rfl rfl rfl ?_
  refine UNewTrie3_ext _ _ (fun j => rfl) ?_ (fun j => rfl) rfl rfl rfl
  intro j
  show (if 0 / UTRIE3_DATA_BLOCK_LENGTH ≤ j ∧
      j < 0 / UTRIE3_DATA_BLOCK_LENGTH +
        (0x10ffff + 1 - (0x10ffff + 1) % UTRIE3_DATA_BLOCK_LENGTH - 0) /
          UTRIE3_DATA_BLOCK_LENGTH then 5
    else c2pre.newTrie.index j) = c2nt.index j
  show (if 0 / UTRIE3_DATA_BLOCK_LENGTH ≤ j ∧
      j < 0 / UTRIE3_DATA_BLOCK_LENGTH +
        (0x10ffff + 1 - (0x10ffff + 1) % UTRIE3_DATA_BLOCK_LENGTH - 0) /
          UTRIE3_DATA_BLOCK_LENGTH then 5
    else c2pre.newTrie.index j) = (if j < 69632 then 5 else 0)
  simp only [UTRIE3_DATA_BLOCK_LENGTH_eq]
  by_cases hj : j < 69632
  · rw [if_pos (by omega), if_pos hj]
  · rw [if_neg (by omega), if_neg hj]
    rfl

theorem c2_mask : maskValues c2t1 0xffff = c2t1 := by
  simp only [maskValues]
  refine UTrie3_ext _ _ (by decide) rfl (by decide) rfl rfl rfl rfl rfl rfl rfl ?_
  refine UNewTrie3_ext _ _ (fun j => rfl) ?_ ?_ rfl rfl rfl
  · intro i
    show (if i < c2t1.highStart / UTRIE3_DATA_BLOCK_LENGTH ∧ c2nt.flags i = ALL_SAME
        then c2nt.index i &&& 0xffff else c2nt.index i) = c2nt.index i
    by_cases hc : i < c2t1.highStart / UTRIE3_DATA_BLOCK_LENGTH ∧ c2nt.flags i = ALL_SAME
    · rw [if_pos hc]
      show (if i < 69632 then 5 else 0) &&& 0xffff = (if i < 69632 then 5 else 0)
      by_cases hi : i < 69632
      · rw [if_pos hi]
        decide
      · rw [if_neg hi]
        decide
    · rw [if_neg hc]
  · intro j
    show (if j < c2nt.dataLength then c2nt.data j &&& 0xffff else c2nt.data j) = c2nt.data j
    exact if_neg (Nat.not_lt_zero j)

theorem c2_fhsMatch : ∀ j, j < 69632 → fhsMatch c2nt 5 j = true := by
  intro j hj
  show (if c2nt.flags j = ALL_SAME then decide (c2nt.index j = 5)
      else allValuesSameAs c2nt.data (c2nt.index j) 5 UTRIE3_DATA_BLOCK_LENGTH) = true
  rw [if_pos (show c2nt.flags j = ALL_SAME from rfl)]
  show decide ((if j < 69632 then 5 else 0) = 5) = true
  simp only [if_pos hj]
  rfl

theorem fhsGo_zero (nt : UNewTrie3) (hV : Nat) :
    ∀ i, (∀ j, j < i → fhsMatch nt hV j = true) → fhsGo nt hV i = 0 := by
  intro i
  induction i with
  | zero => intro _; rfl
  | succ i ih =>
    intro h
    show fhsGo nt hV (i + 1) = 0
    simp only [fhsGo]
    rw [if_pos (h i (by omega))]
    exact ih (fun j hj => h j (by omega))

theorem c2_hV : ctHighValue c2t1 = 5 := by decide

theorem c2_hs0 : ctHs0 c2t1 = 0 := by
  unfold ctHs0
  rw [c2_hV]
  show fhsGo c2t1.newTrie 5 (c2t1.highStart / UTRIE3_DATA_BLOCK_LENGTH) = 0
  have h69 : c2t1.highStart / UTRIE3_DATA_BLOCK_LENGTH = 69632 := by decide
  refine fhsGo_zero c2t1.newTrie 5 _ ?_
  intro j hj
  rw [h69] at hj
  exact c2_fhsMatch j hj

theorem c2_HS : ctHighStart c2t1 = 0 := by
  unfold ctHighStart
  rw [c2_hs0]
  rw [if_neg (by decide : ¬ (0 : Nat) % UTRIE3_CP_PER_INDEX_1_ENTRY ≠ 0)]

theorem c2_nt1 : ctNt1 c2t1 = c2nt := by
  unfold ctNt1
  rw [c2_hs0]
  rw [if_neg (by decide : ¬ (0 : Nat) % UTRIE3_CP_PER_INDEX_1_ENTRY ≠ 0)]
  rfl

theorem c2_hv2 : ctHighValue2 c2t1 = 5 := by
  unfold ctHighValue2
  rw [c2_HS]
  rw [if_neg (by decide : ¬ (0 : Nat) = UNICODE_LIMIT)]
  exact c2_hV

theorem c2_supp : ctSuppHighStart c2t1 = 0x10000 := by
  unfold ctSuppHighStart
  rw [c2_HS]
  rw [if_pos (by decide : (0 : Nat) ≤ BMP_LIMIT)]
  rfl

theorem c2_nt2 : ctNt2 c2t1 = c2nt := by
  unfold ctNt2
  rw [c2_HS, c2_nt1, c2_hv2]
  rw [if_pos (by decide : (0 : Nat) ≤ BMP_LIMIT)]
  refine UNewTrie3_ext _ _ ?_ ?_ (fun j => rfl) rfl rfl rfl
  · intro i
    show (if 0 / UTRIE3_DATA_BLOCK_LENGTH ≤ i ∧ i < BMP_I_LIMIT then ALL_SAME
        else c2nt.flags i) = c2nt.flags i
    split
    · rfl
    · rfl
  · intro i
    show (if 0 / UTRIE3_DATA_BLOCK_LENGTH ≤ i ∧ i < BMP_I_LIMIT then 5
        else c2nt.index i) = c2nt.index i
    by_cases hc : 0 / UTRIE3_DATA_BLOCK_LENGTH ≤ i ∧ i < BMP_I_LIMIT
    · rw [if_pos hc]
      show (5 : Nat) = if i < 69632 then 5 else 0
      rw [if_pos (by simp only [BMP_I_LIMIT_eq] at hc; omega)]
    · rw [if_neg hc]

/-- The compacted-input trie: `compactTrie`'s working state just before
`compactData` on the example build. -/
def c2tm : UTrie3 :=
  { initialValue := 0
    errorValue := 0
    highValue := 5
    highStart := 0
    highStartLead16 := 0xd7c0
    shiftedHighStart := 0
    index2NullOffset := UTRIE3_NO_INDEX2_NULL_OFFSET
    dataNullOffset := UTRIE3_NO_DATA_NULL_OFFSET
    indexLength := 0
    dataLength := 0
    newTrie := c2nt }

theorem c2_ctT1 : ctT1 c2t1 = c2tm := by
  unfold ctT1
  rw [c2_HS, c2_hv2, c2_nt2]
  refine UTrie3_ext _ _ rfl rfl rfl rfl (by decide) (by decide) rfl rfl rfl rfl rfl

/-- The `AllSameBlocks` cache while `compactWholeDataBlocks` walks the
uniform example trie: one entry (block 0, value 5) with `k` references. -/
def c2asb (k : Nat) : AllSameBlocks :=
  { length := 1
    mostRecent := 0
    indexes := fun _ => 0
    values := fun j => if j = 0 then 5 else 0
    refCounts := fun j => if j = 0 then k else 0 }

/-- The example `newTrie` after `compactWholeDataBlocks` has processed slots
`[0, k)`: slot 0 stays ALL_SAME, slots `[1, k)` become SAME_AS block 0. -/
def c2ntWk (k : Nat) : UNewTrie3 :=
  { flags := fun j => if 1 ≤ j ∧ j < k then SAME_AS else ALL_SAME
    index := fun j => if 1 ≤ j ∧ j < k then 0 else if j < 69632 then 5 else 0
    data := fun _ => 0
    dataCapacity := UNEWTRIE3_INITIAL_DATA_LENGTH
    dataLength := 0
    dataNullIndex := -1 }

def c2cwdbState (k : Nat) : CWDBState := ⟨c2ntWk k, c2asb k, 16⟩

theorem cwdbGo_succ (n i : Nat) (s : CWDBState) :
    cwdbGo (n + 1) i s = cwdbGo n (i + 1) (cwdbStep s i) := rfl

theorem c2_cwdbStep0 : cwdbStep ⟨c2nt, asbInit, 0⟩ 0 = c2cwdbState 1 := by
  refine CWDBState_ext _ _ ?_ ?_ rfl
  · show c2nt = c2ntWk 1
    refine UNewTrie3_ext _ _ ?_ ?_ (fun j => rfl) rfl rfl rfl
    · intro j
      show ALL_SAME = if 1 ≤ j ∧ j < 1 then SAME_AS else ALL_SAME
      rw [if_neg (show ¬ (1 ≤ j ∧ j < 1) by omega)]
    · intro j
      show (if j < 69632 then 5 else 0) = if 1 ≤ j ∧ j < 1 then 0
        else if j < 69632 then 5 else 0
      rw [if_neg (show ¬ (1 ≤ j ∧ j < 1) by omega)]
  · refine AllSameBlocks_ext _ _ rfl rfl ?_ ?_ ?_
    · intro j
      show upd asbInit.indexes asbInit.length 0 j = (c2asb 1).indexes j
      simp only [upd]
      by_cases hj : j = asbInit.length
      · rw [if_pos hj]
        rfl
      · rw [if_neg hj]
        rfl
    · intro j
      show upd asbInit.values asbInit.length 5 j = (c2asb 1).values j
      simp only [upd]
      by_cases hj : j = asbInit.length
      · subst hj
        rfl
      · rw [if_neg hj]
        show (0 : Nat) = if j = 0 then 5 else 0
        rw [if_neg (show ¬ j = 0 from hj)]
    · intro j
      show upd asbInit.refCounts asbInit.length 1 j = (c2asb 1).refCounts j
      simp only [upd]
      by_cases hj : j = asbInit.length
      · subst hj
        rfl
      · rw [if_neg hj]
        show (0 : Nat) = if j = 0 then 1 else 0
        rw [if_neg (show ¬ j = 0 from hj)]

theorem c2_cwdbStep (k : Nat) (hk1 : 1 ≤ k) (hk2 : k < 4096) :
    cwdbStep (c2cwdbState k) k = c2cwdbState (k + 1) := by
  have hfl : (c2cwdbState k).nt.flags k = ALL_SAME := by
    show (if 1 ≤ k ∧ k < k then SAME_AS else ALL_SAME) = ALL_SAME
    rw [if_neg (show ¬ (1 ≤ k ∧ k < k) by omega)]
  have hix : (c2cwdbState k).nt.index k = 5 := by
    show (if 1 ≤ k ∧ k < k then 0 else if k < 69632 then 5 else 0) = 5
    rw [if_neg (show ¬ (1 ≤ k ∧ k < k) by omega),
      if_pos (show k < 69632 by omega)]
  show cwdbStep (c2cwdbState k) k = c2cwdbState (k + 1)
  simp only [cwdbStep]
  rw [hfl, hix]
  rw [if_neg (by decide : ¬ (ALL_SAME = MIXED))]
  simp only [cwdbAllSame, asbFindOrAdd]
  have hmr : (c2cwdbState k).asb.mostRecent ≥ 0 := le_refl (0 : Int)
  have hv5 : (c2cwdbState k).asb.values (c2cwdbState k).asb.mostRecent.toNat = 5 := rfl
  have hcond : (c2cwdbState k).asb.mostRecent ≥ 0 ∧
      (c2cwdbState k).asb.values (c2cwdbState k).asb.mostRecent.toNat = 5 := ⟨hmr, hv5⟩
  have hnov : ¬ (((c2cwdbState k).asb.indexes (c2cwdbState k).asb.mostRecent.toNat : Int)
      = ASB_OVERFLOW) := show ¬ ((0 : Int) = ASB_OVERFLOW) by decide
  have hge : ((c2cwdbState k).asb.indexes (c2cwdbState k).asb.mostRecent.toNat : Int) ≥ 0 :=
    show (0 : Int) ≥ 0 by decide
  rw [if_pos hcond]
  dsimp only
  rw [if_neg hnov]
  dsimp only
  rw [if_pos hge]
  rw [if_neg (show ¬ k ≥ BMP_I_LIMIT by simp only [BMP_I_LIMIT_eq]; omega)]
  refine CWDBState_ext _ _ ?_ ?_ rfl
  · refine UNewTrie3_ext _ _ ?_ ?_ (fun j => rfl) rfl rfl rfl
    · intro j
      show upd (c2cwdbState k).nt.flags k SAME_AS j = (c2ntWk (k + 1)).flags j
      simp only [upd]
      by_cases hj : j = k
      · rw [if_pos hj]
        show SAME_AS = if 1 ≤ j ∧ j < k + 1 then SAME_AS else ALL_SAME
        rw [if_pos (by omega)]
      · rw [if_neg hj]
        show (if 1 ≤ j ∧ j < k then SAME_AS else ALL_SAME)
          = if 1 ≤ j ∧ j < k + 1 then SAME_AS else ALL_SAME
        by_cases hin : 1 ≤ j ∧ j < k
        · rw [if_pos hin, if_pos (by omega)]
        · rw [if_neg hin, if_neg (show ¬ (1 ≤ j ∧ j < k + 1) by omega)]
    · intro j
      show upd (c2cwdbState k).nt.index k
          (((c2cwdbState k).asb.indexes (c2cwdbState k).asb.mostRecent.toNat : Int)).toNat j
        = (c2ntWk (k + 1)).index j
      simp only [upd]
      by_cases hj : j = k
      · rw [if_pos hj]
        show (0 : Nat) = if 1 ≤ j ∧ j < k + 1 then 0 else if j < 69632 then 5 else 0
        rw [if_pos (by omega)]
      · rw [if_neg hj]
        show (if 1 ≤ j ∧ j < k then 0 else if j < 69632 then 5 else 0)
          = if 1 ≤ j ∧ j < k + 1 then 0 else if j < 69632 then 5 else 0
        by_cases hin : 1 ≤ j ∧ j < k
        · rw [if_pos hin, if_pos (by omega)]
        · rw [if_neg hin, if_neg (show ¬ (1 ≤ j ∧ j < k + 1) by omega)]
  · refine AllSameBlocks_ext _ _ rfl rfl (fun j => rfl) (fun j => rfl) ?_
    intro j
    show upd (c2cwdbState k).asb.refCounts (c2cwdbState k).asb.mostRecent.toNat
        ((c2cwdbState k).asb.refCounts (c2cwdbState k).asb.mostRecent.toNat + 1) j
      = (c2asb (k + 1)).refCounts j
    simp only [upd]
    by_cases hj : j = (c2cwdbState k).asb.mostRecent.toNat
    · rw [if_pos hj]
      have hj0 : j = 0 := hj
      subst hj0
      show (if (0 : Nat) = 0 then k else 0) + 1 = if (0 : Nat) = 0 then k + 1 else 0
      rw [if_pos rfl, if_pos rfl]
    · rw [if_neg hj]
      show (if j = 0 then k else 0) = if j = 0 then k + 1 else 0
      rw [if_neg (show ¬ j = 0 from hj), if_neg (show ¬ j = 0 from hj)]

theorem c2_cwdbGo : ∀ m k, 1 ≤ k → k + m = 4096 →
    cwdbGo m k (c2cwdbState k) = c2cwdbState 4096 := by
  intro m
  induction m with
  | zero =>
    intro k _ hk
    have hk' : k = 4096 := by omega
    subst hk'
    rfl
  | succ m ih =>
    intro k hk1 hk
    rw [cwdbGo_succ]
    rw [c2_cwdbStep k hk1 (by omega)]
    exact ih (k + 1) (by omega) (by omega)

/-- The example `newTrie` after `compactWholeDataBlocks`. -/
def c2ntW : UNewTrie3 := { c2ntWk 4096 with dataNullIndex := 0 }

theorem c2_cwdb : compactWholeDataBlocks c2nt 0x10000 = (16, c2ntW) := by
  unfold compactWholeDataBlocks
  have h4096 : (0x10000 : Nat) / UTRIE3_DATA_BLOCK_LENGTH = 4095 + 1 := by decide
  rw [h4096]
  rw [cwdbGo_succ]
  rw [c2_cwdbStep0]
  rw [c2_cwdbGo 4095 1 (by omega) (by omega)]
  rfl

theorem cdGo_succ (g n i : Nat) (s : CDState) :
    cdGo g (n + 1) i s = cdGo g n (i + 1) (cdStep g s i) := rfl

/-- `compactData`'s per-slot loop leaves the state unchanged on a run of
SAME_AS slots (neither pass matches ALL_SAME or MIXED). -/
theorem cdGo_skip_sameas (g : Nat) : ∀ n i s,
    (∀ k, i ≤ k → k < i + n → s.nt.flags k = SAME_AS) → cdGo g n i s = s := by
  intro n
  induction n with
  | zero => intro i s _; rfl
  | succ n ih =>
    intro i s h
    have hfl : s.nt.flags i = SAME_AS := h i (le_refl i) (by omega)
    have hstep : cdStep g s i = s := by
      simp only [cdStep]
      rw [hfl]
      have hmask : (if g ≠ 1 then SAME_AS &&& TYPE_MASK else SAME_AS) = SAME_AS := by
        split
        · decide
        · rfl
      rw [hmask]
      rw [if_neg (by decide : ¬ (SAME_AS = ALL_SAME)),
        if_neg (by decide : ¬ (SAME_AS = MIXED))]
    rw [cdGo_succ, hstep]
    exact ih (i + 1) s (fun k hk1 hk2 => h k (by omega) (by omega))

/-- The ASCII data snapshot of the example: every ASCII code point reads 5. -/
def c2d0 : Nat → Nat := fun j => if j < 128 then 5 else 0

/-- The example `newTrie` after the ASCII slots have been marked MOVED. -/
def c2ntA : UNewTrie3 :=
  { c2ntW with
    flags := fun i => if i < ASCII_I_LIMIT then MOVED else c2ntW.flags i
    index := fun i => if i < ASCII_I_LIMIT then i * UTRIE3_DATA_BLOCK_LENGTH
      else c2ntW.index i }

/-- The example `newTrie` after the whole of `compactData`. -/
def c2ntC : UNewTrie3 :=
  { flags := fun i => if i < 4096 then MOVED else ALL_SAME
    index := fun i => if i < 8 then i * 16
      else if i < 4096 then 0 else if i < 69632 then 5 else 0
    data := c2d0
    dataCapacity := 144
    dataLength := 128
    dataNullIndex := 0 }

/-- The example trie after `compactData` (`dataNullOffset` resolves to 0). -/
def c2tc : UTrie3 :=
  { initialValue := 5
    errorValue := 0
    highValue := 5
    highStart := 0
    highStartLead16 := 0xd7c0
    shiftedHighStart := 0
    index2NullOffset := UTRIE3_NO_INDEX2_NULL_OFFSET
    dataNullOffset := 0
    indexLength := 0
    dataLength := 128
    newTrie := c2ntC }

theorem c2_flags_sameas (k : Nat) (h1 : 8 ≤ k) (h2 : k < 4096) :
    ({ flags := fun i => if i < ASCII_I_LIMIT then MOVED else c2ntW.flags i, index := fun i => if i < ASCII_I_LIMIT then i * UTRIE3_DATA_BLOCK_LENGTH else c2ntW.index i, data := c2ntW.data, dataCapacity := c2ntW.dataCapacity, dataLength := c2ntW.dataLength, dataNullIndex := c2ntW.dataNullIndex } : UNewTrie3).flags k = SAME_AS := by
  show (if k < ASCII_I_LIMIT then MOVED else c2ntW.flags k) = SAME_AS
  rw [if_neg (show ¬ k < ASCII_I_LIMIT by simp only [ASCII_I_LIMIT_eq]; omega)]
  show (if 1 ≤ k ∧ k < 4096 then SAME_AS else ALL_SAME) = SAME_AS
  rw [if_pos (by omega)]

theorem c2_s3gen (s1 : CDState)
    (hs1 : s1 = ({ nt := { flags := fun i => if i < ASCII_I_LIMIT then MOVED else c2ntW.flags i, index := fun i => if i < ASCII_I_LIMIT then i * UTRIE3_DATA_BLOCK_LENGTH else c2ntW.index i, data := c2ntW.data, dataCapacity := c2ntW.dataCapacity, dataLength := c2ntW.dataLength, dataNullIndex := c2ntW.dataNullIndex }, newData := c2d0, newStart := ASCII_LIMIT } : CDState)) :
    cdGo UTRIE3_DATA_GRANULARITY (65536 / UTRIE3_DATA_BLOCK_LENGTH - ASCII_I_LIMIT)
      ASCII_I_LIMIT
      { nt := s1.nt
        newData := (cdPad s1.newData s1.newStart).1
        newStart := (cdPad s1.newData s1.newStart).2 }
    = { nt := { flags := fun i => if i < ASCII_I_LIMIT then MOVED else c2ntW.flags i, index := fun i => if i < ASCII_I_LIMIT then i * UTRIE3_DATA_BLOCK_LENGTH else c2ntW.index i, data := c2ntW.data, dataCapacity := c2ntW.dataCapacity, dataLength := c2ntW.dataLength, dataNullIndex := c2ntW.dataNullIndex }, newData := c2d0, newStart := ASCII_LIMIT } := by
  subst hs1
  show cdGo UTRIE3_DATA_GRANULARITY (65536 / UTRIE3_DATA_BLOCK_LENGTH - ASCII_I_LIMIT)
      ASCII_I_LIMIT
      { nt := { flags := fun i => if i < ASCII_I_LIMIT then MOVED else c2ntW.flags i, index := fun i => if i < ASCII_I_LIMIT then i * UTRIE3_DATA_BLOCK_LENGTH else c2ntW.index i, data := c2ntW.data, dataCapacity := c2ntW.dataCapacity, dataLength := c2ntW.dataLength, dataNullIndex := c2ntW.dataNullIndex }, newData := (cdPad c2d0 ASCII_LIMIT).1,
        newStart := (cdPad c2d0 ASCII_LIMIT).2 }
    = { nt := { flags := fun i => if i < ASCII_I_LIMIT then MOVED else c2ntW.flags i, index := fun i => if i < ASCII_I_LIMIT then i * UTRIE3_DATA_BLOCK_LENGTH else c2ntW.index i, data := c2ntW.data, dataCapacity := c2ntW.dataCapacity, dataLength := c2ntW.dataLength, dataNullIndex := c2ntW.dataNullIndex }, newData := c2d0, newStart := ASCII_LIMIT }
  have hpad : cdPad c2d0 ASCII_LIMIT = (c2d0, ASCII_LIMIT) := by
    rw [cdPad]
    rw [if_neg (by decide : ¬ ASCII_LIMIT % UTRIE3_DATA_GRANULARITY ≠ 0)]
  rw [hpad]
  refine cdGo_skip_sameas UTRIE3_DATA_GRANULARITY _ _ _ ?_
  intro k hk1 hk2
  simp only [ASCII_I_LIMIT_eq, UTRIE3_DATA_BLOCK_LENGTH_eq] at hk1 hk2
  exact c2_flags_sameas k (by omega) (by omega)

theorem c2_compactData : compactData c2tm 0x10000 = c2tc := by
  have hdni : c2ntW.dataNullIndex ≥ 0 := le_refl (0 : Int)
  have hd0 : (fun j => if j < ASCII_LIMIT then utrie3bld_get c2tm j else 0) = c2d0 := by
    funext j
    show (if j < ASCII_LIMIT then utrie3bld_get c2tm j else 0) = if j < 128 then 5 else 0
    simp only [ASCII_LIMIT_eq]
    by_cases hj : j < 128
    · rw [if_pos hj, if_pos hj]
      show utrie3bld_get c2tm j = 5
      unfold utrie3bld_get
      rw [if_neg (show ¬ j > MAX_UNICODE by simp only [MAX_UNICODE_eq]; omega)]
      rw [if_pos (show j ≥ c2tm.highStart from Nat.zero_le j)]
      rfl
    · rw [if_neg hj, if_neg hj]
  simp only [compactData]
  rw [show c2tm.newTrie = c2nt from rfl]
  rw [c2_cwdb]
  rw [show ((16, c2ntW).2 : UNewTrie3) = c2ntW from rfl]
  rw [show ((16, c2ntW).1 : Nat) = 16 from rfl]
  rw [if_pos hdni]
  rw [if_pos hdni]
  rw [hd0]
  have hsame : ∀ k, ASCII_I_LIMIT ≤ k → k < ASCII_I_LIMIT + (BMP_I_LIMIT - ASCII_I_LIMIT) →
      (⟨{ flags := fun i => if i < ASCII_I_LIMIT then MOVED else c2ntW.flags i, index := fun i => if i < ASCII_I_LIMIT then i * UTRIE3_DATA_BLOCK_LENGTH else c2ntW.index i, data := c2ntW.data, dataCapacity := c2ntW.dataCapacity, dataLength := c2ntW.dataLength, dataNullIndex := c2ntW.dataNullIndex }, c2d0, ASCII_LIMIT⟩ : CDState).nt.flags k = SAME_AS := by
    intro k h1 h2
    simp only [ASCII_I_LIMIT_eq, BMP_I_LIMIT_eq] at h1 h2
    exact c2_flags_sameas k (by omega) (by omega)
  have hskip1 : cdGo 1 (BMP_I_LIMIT - ASCII_I_LIMIT) ASCII_I_LIMIT
      (⟨{ flags := fun i => if i < ASCII_I_LIMIT then MOVED else c2ntW.flags i, index := fun i => if i < ASCII_I_LIMIT then i * UTRIE3_DATA_BLOCK_LENGTH else c2ntW.index i, data := c2ntW.data, dataCapacity := c2ntW.dataCapacity, dataLength := c2ntW.dataLength, dataNullIndex := c2ntW.dataNullIndex }, c2d0, ASCII_LIMIT⟩ : CDState)
    = (⟨{ flags := fun i => if i < ASCII_I_LIMIT then MOVED else c2ntW.flags i, index := fun i => if i < ASCII_I_LIMIT then i * UTRIE3_DATA_BLOCK_LENGTH else c2ntW.index i, data := c2ntW.data, dataCapacity := c2ntW.dataCapacity, dataLength := c2ntW.dataLength, dataNullIndex := c2ntW.dataNullIndex }, c2d0, ASCII_LIMIT⟩ : CDState) :=
    cdGo_skip_sameas 1 (BMP_I_LIMIT - ASCII_I_LIMIT) ASCII_I_LIMIT _ hsame
  rewrite [c2_s3gen _ hskip1]
  refine UTrie3_ext _ _ (by decide) rfl rfl rfl rfl rfl rfl ?_ rfl rfl ?_
  · rw [if_neg (by decide)]
    rfl
  · refine UNewTrie3_ext _ _ ?_ ?_ (fun j => rfl) (by decide) rfl rfl
    · intro i
      show (if ASCII_I_LIMIT ≤ i ∧ i < 65536 / UTRIE3_DATA_BLOCK_LENGTH ∧
          (⟨{ flags := fun i => if i < ASCII_I_LIMIT then MOVED else c2ntW.flags i, index := fun i => if i < ASCII_I_LIMIT then i * UTRIE3_DATA_BLOCK_LENGTH else c2ntW.index i, data := c2ntW.data, dataCapacity := c2ntW.dataCapacity, dataLength := c2ntW.dataLength, dataNullIndex := c2ntW.dataNullIndex }, c2d0, ASCII_LIMIT⟩ : CDState).nt.flags i = SAME_AS
        then MOVED else (⟨{ flags := fun i => if i < ASCII_I_LIMIT then MOVED else c2ntW.flags i, index := fun i => if i < ASCII_I_LIMIT then i * UTRIE3_DATA_BLOCK_LENGTH else c2ntW.index i, data := c2ntW.data, dataCapacity := c2ntW.dataCapacity, dataLength := c2ntW.dataLength, dataNullIndex := c2ntW.dataNullIndex }, c2d0, ASCII_LIMIT⟩ : CDState).nt.flags i)
        = c2ntC.flags i
      show _ = if i < 4096 then MOVED else ALL_SAME
      by_cases h8 : i < 8
      · rw [if_neg (fun hc => absurd hc.1 (by simp only [ASCII_I_LIMIT_eq] at *; omega))]
        show (if i < ASCII_I_LIMIT then MOVED else c2ntW.flags i)
          = if i < 4096 then MOVED else ALL_SAME
        rw [if_pos (by simp only [ASCII_I_LIMIT_eq]; omega), if_pos (by omega)]
      · by_cases h4k : i < 4096
        · rw [if_pos ⟨by simp only [ASCII_I_LIMIT_eq]; omega,
            by simp only [UTRIE3_DATA_BLOCK_LENGTH_eq]; omega,
            c2_flags_sameas i (by omega) h4k⟩]
          rw [if_pos h4k]
        · rw [if_neg (fun hc => absurd hc.2.1
            (by simp only [UTRIE3_DATA_BLOCK_LENGTH_eq]; omega))]
          show (if i < ASCII_I_LIMIT then MOVED else c2ntW.flags i)
            = if i < 4096 then MOVED else ALL_SAME
          rw [if_neg (by simp only [ASCII_I_LIMIT_eq]; omega),
            if_neg (show ¬ i < 4096 from h4k)]
          show (if 1 ≤ i ∧ i < 4096 then SAME_AS else ALL_SAME) = ALL_SAME
          rw [if_neg (by omega)]
    · intro i
      show (if ASCII_I_LIMIT ≤ i ∧ i < 65536 / UTRIE3_DATA_BLOCK_LENGTH ∧
          (⟨{ flags := fun i => if i < ASCII_I_LIMIT then MOVED else c2ntW.flags i, index := fun i => if i < ASCII_I_LIMIT then i * UTRIE3_DATA_BLOCK_LENGTH else c2ntW.index i, data := c2ntW.data, dataCapacity := c2ntW.dataCapacity, dataLength := c2ntW.dataLength, dataNullIndex := c2ntW.dataNullIndex }, c2d0, ASCII_LIMIT⟩ : CDState).nt.flags i = SAME_AS
        then (⟨{ flags := fun i => if i < ASCII_I_LIMIT then MOVED else c2ntW.flags i, index := fun i => if i < ASCII_I_LIMIT then i * UTRIE3_DATA_BLOCK_LENGTH else c2ntW.index i, data := c2ntW.data, dataCapacity := c2ntW.dataCapacity, dataLength := c2ntW.dataLength, dataNullIndex := c2ntW.dataNullIndex }, c2d0, ASCII_LIMIT⟩ : CDState).nt.index
          ((⟨{ flags := fun i => if i < ASCII_I_LIMIT then MOVED else c2ntW.flags i, index := fun i => if i < ASCII_I_LIMIT then i * UTRIE3_DATA_BLOCK_LENGTH else c2ntW.index i, data := c2ntW.data, dataCapacity := c2ntW.dataCapacity, dataLength := c2ntW.dataLength, dataNullIndex := c2ntW.dataNullIndex }, c2d0, ASCII_LIMIT⟩ : CDState).nt.index i)
        else (⟨{ flags := fun i => if i < ASCII_I_LIMIT then MOVED else c2ntW.flags i, index := fun i => if i < ASCII_I_LIMIT then i * UTRIE3_DATA_BLOCK_LENGTH else c2ntW.index i, data := c2ntW.data, dataCapacity := c2ntW.dataCapacity, dataLength := c2ntW.dataLength, dataNullIndex := c2ntW.dataNullIndex }, c2d0, ASCII_LIMIT⟩ : CDState).nt.index i)
        = c2ntC.index i
      show _ = if i < 8 then i * 16
        else if i < 4096 then 0 else if i < 69632 then 5 else 0
      by_cases h8 : i < 8
      · rw [if_neg (fun hc => absurd hc.1 (by simp only [ASCII_I_LIMIT_eq] at *; omega))]
        show (if i < ASCII_I_LIMIT then i * UTRIE3_DATA_BLOCK_LENGTH else c2ntW.index i)
          = if i < 8 then i * 16
            else if i < 4096 then 0 else if i < 69632 then 5 else 0
        rw [if_pos (by simp only [ASCII_I_LIMIT_eq]; omega), if_pos h8]
        rfl
      · by_cases h4k : i < 4096
        · rw [if_pos ⟨by simp only [ASCII_I_LIMIT_eq]; omega,
            by simp only [UTRIE3_DATA_BLOCK_LENGTH_eq]; omega,
            c2_flags_sameas i (by omega) h4k⟩]
          have hin : (⟨{ flags := fun i => if i < ASCII_I_LIMIT then MOVED else c2ntW.flags i, index := fun i => if i < ASCII_I_LIMIT then i * UTRIE3_DATA_BLOCK_LENGTH else c2ntW.index i, data := c2ntW.data, dataCapacity := c2ntW.dataCapacity, dataLength := c2ntW.dataLength, dataNullIndex := c2ntW.dataNullIndex }, c2d0, ASCII_LIMIT⟩ : CDState).nt.index i = 0 := by
            show (if i < ASCII_I_LIMIT then i * UTRIE3_DATA_BLOCK_LENGTH
              else c2ntW.index i) = 0
            rw [if_neg (by simp only [ASCII_I_LIMIT_eq]; omega)]
            show (if 1 ≤ i ∧ i < 4096 then 0 else if i < 69632 then 5 else 0) = 0
            rw [if_pos (by omega)]
          rw [hin]
          rw [if_neg (show ¬ i < 8 from h8), if_pos h4k]
          rfl
        · rw [if_neg (fun hc => absurd hc.2.1
            (by simp only [UTRIE3_DATA_BLOCK_LENGTH_eq]; omega))]
          show (if i < ASCII_I_LIMIT then i * UTRIE3_DATA_BLOCK_LENGTH else c2ntW.index i)
            = if i < 8 then i * 16
              else if i < 4096 then 0 else if i < 69632 then 5 else 0
          rw [if_neg (by simp only [ASCII_I_LIMIT_eq]; omega),
            if_neg (show ¬ i < 8 from h8), if_neg (show ¬ i < 4096 from h4k)]
          show (if 1 ≤ i ∧ i < 4096 then 0 else if i < 69632 then 5 else 0)
            = if i < 69632 then 5 else 0
          rw [if_neg (by omega)]

theorem c2_ci2 : compactIndex2 c2tc 0x10000
    = ({ c2tc with indexLength := BMP_I_LIMIT }, fun _ => 0) := by
  unfold compactIndex2
  rw [if_pos (by decide : (0x10000 : Nat) ≤ BMP_LIMIT)]

theorem c2_compactTrie : compactTrie c2t1
    = ({ c2tc with indexLength := BMP_I_LIMIT }, fun _ => 0) := by
  rw [compactTrie_eq c2t1, c2_ctT1, c2_supp]
  rw [c2_compactData]
  exact c2_ci2

/-- The frozen trie of the example build `open(0,0); setRange(0,0x10FFFF,5,true);
freeze(16)`. -/
def c2frozen : UTrie3Frozen :=
  { initialValue := 5
    errorValue := 0
    highValue := 5
    highStart := 0
    highStartLead16 := 0xd7c0
    shiftedHighStart := 0
    index2NullOffset := UTRIE3_NO_INDEX2_NULL_OFFSET
    dataNullOffset := 0
    indexLength := 4096
    dataLength := 128
    options := 4096 * 4096 + UTRIE3_16_VALUE_BITS
    index := fun q => if q < UTRIE3_INDEX_2_BMP_LENGTH then (4096 + c2ntC.index q) % 0x10000
      else if q < UTRIE3_INDEX_2_BMP_LENGTH + 0 then 0
      else ((4096 + c2ntC.index (q - 0)) / 2) % 0x10000
    data16 := some (fun j => c2ntC.data j % 0x10000)
    data32 := none }

theorem c2_freeze_eq : utrie3bld_freeze c2t1 UTRIE3_16_VALUE_BITS = .ok c2frozen := by
  simp only [utrie3bld_freeze]
  rw [if_neg (by decide : ¬ UTRIE3_16_VALUE_BITS > UTRIE3_32_VALUE_BITS)]
  rw [if_pos (by decide : UTRIE3_16_VALUE_BITS ≠ UTRIE3_32_VALUE_BITS)]
  simp only [if_true]
  rw [c2_mask, c2_compactTrie]
  rw [show (({ c2tc with indexLength := BMP_I_LIMIT }, (fun _ => 0 : Nat → Nat)).1 : UTrie3)
    = { c2tc with indexLength := BMP_I_LIMIT } from rfl]
  rw [show (({ c2tc with indexLength := BMP_I_LIMIT }, (fun _ => 0 : Nat → Nat)).2 : Nat → Nat)
    = (fun _ => 0) from rfl]
  rw [if_neg (by decide :
    ¬ (({ c2tc with indexLength := BMP_I_LIMIT } : UTrie3).indexLength +
      ({ c2tc with indexLength := BMP_I_LIMIT } : UTrie3).dataLength) / 2 > 0xffff)]
  have hok : bmpIndexesOk ({ c2tc with indexLength := BMP_I_LIMIT } : UTrie3).newTrie.index
      ({ c2tc with indexLength := BMP_I_LIMIT } : UTrie3).indexLength
      UTRIE3_INDEX_2_BMP_LENGTH 0 = true := by
    rw [bmpIndexesOk_spec]
    intro k hk
    show BMP_I_LIMIT + c2ntC.index (0 + k) ≤ 0xffff
    have h0k : (0 : Nat) + k = k := by omega
    rw [h0k]
    show BMP_I_LIMIT +
      (if k < 8 then k * 16 else if k < 4096 then 0 else if k < 69632 then 5 else 0) ≤ 0xffff
    simp only [BMP_I_LIMIT_eq]
    split_ifs <;> omega
  rw [hok]
  rw [if_neg (by decide : ¬ (true = false))]
  rfl

/-- C2 (amended): after `open(0, 0)`, `setRange(0, 0x10FFFF, 5, true)` and a
16-bit `freeze`, the frozen trie has `highStart = 0`, `highValue = 5` and
`index2NullOffset` equal to the no-index2-null sentinel `0xFFFF`; but
`dataNullOffset` is 0 (the offset of the deduplicated all-same data block
after compaction), not the no-data-null sentinel `0xFFFFF`. -/
theorem c2_build_freeze_fields :
    ∃ t1 f,
      utrie3bld_setRange (utrie3bld_open 0 0) 0 0x10ffff 5 true = .ok t1 ∧
      utrie3bld_freeze t1 UTRIE3_16_VALUE_BITS = .ok f ∧
      f.highStart = 0 ∧ f.highValue = 5 ∧
      f.index2NullOffset = UTRIE3_NO_INDEX2_NULL_OFFSET ∧
      f.dataNullOffset = 0 :=
  ⟨c2t1, c2frozen, c2_setRange_eq, c2_freeze_eq, rfl, rfl, rfl, rfl⟩

/-- C2 counterexample: in the build `open(0, 0); setRange(0, 0x10FFFF, 5, true);
freeze(16)` the claim's `dataNullOffset == 0xFFFFF` fails: the all-same data
block is found and deduplicated, so `dataNullOffset` is its offset 0, not the
no-data-null sentinel. -/
theorem c2_dataNullOffset_not_sentinel :
    ∃ t1 f,
      utrie3bld_setRange (utrie3bld_open 0 0) 0 0x10ffff 5 true = .ok t1 ∧
      utrie3bld_freeze t1 UTRIE3_16_VALUE_BITS = .ok f ∧
      f.dataNullOffset ≠ UTRIE3_NO_DATA_NULL_OFFSET :=
  ⟨c2t1, c2frozen, c2_setRange_eq, c2_freeze_eq, by decide⟩
